import Mathlib

/-!
# RecordManager: page file, buffer pool and record layer

A shallow embedding of `storage_mgr.c`, `buffer_mgr.c` and `record_mgr.c`.

Conventions of the embedding.

* A C `int` is a Lean `Int`.  Signed overflow is undefined behaviour in C and is
  not modelled: counters are unbounded.  Where an `int` is stored in a page it
  is stored as four little-endian two's-complement bytes.
* A page buffer is a list of bytes; the page file is the list of its
  `PAGE_SIZE` blocks.  A write through one `FILE*` is visible at once to every
  other handle of the same file.
* A pointer to a frame's buffer (`BM_PageHandle.data`) is the index of that
  frame; writing through the pointer updates the frame's `memPage`.
* The module globals of `buffer_mgr.c` (`writtenToDisk`, `readFromDisk`,
  `lruCounter`, `isInitialized_bp`) are fields of the pool state, and so is the
  content of the page file the pool is bound to.
* Latches guard memory against concurrent threads only; the embedding is
  sequential and leaves them out.
-/

namespace RecordManager

/-! ## dberror.h -/

def PAGE_SIZE : Nat := 128

abbrev RC := Nat

def RC_OK : RC := 0
def RC_FILE_NOT_FOUND : RC := 1
def RC_FILE_HANDLE_NOT_INIT : RC := 2
def RC_WRITE_FAILED : RC := 3
def RC_READ_NON_EXISTING_PAGE : RC := 4
def RC_READ_FAILED : RC := 5
def RC_INVALID_INPUT : RC := 10
def RC_MEMORY_ALLOCATION_FAIL : RC := 11
def RC_PAGE_FULL : RC := 12
def RC_UNEXPECTED_ACTION : RC := 25
def RC_RM_NO_MORE_TUPLES : RC := 203
def RC_BP_INIT_ERROR : RC := 401
def RC_BP_SHUNTDOWN_ERROR : RC := 402
def RC_BP_FLUSHPOOL_FAILED : RC := 403
def RC_BP_PIN_ERROR : RC := 404
def RC_BP_UNPIN_ERROR : RC := 405
def RC_BP_UNMARK_ERROR : RC := 406
def RC_BP_FORCE_ERROR : RC := 407
def RC_RM_INVALID_RID : RC := 505
def RC_RM_RECORD_NOT_FOUND : RC := 506

/-! ## storage_mgr.c -/

/-- A page buffer: a list of bytes. -/
abbrev Page := List Nat

/-- The content of a page file: its blocks, first to last. -/
abbrev PageFile := List Page

/-- A block of `PAGE_SIZE` zero bytes. -/
def zeroPage : Page := List.replicate PAGE_SIZE 0

/-- Modelled from the spec: `storage_mgr.h` is not among the sources; the handle
`SM_FileHandle` has the fields `storage_mgr.c` reads and writes, and `mgmtInfo`
records whether the `FILE*` is non-NULL. -/
structure SM_FileHandle where
  totalNumPages : Int
  curPagePos : Int
  mgmtInfo : Bool
deriving DecidableEq, Repr

/-- The function `openPageFile` on an existing file: the page count is read from the file's size. -/
def openPageFile (file : PageFile) : SM_FileHandle :=
  { totalNumPages := (file.length : Int), curPagePos := 0, mgmtInfo := true }

/-- What `fseek` to block `pageNum` followed by `fread` of one block leaves in
`memPage`: the block when the file has it, and `memPage` as it was when the
position is at or past the end of the file (nothing is read). -/
def freadBlock (file : PageFile) (pageNum : Int) (memPage : Page) : Page :=
  if pageNum < 0 then memPage
  else match file[pageNum.toNat]? with
    | some p => p
    | none => memPage

/-- What `fseek` to block `pageNum` followed by `fwrite` of one block does to
the file: the block is replaced, or appended at the end (after a hole of zero
blocks when the position is past the end). -/
def fwriteBlock (file : PageFile) (pageNum : Int) (memPage : Page) : PageFile :=
  if pageNum < 0 then file
  else if pageNum.toNat < file.length then file.set pageNum.toNat memPage
  else file ++ List.replicate (pageNum.toNat - file.length) zeroPage ++ [memPage]

/-- The function `readBlock`. -/
def readBlock (pageNum : Int) (fHandle : SM_FileHandle) (file : PageFile) (memPage : Page) :
    RC × SM_FileHandle × Page :=
  if pageNum < 0 ∨ pageNum > fHandle.totalNumPages then
    (RC_READ_NON_EXISTING_PAGE, fHandle, memPage)
  else
    (RC_OK, { fHandle with curPagePos := pageNum }, freadBlock file pageNum memPage)

/-- The function `writeBlock`. -/
def writeBlock (pageNum : Int) (fHandle : SM_FileHandle) (file : PageFile) (memPage : Page) :
    RC × SM_FileHandle × PageFile :=
  if fHandle.mgmtInfo = false then (RC_FILE_HANDLE_NOT_INIT, fHandle, file)
  else if pageNum < 0 ∨ pageNum > fHandle.totalNumPages then (RC_WRITE_FAILED, fHandle, file)
  else (RC_OK, { fHandle with curPagePos := pageNum }, fwriteBlock file pageNum memPage)

/-- The function `appendEmptyBlock`: a zero block is written at the end of the file. -/
def appendEmptyBlock (fHandle : SM_FileHandle) (file : PageFile) : RC × SM_FileHandle × PageFile :=
  if fHandle.mgmtInfo = false then (RC_FILE_HANDLE_NOT_INIT, fHandle, file)
  else
    (RC_OK,
     { fHandle with totalNumPages := fHandle.totalNumPages + 1,
                    curPagePos := fHandle.totalNumPages + 1 - 1 },
     file ++ [zeroPage])

/-- The loop of `ensureCapacity`: `increasePg` calls of `appendEmptyBlock`. -/
def ensureCapacityLoop : Nat → SM_FileHandle → PageFile → RC × SM_FileHandle × PageFile
  | 0, fHandle, file => (RC_OK, fHandle, file)
  | k + 1, fHandle, file =>
    let r := appendEmptyBlock fHandle file
    if r.1 ≠ RC_OK then r else ensureCapacityLoop k r.2.1 r.2.2

/-- The function `ensureCapacity`. -/
def ensureCapacity (numberOfPages : Int) (fHandle : SM_FileHandle) (file : PageFile) :
    RC × SM_FileHandle × PageFile :=
  if fHandle.mgmtInfo = false then (RC_FILE_HANDLE_NOT_INIT, fHandle, file)
  else if fHandle.totalNumPages < numberOfPages then
    ensureCapacityLoop (numberOfPages - fHandle.totalNumPages).toNat fHandle file
  else (RC_OK, fHandle, file)

/-! ## buffer_mgr.c -/

/-- Modelled from the spec: `buffer_mgr.h` is not among the sources; the
sentinel `NO_PAGE` for an empty frame is -1. -/
def NO_PAGE : Int := -1

/-- Modelled from the spec: `buffer_mgr.h` is not among the sources; the
strategy tags are the three that `pinPage` dispatches on, and `RS_OTHER` stands
for every tag that reaches its `default` branch. -/
inductive ReplacementStrategy where
  | RS_FIFO
  | RS_LRU
  | RS_LRU_K
  | RS_OTHER
deriving DecidableEq, Repr

/-- Modelled from the spec: `buffer_mgr.h` is not among the sources; one page
frame (`Frames`) has the fields `buffer_mgr.c` reads and writes (the latch
array is left out). -/
structure Frames where
  memPage : Page
  pageNumber : Int
  dirty : Bool
  fix_cnt : Int
  lruOrder : Int
deriving DecidableEq, Repr

instance : Inhabited Frames := ⟨⟨[], 0, false, 0, 0⟩⟩

/-- Modelled from the spec: `buffer_mgr.h` is not among the sources; the client
handle `BM_PageHandle` is `{pageNum, data}`, and `data` is the index of the
frame whose buffer it points to. -/
structure BM_PageHandle where
  pageNum : Int
  data : Nat
deriving DecidableEq, Repr

/-- Modelled from the spec: `buffer_mgr.h` is not among the sources; the pool
`BM_BufferPool` has the fields `buffer_mgr.c` reads and writes.  Here it
carries its frame array (`mgmtData`), the module globals and the content of its
page file; `numPages` is the length of `frames`. -/
structure BufferPool where
  frames : List Frames
  strategy : ReplacementStrategy
  stratParam : Int
  writtenToDisk : Int
  readFromDisk : Int
  lruCounter : Int
  isInitialized_bp : Bool
  file : PageFile
deriving DecidableEq, Repr

/-- The field `bm->numPages`. -/
def BufferPool.numPages (bm : BufferPool) : Nat := bm.frames.length

/-- The write-back idiom `openPageFile; writeBlock(pageNumber, ..); closePageFile`
with every return code dropped, as in the source. -/
def storePage (file : PageFile) (pageNumber : Int) (memPage : Page) : PageFile :=
  (writeBlock pageNumber (openPageFile file) file memPage).2.2

/-- The load idiom `openPageFile; ensureCapacity(pageNum, ..); readBlock(pageNum, ..);
closePageFile` with every return code dropped: the file afterwards and the
buffer afterwards. -/
def loadPage (file : PageFile) (pageNum : Int) (memPage : Page) : PageFile × Page :=
  let e := ensureCapacity pageNum (openPageFile file) file
  let r := readBlock pageNum e.2.1 e.2.2 memPage
  (e.2.2, r.2.2)

/-- The frame initialisation loop of `initBufferPool`; `mem i` is what `malloc`
returned for frame `i` (its content is not initialised by the source). -/
def initFrames (mem : Nat → Page) (numPages : Nat) : List Frames :=
  (List.range numPages).map fun i =>
    { memPage := mem i, pageNumber := NO_PAGE, dirty := false, fix_cnt := 0, lruOrder := 0 }

/-- The function `initBufferPool`.  `file = none` is a missing page file;
`stratData = none` is a NULL `stratData`; allocation is assumed to succeed. -/
def initBufferPool (bm : BufferPool) (file : Option PageFile) (numPages : Nat)
    (strategy : ReplacementStrategy) (stratData : Option Int) (mem : Nat → Page) :
    RC × BufferPool :=
  if bm.isInitialized_bp then (RC_OK, bm)
  else match file with
    | none => (RC_FILE_NOT_FOUND, bm)
    | some fl =>
      (RC_OK,
       { frames := initFrames mem numPages,
         strategy := strategy,
         stratParam := match stratData with
           | some d => d
           | none => bm.stratParam,
         writtenToDisk := 0,
         readFromDisk := 0,
         lruCounter := bm.lruCounter,
         isInitialized_bp := true,
         file := fl })

/-- The loop of `forceFlushPool` from frame `i` on: the return code of an
early exit (if any), the frames, the file, `writtenToDisk` and `check_error`. -/
def forceFlushLoop (file : PageFile) (written : Int) (check_error : Int) :
    List Frames → Option RC × List Frames × PageFile × Int × Int
  | [] => (none, [], file, written, check_error)
  | f :: fs =>
    if f.dirty = true ∧ f.fix_cnt = 0 then
      let file1 := storePage file f.pageNumber f.memPage
      let f1 := { f with dirty := false }
      -- here `fix_cnt = 0`, so the early exit is not taken
      let r := forceFlushLoop file1 (written + 1) check_error fs
      (r.1, f1 :: r.2.1, r.2.2)
    else if f.fix_cnt ≠ 0 then
      (some RC_BP_FLUSHPOOL_FAILED, f :: fs, file, written, check_error + 1)
    else
      let r := forceFlushLoop file written (check_error + 1) fs
      (r.1, f :: r.2.1, r.2.2)

/-- The function `forceFlushPool`. -/
def forceFlushPool (bm : BufferPool) : RC × BufferPool :=
  if bm.isInitialized_bp = false then (RC_BP_FLUSHPOOL_FAILED, bm)
  else
    let r := forceFlushLoop bm.file bm.writtenToDisk 0 bm.frames
    let bm1 := { bm with frames := r.2.1, file := r.2.2.1, writtenToDisk := r.2.2.2.1 }
    match r.1 with
    | some rc => (rc, bm1)
    | none =>
      if r.2.2.2.2 = (bm.numPages : Int) then (RC_BP_FLUSHPOOL_FAILED, bm1) else (RC_OK, bm1)

/-- Read `arr[k]`; an index outside the array (undefined in C) reads 0. -/
def getI (arr : List Int) (k : Int) : Int :=
  if k < 0 then 0 else arr.getD k.toNat 0

/-- Write `arr[k] = v`; an index outside the array (undefined in C) writes nothing. -/
def setI (arr : List Int) (k : Int) (v : Int) : List Int :=
  if k < 0 then arr else arr.set k.toNat v

/-- The function `swap` on the cells `arr[a]` and `arr[b]`. -/
def swap (arr : List Int) (a b : Int) : List Int :=
  let temp := getI arr a
  setI (setI arr a (getI arr b)) b temp

/-- The `for` loop of `partition`, `fuel` iterations from index `j`. -/
def partitionLoop (pivot : Int) : Nat → Int → Int → List Int → List Int × Int
  | 0, _, i, arr => (arr, i)
  | fuel + 1, j, i, arr =>
    if getI arr j ≤ pivot then partitionLoop pivot fuel (j + 1) (i + 1) (swap arr (i + 1) j)
    else partitionLoop pivot fuel (j + 1) i arr

/-- The function `partition`: the array afterwards and the pivot index. -/
def partition (arr : List Int) (low high : Int) : List Int × Int :=
  let pivot := getI arr high
  let r := partitionLoop pivot (high - low).toNat low (low - 1) arr
  (swap r.1 (r.2 + 1) high, r.2 + 1)

/-- The function `quickSort` with a bound `fuel` on the recursion depth. -/
def quickSortAux : Nat → List Int → Int → Int → List Int
  | 0, arr, _, _ => arr
  | fuel + 1, arr, low, high =>
    if low < high then
      let r := partition arr low high
      quickSortAux fuel (quickSortAux fuel r.1 low (r.2 - 1)) (r.2 + 1) high
    else arr

/-- The function `quickSort`; the depth never exceeds the number of cells in `low..high`. -/
def quickSort (arr : List Int) (low high : Int) : List Int :=
  quickSortAux (high + 1 - low).toNat arr low high

/-- Read `frames[k]`; an index outside the array (undefined in C) reads the default frame. -/
def frameAt (frames : List Frames) (k : Int) : Frames :=
  if k < 0 then default else frames.getD k.toNat default

/-- The victim replacement common to `FIFO`, `LRU` and `LRU_K`: write the victim
back when dirty, load `pageNum` into its buffer, bump the counters, reset the
frame's fields and fill the handle. -/
def replaceFrame (bm : BufferPool) (idx : Nat) (pageNum : Int) : BufferPool × BM_PageHandle :=
  let f := bm.frames.getD idx default
  let file1 := if f.dirty then storePage bm.file f.pageNumber f.memPage else bm.file
  let written := if f.dirty then bm.writtenToDisk + 1 else bm.writtenToDisk
  let l := loadPage file1 pageNum f.memPage
  let lru := bm.lruCounter + 1
  let f1 : Frames :=
    { memPage := l.2, pageNumber := pageNum, dirty := false, fix_cnt := 1, lruOrder := lru }
  ({ bm with frames := bm.frames.set idx f1, file := l.1, writtenToDisk := written,
             readFromDisk := bm.readFromDisk + 1, lruCounter := lru },
   { pageNum := pageNum, data := idx })

/-- The scan of `FIFO`: `fuel` iterations from `FIFO_PageIndex`; the index of the
first frame met with `fix_cnt == 0` (if any) and `check_error`. -/
def fifoScan (frames : List Frames) : Nat → Int → Int → Option Int × Int
  | 0, _, check_error => (none, check_error)
  | fuel + 1, idx, check_error =>
    if (frameAt frames idx).fix_cnt = 0 then (some idx, check_error)
    else fifoScan frames fuel (Int.tmod (idx + 1) (frames.length : Int)) (check_error + 1)

/-- The function `FIFO`. -/
def FIFO (bm : BufferPool) (page : BM_PageHandle) (pageNum : Int) :
    RC × BufferPool × BM_PageHandle :=
  let start := Int.tmod bm.readFromDisk (bm.numPages : Int)
  let s := fifoScan bm.frames bm.numPages start 0
  let r := match s.1 with
    | some idx => replaceFrame bm idx.toNat pageNum
    | none => (bm, page)
  if s.2 = (bm.numPages : Int) then (RC_BP_PIN_ERROR, r) else (RC_OK, r)

/-- The search loop of `LRU` over `frames[i..]`: the running minimum `comNum`
and its index. -/
def lruScan : List Frames → Nat → Int → Nat → Nat
  | [], _, _, idx => idx
  | f :: fs, i, comNum, idx =>
    if f.lruOrder < comNum then lruScan fs (i + 1) f.lruOrder i
    else lruScan fs (i + 1) comNum idx

/-- The victim index chosen by `LRU`. -/
def lruVictim (frames : List Frames) : Nat :=
  lruScan frames.tail 1 (frameAt frames 0).lruOrder 0

/-- The function `LRU`. -/
def LRU (bm : BufferPool) (_page : BM_PageHandle) (pageNum : Int) :
    RC × BufferPool × BM_PageHandle :=
  (RC_OK, replaceFrame bm (lruVictim bm.frames) pageNum)

/-- The search loop of `LRU_K` over `frames[i..]`: the first index whose
`lruOrder` equals `target`, else the initial `LRU_PageIndex`. -/
def lruKScan (target : Int) : List Frames → Nat → Nat
  | [], _ => 0
  | f :: fs, i => if target = f.lruOrder then i else lruKScan target fs (i + 1)

/-- The victim index chosen by `LRU_K`. -/
def lruKVictim (frames : List Frames) (k : Int) : Nat :=
  let orderNum := quickSort (frames.map Frames.lruOrder) 0 ((frames.length : Int) - 1)
  lruKScan (getI orderNum ((frames.length : Int) - k)) frames 0

/-- The function `LRU_K`. -/
def LRU_K (bm : BufferPool) (_page : BM_PageHandle) (pageNum : Int) :
    RC × BufferPool × BM_PageHandle :=
  (RC_OK, replaceFrame bm (lruKVictim bm.frames bm.stratParam) pageNum)

/-- The function `markDirty`. -/
def markDirty (bm : BufferPool) (page : BM_PageHandle) : RC × BufferPool :=
  let frames1 := bm.frames.map fun f =>
    if f.pageNumber = page.pageNum then { f with dirty := true } else f
  let check_error := (bm.frames.filter fun f => decide (f.pageNumber ≠ page.pageNum)).length
  if check_error = bm.numPages then (RC_BP_UNMARK_ERROR, { bm with frames := frames1 })
  else (RC_OK, { bm with frames := frames1 })

/-- The loop of `unpinPage` over the frames: the return code and the frames. -/
def unpinLoop (pageNum : Int) : List Frames → RC × List Frames
  | [] => (RC_BP_UNPIN_ERROR, [])
  | f :: fs =>
    if f.pageNumber = pageNum then
      if f.fix_cnt > 0 then (RC_OK, { f with fix_cnt := f.fix_cnt - 1 } :: fs)
      else (RC_BP_UNPIN_ERROR, f :: fs)
    else
      let r := unpinLoop pageNum fs
      (r.1, f :: r.2)

/-- The function `unpinPage`. -/
def unpinPage (bm : BufferPool) (page : BM_PageHandle) : RC × BufferPool :=
  let r := unpinLoop page.pageNum bm.frames
  (r.1, { bm with frames := r.2 })

/-- The loop of `forcePage` over the frames: the frames, the file,
`writtenToDisk` and `check_error`. -/
def forcePageLoop (pageNum : Int) (file : PageFile) (written : Int) (check_error : Int) :
    List Frames → List Frames × PageFile × Int × Int
  | [] => ([], file, written, check_error)
  | f :: fs =>
    if f.pageNumber = pageNum then
      let r := forcePageLoop pageNum (storePage file f.pageNumber f.memPage) (written + 1)
        check_error fs
      ({ f with dirty := false } :: r.1, r.2)
    else
      let r := forcePageLoop pageNum file written (check_error + 1) fs
      (f :: r.1, r.2)

/-- The function `forcePage`. -/
def forcePage (bm : BufferPool) (page : BM_PageHandle) : RC × BufferPool :=
  let r := forcePageLoop page.pageNum bm.file bm.writtenToDisk 0 bm.frames
  let bm1 := { bm with frames := r.1, file := r.2.1, writtenToDisk := r.2.2.1 }
  if r.2.2.2 = (bm.numPages : Int) then (RC_BP_FORCE_ERROR, bm1) else (RC_OK, bm1)

/-- The first index `i` with `frames[i].pageNumber == pageNum`, as the search
loops of `pinPage` find it. -/
def findPage (pageNum : Int) : List Frames → Option Nat
  | [] => none
  | f :: fs =>
    if f.pageNumber = pageNum then some 0
    else match findPage pageNum fs with
      | some i => some (i + 1)
      | none => none

/-- The function `pinPage`. -/
def pinPage (bm : BufferPool) (page : BM_PageHandle) (pageNum : Int) :
    RC × BufferPool × BM_PageHandle :=
  if bm.isInitialized_bp = false then (RC_BP_PIN_ERROR, bm, page)
  else if pageNum < 0 then (RC_BP_PIN_ERROR, bm, page)
  else match findPage pageNum bm.frames with
    | some i =>
      let f := bm.frames.getD i default
      let lru := bm.lruCounter + 1
      (RC_OK,
       { bm with lruCounter := lru,
                 frames := bm.frames.set i { f with fix_cnt := f.fix_cnt + 1, lruOrder := lru } },
       { pageNum := pageNum, data := i })
    | none =>
      match findPage NO_PAGE bm.frames with
      | some freeSlotIndex =>
        let f := bm.frames.getD freeSlotIndex default
        let l := loadPage bm.file pageNum f.memPage
        (RC_OK,
         { bm with file := l.1, readFromDisk := bm.readFromDisk + 1,
                   frames := bm.frames.set freeSlotIndex
                     { f with memPage := l.2, fix_cnt := 1, pageNumber := pageNum } },
         { pageNum := pageNum, data := freeSlotIndex })
      | none =>
        match bm.strategy with
        | .RS_FIFO => FIFO bm page pageNum
        | .RS_LRU => LRU bm page pageNum
        | .RS_LRU_K => LRU_K bm page pageNum
        | .RS_OTHER => (RC_BP_PIN_ERROR, bm, page)

/-! ## tables.h and record_mgr.c

Sizes follow the common ABI the source is built for: `sizeof(int) = 4`,
`sizeof(float) = 4`, `bool` is the `short` of `dt.h` (2 bytes), an enum is an
`int`, and a struct is padded to the alignment of `int`, so
`sizeof(SlotDirectoryEntry) = 8` and `sizeof(PageDirectoryEntry) = 16`.
An access outside a buffer or array is undefined behaviour in C; the functions
below return `none` for it. -/

def SIZEOF_INT : Nat := 4
def SIZEOF_FLOAT : Nat := 4
def SIZEOF_BOOL : Nat := 2
def SIZEOF_SLOT : Nat := 8
def SIZEOF_PDE : Nat := 16

def DT_INT : Int := 0
def DT_STRING : Int := 1
def DT_FLOAT : Int := 2
def DT_BOOL : Int := 3

/-- The value of an `int` expression converted to a 32-bit `int`. -/
def toInt32 (v : Int) : Int :=
  let u := v % 4294967296
  if u < 2147483648 then u else u - 4294967296

/-- The value of an expression converted to `size_t` (64-bit unsigned). -/
def toSizeT (v : Int) : Int := v % 18446744073709551616

/-- The four bytes of an `int` in memory (little-endian two's complement). -/
def encodeInt (v : Int) : List Nat :=
  let u := (v % 4294967296).toNat
  [u % 256, u / 256 % 256, u / 65536 % 256, u / 16777216 % 256]

/-- The `int` held in (the first four of) the given bytes. -/
def decodeInt (bs : List Nat) : Int :=
  let u := bs.getD 0 0 + 256 * bs.getD 1 0 + 65536 * bs.getD 2 0 + 16777216 * bs.getD 3 0
  if u < 2147483648 then (u : Int) else (u : Int) - 4294967296

/-- The two bytes of a `short` in memory. -/
def encodeShort (v : Int) : List Nat :=
  let u := (v % 65536).toNat
  [u % 256, u / 256 % 256]

/-- The `short` held in (the first two of) the given bytes. -/
def decodeShort (bs : List Nat) : Int :=
  let u := bs.getD 0 0 + 256 * bs.getD 1 0
  if u < 32768 then (u : Int) else (u : Int) - 65536

/-- Read `n` bytes at `buf + off`; `none` when the range leaves the buffer. -/
def readBytes (buf : Page) (off : Int) (n : Nat) : Option (List Nat) :=
  if 0 ≤ off ∧ off.toNat + n ≤ buf.length then some ((buf.drop off.toNat).take n) else none

/-- The function `memcpy(buf + off, bs, |bs|)`; `none` when the range leaves the buffer. -/
def writeBytes (buf : Page) (off : Int) (bs : List Nat) : Option Page :=
  if 0 ≤ off ∧ off.toNat + bs.length ≤ buf.length then
    some (buf.take off.toNat ++ bs ++ buf.drop (off.toNat + bs.length))
  else none

/-- Read an `int` at `buf + off`. -/
def readInt (buf : Page) (off : Int) : Option Int :=
  (readBytes buf off SIZEOF_INT).map decodeInt

/-- Read a `short` at `buf + off`. -/
def readShort (buf : Page) (off : Int) : Option Int :=
  (readBytes buf off SIZEOF_BOOL).map decodeShort

/-- The struct `RID`. -/
structure RID where
  page : Int
  slot : Int
deriving DecidableEq, Repr

/-- The struct `Record`; `data` is the buffer of `getRecordSize(schema)` bytes. -/
structure Record where
  id : RID
  data : List Nat
deriving DecidableEq, Repr

/-- The struct `PageDirectoryEntry`; `hasFreeSlot` is the `short` it is in C. -/
structure PageDirectoryEntry where
  pageID : Int
  hasFreeSlot : Int
  freeSpace : Int
  recordCount : Int
deriving DecidableEq, Repr

/-- The struct `Schema`: attribute names are C strings without their
terminator, data types are the `int` values of the enum. -/
structure Schema where
  numAttr : Int
  attrNames : List (List Nat)
  dataTypes : List Int
  typeLength : List Int
  keyAttrs : List Int
  keySize : Int
deriving DecidableEq, Repr

/-- The struct `RM_managementData` (without the scratch pointer `memPageSM`). -/
structure RM_managementData where
  fileHndl : SM_FileHandle
  bm : BufferPool
  pageHndlBM : BM_PageHandle
  pageDirectory : List PageDirectoryEntry
  numPages : Int
  numPageDP : Int
deriving DecidableEq, Repr

/-- The struct `RM_TableData` (without the table name). -/
structure RM_TableData where
  schema : Schema
  managementData : RM_managementData
deriving DecidableEq, Repr

/-- The 16 bytes of a `PageDirectoryEntry` in memory (padding bytes zero). -/
def encodePDE (e : PageDirectoryEntry) : List Nat :=
  encodeInt e.pageID ++ encodeShort e.hasFreeSlot ++ [0, 0] ++ encodeInt e.freeSpace ++
    encodeInt e.recordCount

/-- The `PageDirectoryEntry` held in 16 bytes. -/
def decodePDE (bs : List Nat) : PageDirectoryEntry :=
  { pageID := decodeInt bs, hasFreeSlot := decodeShort (bs.drop 4),
    freeSpace := decodeInt (bs.drop 8), recordCount := decodeInt (bs.drop 12) }

/-- The loop of `getRecordSize` over the attributes `i..numAttr-1`.  The
accumulator `recordSize` is an `int`: `recordSize += sizeof(..)` is computed in
`size_t` and converted back to `int`, `recordSize += typeLength[i]` is an `int`
addition; both keep the low 32 bits (two's complement), which `toInt32` gives. -/
def getRecordSizeLoop : Nat → Nat → Schema → Int → Option Int
  | 0, _, _, recordSize => some recordSize
  | fuel + 1, i, schema, recordSize =>
    match schema.dataTypes[i]? with
    | none => none
    | some dt =>
      if dt = DT_INT then
        getRecordSizeLoop fuel (i + 1) schema (toInt32 (recordSize + SIZEOF_INT))
      else if dt = DT_FLOAT then
        getRecordSizeLoop fuel (i + 1) schema (toInt32 (recordSize + SIZEOF_FLOAT))
      else if dt = DT_STRING then
        match schema.typeLength[i]? with
        | none => none
        | some len => getRecordSizeLoop fuel (i + 1) schema (toInt32 (recordSize + len))
      else if dt = DT_BOOL then
        getRecordSizeLoop fuel (i + 1) schema (toInt32 (recordSize + SIZEOF_BOOL))
      else getRecordSizeLoop fuel (i + 1) schema recordSize

/-- The function `getRecordSize`. -/
def getRecordSize (schema : Schema) : Option Int :=
  getRecordSizeLoop schema.numAttr.toNat 0 schema 0

/-- The bytes of `cnt` consecutive `int`s read from the array `xs`
(`memcpy(.., xs, cnt * sizeof(int))`); `none` when `cnt` is negative or the
array is shorter. -/
def intArrayBytes (xs : List Int) (cnt : Int) : Option (List Nat) :=
  if 0 ≤ cnt ∧ cnt.toNat ≤ xs.length then some ((xs.take cnt.toNat).map encodeInt).flatten
  else none

/-- The loop of `createTable` that stores the attribute names `i..numAttr-1`:
`some (inl rc)` is the early `RC_PAGE_FULL` exit, `some (inr (page, offset))`
the state after the loop. -/
def writeAttrNames (names : List (List Nat)) : Nat → Nat → Page → Int → Option (RC ⊕ (Page × Int))
  | 0, _, page, offset => some (.inr (page, offset))
  | fuel + 1, i, page, offset =>
    match names[i]? with
    | none => none
    | some attrName =>
      let lengthName : Int := (attrName.length : Int) + 1
      if offset + lengthName > (PAGE_SIZE : Int) then some (.inl RC_PAGE_FULL)
      else match writeBytes page offset (attrName ++ [0]) with
        | none => none
        | some page1 => writeAttrNames names fuel (i + 1) page1 (offset + lengthName)

/-- The part of `createTable` that builds the Table Information page (page 0)
from the schema: `(RC_PAGE_FULL, _)` on an early exit, else `(RC_OK, page)`. -/
def encodeSchemaPage (schema : Schema) : Option (RC × Page) :=
  let page0 : Page := zeroPage
  if (PAGE_SIZE : Int) < 0 + SIZEOF_INT then some (RC_PAGE_FULL, page0)
  else do
    let page1 ← writeBytes page0 0 (encodeInt schema.numAttr)
    let offset : Int := SIZEOF_INT
    match ← writeAttrNames schema.attrNames schema.numAttr.toNat 0 page1 offset with
    | .inl rc => some (rc, page1)
    | .inr (page2, offset) =>
      if toSizeT (offset + toSizeT schema.numAttr * SIZEOF_INT) > (PAGE_SIZE : Int) then
        some (RC_PAGE_FULL, page2)
      else do
        let page3 ← writeBytes page2 offset (← intArrayBytes schema.dataTypes schema.numAttr)
        let offset := toInt32 (offset + toSizeT schema.numAttr * SIZEOF_INT)
        if toSizeT (offset + toSizeT schema.numAttr * SIZEOF_INT) > (PAGE_SIZE : Int) then
          some (RC_PAGE_FULL, page3)
        else do
          let page4 ← writeBytes page3 offset (← intArrayBytes schema.typeLength schema.numAttr)
          let offset := toInt32 (offset + toSizeT schema.numAttr * SIZEOF_INT)
          if toSizeT (offset + SIZEOF_INT + toSizeT schema.keySize * SIZEOF_INT) > (PAGE_SIZE : Int)
          then some (RC_PAGE_FULL, page4)
          else do
            let page5 ← writeBytes page4 offset (encodeInt schema.keySize)
            let offset := offset + SIZEOF_INT
            let page6 ← writeBytes page5 offset (← intArrayBytes schema.keyAttrs schema.keySize)
            some (RC_OK, page6)

/-- The first directory page as `createTable` builds it: `numPages = 1`,
`numPageDP = 1` and the entry of data page 0. -/
def initialDirectoryPage : Option Page := do
  let firstPage : PageDirectoryEntry :=
    { pageID := 0, hasFreeSlot := 1, freeSpace := PAGE_SIZE, recordCount := 0 }
  let page1 ← writeBytes zeroPage 0 (encodeInt 1)
  let page2 ← writeBytes page1 SIZEOF_INT (encodeInt 1)
  writeBytes page2 (2 * SIZEOF_INT) (encodePDE firstPage)

/-- The function `createTable` for a name no file has yet: the return code and
the page file left on disk.  `createPageFile` leaves one zero block; the
handle opened on it counts one page. -/
def createTable (schema : Schema) : Option (RC × PageFile) := do
  let file0 : PageFile := [zeroPage]
  let fileHandle := openPageFile file0
  let (rc, pageHandle) ← encodeSchemaPage schema
  if rc ≠ RC_OK then some (rc, file0)
  else
    let w0 := writeBlock 0 fileHandle file0 pageHandle
    if w0.1 ≠ RC_OK then some (w0.1, w0.2.2)
    else do
      let dirPage ← initialDirectoryPage
      let w1 := writeBlock 1 w0.2.1 w0.2.2 dirPage
      if w1.1 ≠ RC_OK then some (w1.1, w1.2.2) else some (RC_OK, w1.2.2)

/-- The C string at `buf + off` (what `strdup` copies): the bytes before the
first NUL; `none` when no NUL follows inside the buffer. -/
def cstringAt (buf : Page) (off : Int) : Option (List Nat) :=
  if 0 ≤ off ∧ off.toNat ≤ buf.length then
    let rest := buf.drop off.toNat
    if rest.contains 0 then some (rest.takeWhile fun b => b != 0) else none
  else none

/-- The loop of `openTable` that reads the attribute names `i..numAttr-1`:
the names and the offset after them. -/
def readAttrNames (page : Page) : Nat → Int → Option (List (List Nat) × Int)
  | 0, offset => some ([], offset)
  | fuel + 1, offset => do
    let attrName ← cstringAt page offset
    let r ← readAttrNames page fuel (offset + (attrName.length : Int) + 1)
    some (attrName :: r.1, r.2)

/-- Read `cnt` consecutive `int`s starting at `buf + off`. -/
def readIntArrayLoop (buf : Page) : Nat → Int → Option (List Int)
  | 0, _ => some []
  | cnt + 1, off => do
    let v ← readInt buf off
    let r ← readIntArrayLoop buf cnt (off + SIZEOF_INT)
    some (v :: r)

/-- Read `cnt` consecutive `int`s at `buf + off` (`memcpy(dst, buf + off, size)`
with `size = cnt * sizeof(int)`); `none` when `cnt` is negative or the range
leaves the buffer. -/
def readIntArray (buf : Page) (off : Int) (cnt : Int) : Option (List Int) :=
  if cnt < 0 then none else readIntArrayLoop buf cnt.toNat off

/-- The part of `openTable` that extracts the schema from the copy of page 0. -/
def decodeSchemaPage (pageData : Page) : Option Schema := do
  let numAttr ← readInt pageData 0
  let offset : Int := SIZEOF_INT
  let (attrNames, offset) ← readAttrNames pageData numAttr.toNat offset
  let dataTypeSize := toInt32 (toSizeT numAttr * SIZEOF_INT)
  let dataTypes ← readIntArray pageData offset numAttr
  let offset := offset + dataTypeSize
  let typeLengthSize := toInt32 (toSizeT numAttr * SIZEOF_INT)
  let typeLength ← readIntArray pageData offset numAttr
  let offset := offset + typeLengthSize
  let keySize ← readInt pageData offset
  let offset := offset + SIZEOF_INT
  let keyAttrs ← readIntArray pageData offset keySize
  some { numAttr := numAttr, attrNames := attrNames, dataTypes := dataTypes,
         typeLength := typeLength, keyAttrs := keyAttrs, keySize := keySize }

def maximum_Pages : Nat := 5

/-- The local `maxEntriesInPD` of `insertRecord` and `next`. -/
def maxEntriesInPD : Int := (((PAGE_SIZE - 2 * SIZEOF_INT) / SIZEOF_PDE : Nat) : Int)

/-- Read `cnt` consecutive directory entries starting at `buf + off`. -/
def readPDEArray (buf : Page) : Nat → Int → Option (List PageDirectoryEntry)
  | 0, _ => some []
  | cnt + 1, off => do
    let bs ← readBytes buf off SIZEOF_PDE
    let r ← readPDEArray buf cnt (off + SIZEOF_PDE)
    some (decodePDE bs :: r)

/-- The buffer a page handle points to. -/
def handleData (bm : BufferPool) (page : BM_PageHandle) : Option Page :=
  bm.frames[page.data]?.map Frames.memPage

/-- Store `buf` as the buffer a page handle points to. -/
def setHandleData (bm : BufferPool) (page : BM_PageHandle) (buf : Page) : Option BufferPool :=
  bm.frames[page.data]?.map fun f =>
    { bm with frames := bm.frames.set page.data { f with memPage := buf } }

/-- The function `openTable` on the page file of a table.  `bm0` carries the
module globals of `buffer_mgr.c` before the call and `mem` the buffers `malloc`
hands to the pool.  When a pool is already initialised `initBufferPool`
returns `RC_OK` without touching the zeroed `bm` of the new table, and the
next `pinPage` works on a pool without frames (undefined: `none`). -/
def openTable (file : PageFile) (bm0 : BufferPool) (mem : Nat → Page) :
    Option (RC × Option RM_TableData) :=
  let fileHndl := openPageFile file
  if bm0.isInitialized_bp then none
  else
    let i := initBufferPool bm0 (some file) maximum_Pages .RS_LRU none mem
    if i.1 ≠ RC_OK then some (i.1, none)
    else
      let p0 := pinPage i.2 { pageNum := 0, data := 0 } 0
      if p0.1 ≠ RC_OK then some (p0.1, none)
      else do
        let memPageSM ← handleData p0.2.1 p0.2.2
        let u0 := unpinPage p0.2.1 p0.2.2
        let schema ← decodeSchemaPage memPageSM
        let p1 := pinPage u0.2 p0.2.2 1
        let memPageSM ← handleData p1.2.1 p1.2.2
        let u1 := unpinPage p1.2.1 p1.2.2
        let numPages ← readInt memPageSM 0
        let numPageDP ← readInt memPageSM SIZEOF_INT
        let numEntries := numPages - numPageDP + 1
        if numEntries < 0 then none
        else do
          let pageDirectory ← readPDEArray memPageSM numEntries.toNat (2 * SIZEOF_INT)
          some (RC_OK, some
            { schema := schema,
              managementData :=
                { fileHndl := fileHndl, bm := u1.2, pageHndlBM := p1.2.2,
                  pageDirectory := pageDirectory, numPages := numPages,
                  numPageDP := numPageDP } })

/-- The loop of `getNumTuples` over `pageIdx..numPages-1`. -/
def getNumTuplesLoop (pageDirectory : List PageDirectoryEntry) : Nat → Nat → Int → Option Int
  | 0, _, totalTuples => some totalTuples
  | fuel + 1, pageIdx, totalTuples =>
    match pageDirectory[pageIdx]? with
    | none => none
    | some currentEntry =>
      getNumTuplesLoop pageDirectory fuel (pageIdx + 1) (totalTuples + currentEntry.recordCount)

/-- The function `getNumTuples` (on a non-NULL table). -/
def getNumTuples (rel : RM_TableData) : Option Int :=
  getNumTuplesLoop rel.managementData.pageDirectory rel.managementData.numPages.toNat 0 0

/-- Contents of memory that `insertRecord` reads without having written it:
the fresh buffer `newPageHandle`, and the bytes that follow the page-directory
array in memory (its `memcpy` of `PAGE_SIZE - 2 * sizeof(int)` bytes runs past
the array). -/
structure Uninit where
  newPage : Page
  afterDirectory : List Nat
deriving DecidableEq, Repr

/-- The `while` loop of `insertRecord` that looks for a directory entry with
`hasFreeSlot`, over `i..numPages - numPageDP`. -/
def findFreePage (pageDirectory : List PageDirectoryEntry) : Nat → Nat → Option (Option Nat)
  | 0, _ => some none
  | fuel + 1, i =>
    match pageDirectory[i]? with
    | none => none
    | some e => if e.hasFreeSlot ≠ 0 then some (some i) else findFreePage pageDirectory fuel (i + 1)

/-- The `for` loop of `insertRecord` that looks for a slot entry with `isFree`,
over `i..recordCount`. -/
def findFreeSlot (pageHandle : Page) : Nat → Nat → Option (Option Nat)
  | 0, _ => some none
  | fuel + 1, i =>
    match readShort pageHandle ((i : Int) * SIZEOF_SLOT + SIZEOF_INT) with
    | none => none
    | some isFree => if isFree ≠ 0 then some (some i) else findFreeSlot pageHandle fuel (i + 1)

/-- A directory entry of zero bytes. -/
def zeroPDE : PageDirectoryEntry :=
  { pageID := 0, hasFreeSlot := 0, freeSpace := 0, recordCount := 0 }

/-- The array after `realloc` to `newLen` entries (new cells read as zero). -/
def reallocDirectory (pageDirectory : List PageDirectoryEntry) (newLen : Nat) :
    List PageDirectoryEntry :=
  pageDirectory.take newLen ++ List.replicate (newLen - pageDirectory.length) zeroPDE

/-- Raw `writeBlock` through the table's own file handle.  The block is taken
to be in the file as soon as `writeBlock` returns: the buffering of the
handle's stream is not part of the model. -/
def rawWrite (md : RM_managementData) (pageNum : Int) (memPage : Page) : RM_managementData :=
  let w := writeBlock pageNum md.fileHndl md.bm.file memPage
  { md with fileHndl := w.2.1, bm := { md.bm with file := w.2.2 } }

/-- The function `insertRecord`: the return code, the table and the record
(whose `id` the call assigns). -/
def insertRecord (u : Uninit) (rel : RM_TableData) (record : Record) :
    Option (RC × RM_TableData × Record) := do
  let md := rel.managementData
  let recordSize ← getRecordSize rel.schema
  -- a new directory page when the directory is full
  let md :=
    if md.numPages > maxEntriesInPD * md.numPageDP then
      let md1 := { md with numPages := md.numPages + 1, numPageDP := md.numPageDP + 1 }
      rawWrite md1 (md1.numPages + 1) zeroPage
    else md
  -- the first directory entry with a free slot, else a new data page
  let found ← findFreePage md.pageDirectory (md.numPages - md.numPageDP + 1).toNat 0
  let (md, pageNum) ← match found with
    | some i => some (md, i)
    | none =>
      let pageNum := md.numPages + 1 - md.numPageDP
      let md1 := { md with numPages := md.numPages + 1 }
      let newLen := md1.numPages - md1.numPageDP + 1
      if newLen < 0 ∨ pageNum < 0 ∨ pageNum ≥ newLen then none
      else
        let dir := (reallocDirectory md1.pageDirectory newLen.toNat).set pageNum.toNat
          { pageID := md1.numPages - md1.numPageDP, hasFreeSlot := 1,
            freeSpace := PAGE_SIZE, recordCount := 0 }
        let md2 := { md1 with pageDirectory := dir }
        some (rawWrite md2 (md2.numPages + 1) u.newPage, pageNum.toNat)
  -- pin the page (return code dropped)
  let p := pinPage md.bm md.pageHndlBM (md.numPages + 1)
  let md := { md with bm := p.2.1, pageHndlBM := p.2.2 }
  let pageHandle ← handleData md.bm md.pageHndlBM
  let entry ← md.pageDirectory[pageNum]?
  let freeSlot ← findFreeSlot pageHandle (entry.recordCount + 1).toNat 0
  let (slotNum, entry) : Int × PageDirectoryEntry := match freeSlot with
    | some i => ((i : Int), entry)
    | none => (entry.recordCount, { entry with recordCount := entry.recordCount + 1 })
  let recordOffset : Int := (PAGE_SIZE : Int) - entry.recordCount * recordSize
  let pageHandle ← writeBytes pageHandle (slotNum * SIZEOF_SLOT) (encodeInt recordOffset)
  let pageHandle ← writeBytes pageHandle (slotNum * SIZEOF_SLOT + SIZEOF_INT) (encodeShort 0)
  let pageHandle ←
    if recordSize < 0 ∨ (record.data.length : Int) < recordSize then none
    else writeBytes pageHandle recordOffset (record.data.take recordSize.toNat)
  let bm ← setHandleData md.bm md.pageHndlBM pageHandle
  let record := { record with id := { page := entry.pageID, slot := slotNum } }
  let entry := { entry with freeSpace := toInt32 (entry.freeSpace - (recordSize + SIZEOF_SLOT)) }
  let entry :=
    if toSizeT entry.freeSpace < toSizeT (recordSize + SIZEOF_SLOT) then
      { entry with hasFreeSlot := 0 }
    else entry
  let md := { md with bm := bm, pageDirectory := md.pageDirectory.set pageNum entry }
  let md := { md with bm := (markDirty md.bm md.pageHndlBM).2 }
  let md := { md with bm := (unpinPage md.bm md.pageHndlBM).2 }
  let md := rawWrite md (md.numPages + 1) pageHandle
  -- the directory page image
  if md.numPageDP - 1 < 0 ∨ md.numPageDP - 1 > (md.pageDirectory.length : Int) then none
  else
    let entries := ((md.pageDirectory.drop (md.numPageDP - 1).toNat).map encodePDE).flatten
    let pageDirectoryHandle : Page :=
      encodeInt md.numPages ++ encodeInt md.numPageDP ++
        (entries ++ u.afterDirectory ++ List.replicate PAGE_SIZE 0).take
          (PAGE_SIZE - 2 * SIZEOF_INT)
    let md := rawWrite md
      (Int.tdiv md.numPages maxEntriesInPD * maxEntriesInPD + md.numPageDP) pageDirectoryHandle
    some (RC_OK, { rel with managementData := md }, record)

/-- The function `deleteRecord`. -/
def deleteRecord (rel : RM_TableData) (id : RID) : Option (RC × RM_TableData) :=
  let md := rel.managementData
  if id.page < 0 ∨ id.page ≥ md.numPages ∨ id.slot < 0 then some (RC_RM_INVALID_RID, rel)
  else
    let p := pinPage md.bm md.pageHndlBM (id.page + md.numPageDP + 1)
    let md := { md with bm := p.2.1, pageHndlBM := p.2.2 }
    if p.1 ≠ RC_OK then some (p.1, { rel with managementData := md })
    else do
      let pageHandle ← handleData md.bm md.pageHndlBM
      let isFree ← readShort pageHandle (id.slot * SIZEOF_SLOT + SIZEOF_INT)
      if isFree ≠ 0 then
        let md := { md with bm := (unpinPage md.bm md.pageHndlBM).2 }
        some (RC_RM_RECORD_NOT_FOUND, { rel with managementData := md })
      else do
        let pageHandle ← writeBytes pageHandle (id.slot * SIZEOF_SLOT + SIZEOF_INT) (encodeShort 1)
        let bm ← setHandleData md.bm md.pageHndlBM pageHandle
        let offset ← readInt pageHandle (id.slot * SIZEOF_SLOT)
        if id.page.toNat ≥ md.pageDirectory.length then none
        else
          let entry := md.pageDirectory.getD id.page.toNat zeroPDE
          let entry := { entry with
            freeSpace := toInt32 (entry.freeSpace + (offset - id.slot * SIZEOF_SLOT)),
            hasFreeSlot := 1 }
          let md := { md with bm := bm, pageDirectory := md.pageDirectory.set id.page.toNat entry }
          let md := { md with bm := (markDirty md.bm md.pageHndlBM).2 }
          let un := unpinPage md.bm md.pageHndlBM
          let md := { md with bm := un.2 }
          if un.1 ≠ RC_OK then some (un.1, { rel with managementData := md })
          else some (RC_OK, { rel with managementData := md })

/-- The function `getRecord`: the return code, the table and `resultRecord`. -/
def getRecord (table : RM_TableData) (recordID : RID) (resultRecord : Record) :
    Option (RC × RM_TableData × Record) :=
  let mgmtData := table.managementData
  if ¬ (recordID.page ≥ 0 ∧ recordID.page < mgmtData.numPages ∧ recordID.slot ≥ 0) then
    some (RC_RM_INVALID_RID, table, resultRecord)
  else
    let targetPage := recordID.page + mgmtData.numPageDP + 1
    let p := pinPage mgmtData.bm mgmtData.pageHndlBM targetPage
    let mgmtData := { mgmtData with bm := p.2.1, pageHndlBM := p.2.2 }
    if p.1 ≠ RC_OK then some (p.1, { table with managementData := mgmtData }, resultRecord)
    else do
      let pageContent ← handleData mgmtData.bm mgmtData.pageHndlBM
      let isFree ← readShort pageContent (recordID.slot * SIZEOF_SLOT + SIZEOF_INT)
      if isFree = 1 then
        let mgmtData := { mgmtData with bm := (unpinPage mgmtData.bm mgmtData.pageHndlBM).2 }
        some (RC_RM_RECORD_NOT_FOUND, { table with managementData := mgmtData }, resultRecord)
      else do
        let recSize ← getRecordSize table.schema
        let offset ← readInt pageContent (recordID.slot * SIZEOF_SLOT)
        if recSize < 0 ∨ (resultRecord.data.length : Int) < recSize then none
        else do
          let bytes ← readBytes pageContent offset recSize.toNat
          let resultRecord : Record :=
            { id := recordID, data := bytes ++ resultRecord.data.drop recSize.toNat }
          let un := unpinPage mgmtData.bm mgmtData.pageHndlBM
          let mgmtData := { mgmtData with bm := un.2 }
          some (un.1, { table with managementData := mgmtData }, resultRecord)

/-! ## Reachable pool states and sample states -/

/-- Pool states reachable from a successful `initBufferPool` (on a pool not yet
initialised, with at least one frame, and `1 ≤ k ≤ numPages` for LRU-K) by any
sequence of `pinPage`, `unpinPage`, `markDirty`, `forcePage` and
`forceFlushPool` calls. -/
inductive Reachable : BufferPool → Prop
  | init (bm0 : BufferPool) (file : PageFile) (numPages : Nat) (strategy : ReplacementStrategy)
      (stratData : Option Int) (mem : Nat → Page) :
      bm0.isInitialized_bp = false → 0 < numPages →
      (strategy = .RS_LRU_K → ∃ k : Int, stratData = some k ∧ 1 ≤ k ∧ k ≤ (numPages : Int)) →
      Reachable (initBufferPool bm0 (some file) numPages strategy stratData mem).2
  | pin (bm : BufferPool) (page : BM_PageHandle) (pageNum : Int) :
      Reachable bm → Reachable (pinPage bm page pageNum).2.1
  | unpin (bm : BufferPool) (page : BM_PageHandle) :
      Reachable bm → Reachable (unpinPage bm page).2
  | dirty (bm : BufferPool) (page : BM_PageHandle) :
      Reachable bm → Reachable (markDirty bm page).2
  | force (bm : BufferPool) (page : BM_PageHandle) :
      Reachable bm → Reachable (forcePage bm page).2
  | flush (bm : BufferPool) :
      Reachable bm → Reachable (forceFlushPool bm).2

/-- A pool struct before any `initBufferPool`: no frames, globals at their
static initial values. -/
def freshPool : BufferPool :=
  { frames := [], strategy := .RS_FIFO, stratParam := 0, writtenToDisk := 0, readFromDisk := 0,
    lruCounter := 0, isInitialized_bp := false, file := [] }

/-- A pool of `n` frames on a two-page file of zero blocks, buffers zeroed. -/
def samplePool (n : Nat) (strategy : ReplacementStrategy) : BufferPool :=
  (initBufferPool freshPool (some [zeroPage, zeroPage]) n strategy none fun _ => zeroPage).2

/-- A one-frame FIFO pool after `pinPage 0`, `markDirty`, `unpinPage`. -/
def dirtyPool : BufferPool :=
  (unpinPage (markDirty (pinPage (samplePool 1 .RS_FIFO) ⟨0, 0⟩ 0).2.1 ⟨0, 0⟩).2 ⟨0, 0⟩).2

/-- A two-frame LRU pool after `pinPage 1` and `pinPage 2`, neither unpinned. -/
def pinnedLruPool : BufferPool :=
  (pinPage (pinPage (samplePool 2 .RS_LRU) ⟨0, 0⟩ 1).2.1 ⟨1, 0⟩ 2).2.1

/-- The two frame-list invariants of the pool: no page number `p ≥ 0` occurs
twice, and no fix count is negative. -/
def PoolInv (frames : List Frames) : Prop :=
  (∀ p : Int, 0 ≤ p → (frames.map Frames.pageNumber).count p ≤ 1) ∧
  (∀ c ∈ frames.map Frames.fix_cnt, (0 : Int) ≤ c)

/-! ## Schemas, page images and frames holding a page -/

/-- The values a C `int` can hold. -/
def isInt32 (v : Int) : Prop := -2147483648 ≤ v ∧ v < 2147483648

/-- A schema as `createSchema` builds it: `numAttr` names, data types and type
lengths, `keySize` key attributes, every `int` an `int`, and attribute names
that are C strings (no NUL inside). -/
structure Schema.WellFormed (S : Schema) : Prop where
  numAttr_eq : S.numAttr = (S.attrNames.length : Int)
  dataTypes_len : S.dataTypes.length = S.attrNames.length
  typeLength_len : S.typeLength.length = S.attrNames.length
  keySize_eq : S.keySize = (S.keyAttrs.length : Int)
  names_nul_free : ∀ nm ∈ S.attrNames, ∀ b ∈ nm, b ≠ 0
  dataTypes_int : ∀ v ∈ S.dataTypes, isInt32 v
  typeLength_int : ∀ v ∈ S.typeLength, isInt32 v
  keyAttrs_int : ∀ v ∈ S.keyAttrs, isInt32 v
  numAttr_int : isInt32 S.numAttr
  keySize_int : isInt32 S.keySize

/-- The bytes of the attribute names with their terminators, concatenated. -/
def cnames (names : List (List Nat)) : List Nat := (names.map fun nm => nm ++ [0]).flatten

/-- The bytes of an `int` array. -/
def intsBytes (xs : List Int) : List Nat := (xs.map encodeInt).flatten

/-- The schema encoding of page 0, field after field. -/
def schemaBytes (S : Schema) : List Nat :=
  encodeInt S.numAttr ++ cnames S.attrNames ++ intsBytes S.dataTypes ++ intsBytes S.typeLength ++
    encodeInt S.keySize ++ intsBytes S.keyAttrs

/-- Frame `idx` is the first frame holding page `P`, and its buffer is `buf`. -/
def HoldsAt (frames : List Frames) (P : Int) (idx : Nat) (buf : Page) : Prop :=
  (frames.map Frames.pageNumber)[idx]? = some P ∧
  (frames.map Frames.memPage)[idx]? = some buf ∧
  ∀ j, j < idx → (frames.map Frames.pageNumber)[j]? ≠ some P

instance (v : Int) : Decidable (isInt32 v) := by
  unfold isInt32
  infer_instance

/-! ## Sample tables and scenarios -/

/-- The schema `{a: INT, b: STRING(4)}`, key `a`. -/
def schemaIntStr4 : Schema :=
  { numAttr := 2, attrNames := [[97], [98]], dataTypes := [DT_INT, DT_STRING],
    typeLength := [0, 4], keyAttrs := [0], keySize := 1 }

/-- The schema `{a: INT, b: STRING(116)}`, key `a`: records of 120 bytes, so a
record and its slot entry fill a page exactly. -/
def schemaIntStr116 : Schema :=
  { numAttr := 2, attrNames := [[97], [98]], dataTypes := [DT_INT, DT_STRING],
    typeLength := [0, 116], keyAttrs := [0], keySize := 1 }

/-- All-zero contents for the memory `insertRecord` reads uninitialised. -/
def zeroUninit : Uninit := { newPage := zeroPage, afterDirectory := [] }

/-- The table obtained by `createTable` then `openTable` in a fresh process
whose `malloc` hands out zeroed buffers. -/
def freshTable (schema : Schema) : Option RM_TableData := do
  let c ← createTable schema
  let o ← openTable c.2 freshPool fun _ => zeroPage
  o.2

/-- A record `{a, b}` for a schema `{a: INT, b: STRING(len)}`, as `createRecord`
and `setAttr` build it: `id = {-1, -1}`, `b` padded with zero bytes. -/
def mkRecord (a : Int) (b : List Nat) (len : Nat) : Record :=
  { id := { page := -1, slot := -1 },
    data := encodeInt a ++ b ++ List.replicate (len - b.length) 0 }

/-- A result record with a zeroed buffer of `size` bytes. -/
def blankRecord (size : Nat) : Record :=
  { id := { page := -1, slot := -1 }, data := List.replicate size 0 }

/-- Insert `{7, "abcd"}` into a fresh table of `{a: INT, b: STRING(4)}`: the
return code, the table and the record with its assigned id. -/
def insertOne : Option (RC × RM_TableData × Record) := do
  let t ← freshTable schemaIntStr4
  insertRecord zeroUninit t (mkRecord 7 [97, 98, 99, 100] 4)

/-- Insert `{7, "abcd"}` into a fresh table, delete it, then ask for the number
of tuples: the two return codes and the count. -/
def insertDeleteCount : Option (RC × RC × Option Int) := do
  let r ← insertOne
  let d ← deleteRecord r.2.1 r.2.2.id
  some (r.1, d.1, getNumTuples d.2)

/-- On a fresh table of `{a: INT, b: STRING(116)}`: insert `{1, "alpha"}`
(fills data page 0), insert `{2, "beta"}` (opens data page 1), delete the
first, insert `{3, "gamma"}`, then `getRecord` of the id just assigned.  The
four return codes, the id assigned by the last insert, the return code and id
of `getRecord`, and whether the payload read equals the payload inserted. -/
def insertAfterDelete : Option (List RC × RID × RC × RID × Bool) := do
  let t ← freshTable schemaIntStr116
  let r1 ← insertRecord zeroUninit t (mkRecord 1 [97, 108, 112, 104, 97] 116)
  let r2 ← insertRecord zeroUninit r1.2.1 (mkRecord 2 [98, 101, 116, 97] 116)
  let d ← deleteRecord r2.2.1 r1.2.2.id
  let r3 ← insertRecord zeroUninit d.2 (mkRecord 3 [103, 97, 109, 109, 97] 116)
  let g ← getRecord r3.2.1 r3.2.2.id (blankRecord 120)
  some ([r1.1, r2.1, d.1, r3.1], r3.2.2.id, g.1, g.2.2.id, decide (g.2.2.data = r3.2.2.data))

/-- The table of `insertOne` (an empty-pool table if it were undefined). -/
def tableAfterInsert : RM_TableData :=
  match insertOne with
  | some r => r.2.1
  | none =>
    { schema := schemaIntStr4,
      managementData :=
        { fileHndl := openPageFile [], bm := freshPool, pageHndlBM := { pageNum := 0, data := 0 },
          pageDirectory := [], numPages := 0, numPageDP := 0 } }

/-- The table of `insertOne` after `deleteRecord` of the record at `{0, 0}`. -/
def tableAfterDelete : RM_TableData :=
  match deleteRecord tableAfterInsert { page := 0, slot := 0 } with
  | some r => r.2
  | none => tableAfterInsert

/-! ## Buffer pool statistics and client sequences -/

/-- The function `getNumReadIO`. -/
def getNumReadIO (bm : BufferPool) : Int := bm.readFromDisk + 1

/-- The function `getNumWriteIO`. -/
def getNumWriteIO (bm : BufferPool) : Int := bm.writtenToDisk

/-- A client's `pinPage(bm, h, pageNum); unpinPage(bm, h);` with the return
codes dropped: the pool and the handle afterwards. -/
def pinThenUnpin (s : BufferPool × BM_PageHandle) (pageNum : Int) : BufferPool × BM_PageHandle :=
  let p := pinPage s.1 s.2 pageNum
  ((unpinPage p.2.1 p.2.2).2, p.2.2)

/-- Pin and at once unpin the pages of a list, first to last. -/
def pinUnpinAll (s : BufferPool × BM_PageHandle) (pages : List Int) :
    BufferPool × BM_PageHandle :=
  pages.foldl pinThenUnpin s

/-- A pool of `n` frames with strategy parameter `k` on a two-page file of zero
blocks, buffers zeroed. -/
def samplePoolK (n : Nat) (strategy : ReplacementStrategy) (k : Int) : BufferPool :=
  (initBufferPool freshPool (some [zeroPage, zeroPage]) n strategy (some k) fun _ => zeroPage).2

/-- The resident page numbers, frame by frame. -/
def frameContents (bm : BufferPool) : List Int := bm.frames.map Frames.pageNumber

/-! ## record_mgr.c: update and scans -/

/-- The function `updateRecord`: the return code, the table and the record
(whose `id` the delete-then-insert path reassigns).  `pageData` is the buffer
pointer taken right after the function's own `pinPage`; the final `markDirty`
and `unpinPage` use whatever `pageHndlBM` holds by then. -/
def updateRecord (u : Uninit) (rel : RM_TableData) (record : Record) :
    Option (RC × RM_TableData × Record) :=
  let md := rel.managementData
  if record.id.page < 0 ∨ record.id.page ≥ md.numPages ∨ record.id.slot < 0 then
    some (RC_RM_INVALID_RID, rel, record)
  else
    let p := pinPage md.bm md.pageHndlBM (record.id.page + md.numPageDP + 1)
    let md := { md with bm := p.2.1, pageHndlBM := p.2.2 }
    if p.1 ≠ RC_OK then some (p.1, { rel with managementData := md }, record)
    else do
      let pageData ← handleData md.bm md.pageHndlBM
      let isFree ← readShort pageData (record.id.slot * SIZEOF_SLOT + SIZEOF_INT)
      if isFree ≠ 0 then
        let md := { md with bm := (unpinPage md.bm md.pageHndlBM).2 }
        some (RC_RM_RECORD_NOT_FOUND, { rel with managementData := md }, record)
      else do
        let recSize ← getRecordSize rel.schema
        let offset ← readInt pageData (record.id.slot * SIZEOF_SLOT)
        let entry ← md.pageDirectory[record.id.page.toNat]?
        let availableSpace := toInt32 (entry.freeSpace + (offset - record.id.slot * SIZEOF_SLOT))
        let rel1 : RM_TableData := { rel with managementData := md }
        if recSize > availableSpace then do
          -- delete and insert
          let d ← deleteRecord rel1 record.id
          if d.1 ≠ RC_OK then
            let md := d.2.managementData
            let md := { md with bm := (unpinPage md.bm md.pageHndlBM).2 }
            some (d.1, { d.2 with managementData := md }, record)
          else do
            let i ← insertRecord u d.2 record
            let md := i.2.1.managementData
            if i.1 ≠ RC_OK then
              let md := { md with bm := (unpinPage md.bm md.pageHndlBM).2 }
              some (i.1, { i.2.1 with managementData := md }, i.2.2)
            else
              let md := { md with bm := (markDirty md.bm md.pageHndlBM).2 }
              let un := unpinPage md.bm md.pageHndlBM
              let md := { md with bm := un.2 }
              some (un.1, { i.2.1 with managementData := md }, i.2.2)
        else do
          -- update in place
          let pageData ←
            if recSize < 0 ∨ (record.data.length : Int) < recSize then none
            else writeBytes pageData offset (record.data.take recSize.toNat)
          let bm ← setHandleData md.bm md.pageHndlBM pageData
          let slotSize : Int := toInt32 (record.id.slot * SIZEOF_SLOT)
          let entry := { entry with freeSpace := entry.freeSpace - (recSize - (offset - slotSize)) }
          let md := { md with bm := bm,
                              pageDirectory := md.pageDirectory.set record.id.page.toNat entry }
          let md := { md with bm := (markDirty md.bm md.pageHndlBM).2 }
          let un := unpinPage md.bm md.pageHndlBM
          let md := { md with bm := un.2 }
          some (un.1, { rel with managementData := md }, record)

/-- Modelled from the spec: `expr.h` and `evalExpr` are not among the sources;
a scan condition is an opaque boolean function of the record payload. -/
abbrev Expr := List Nat → Bool

/-- The struct `ScanInfo`; `condition = none` is a NULL condition. -/
structure ScanInfo where
  condition : Option Expr
  currentPage : Int
  currentSlot : Int

/-- The function `startScan` (on non-NULL arguments): the return code, the
table and the scan state. -/
def startScan (rel : RM_TableData) (cond : Option Expr) : RC × RM_TableData × Option ScanInfo :=
  let scanInfo : ScanInfo := { condition := cond, currentPage := 0, currentSlot := 0 }
  let md := rel.managementData
  let p := pinPage md.bm md.pageHndlBM 2
  let rel1 : RM_TableData :=
    { rel with managementData := { md with bm := p.2.1, pageHndlBM := p.2.2 } }
  if p.1 ≠ RC_OK then (p.1, rel1, none) else (RC_OK, rel1, some scanInfo)

/-- The function `ceiling`. -/
def ceiling (numerator denominator : Int) : Int :=
  let quotient := Int.tdiv numerator denominator
  if Int.tmod numerator denominator ≠ 0 then quotient + 1 else quotient

/-- The slot loop of `next` on one pinned page, over `slotIdx..recordCount-1`:
`some (some slotIdx, record)` when a record is returned at `slotIdx`,
`some (none, record)` when the page is exhausted; `record` is the caller's
record as the loop leaves it.  A NULL condition counts as satisfied once
`evalExpr` has returned. -/
def nextSlotLoop (pageHandle : Page) (recordSize : Int) (condition : Option Expr)
    (currentPage : Int) : Nat → Int → Record → Option (Option Int × Record)
  | 0, _, record => some (none, record)
  | fuel + 1, slotIdx, record => do
    let isFree ← readShort pageHandle (slotIdx * SIZEOF_SLOT + SIZEOF_INT)
    if isFree ≠ 0 then nextSlotLoop pageHandle recordSize condition currentPage fuel (slotIdx + 1) record
    else do
      let offset ← readInt pageHandle (slotIdx * SIZEOF_SLOT)
      if recordSize < 0 ∨ (record.data.length : Int) < recordSize then none
      else do
        let bytes ← readBytes pageHandle offset recordSize.toNat
        let record : Record :=
          { id := { page := currentPage, slot := slotIdx },
            data := bytes ++ record.data.drop recordSize.toNat }
        let shouldReturn := match condition with
          | none => true
          | some cond => cond record.data
        if shouldReturn then some (some slotIdx, record)
        else nextSlotLoop pageHandle recordSize condition currentPage fuel (slotIdx + 1) record

/-- The page loop of `next`, over `currentPage..numPages - numPageDP`. -/
def nextPageLoop (recordSize : Int) : Nat → RM_TableData → ScanInfo → Record →
    Option (RC × RM_TableData × ScanInfo × Record)
  | 0, rel, scanInfo, record => some (RC_RM_NO_MORE_TUPLES, rel, scanInfo, record)
  | fuel + 1, rel, scanInfo, record => do
    let md := rel.managementData
    let pageNumPin := ceiling (scanInfo.currentPage + 1) maxEntriesInPD + 1 + scanInfo.currentPage
    let p := pinPage md.bm md.pageHndlBM pageNumPin
    let md := { md with bm := p.2.1, pageHndlBM := p.2.2 }
    let pageHandle ← handleData md.bm md.pageHndlBM
    let entry ← if scanInfo.currentPage < 0 then none
      else md.pageDirectory[scanInfo.currentPage.toNat]?
    let r ← nextSlotLoop pageHandle recordSize scanInfo.condition scanInfo.currentPage
      (entry.recordCount - scanInfo.currentSlot).toNat scanInfo.currentSlot record
    let md := { md with bm := (unpinPage md.bm md.pageHndlBM).2 }
    let rel1 : RM_TableData := { rel with managementData := md }
    match r.1 with
    | some slotIdx => some (RC_OK, rel1, { scanInfo with currentSlot := slotIdx + 1 }, r.2)
    | none =>
      nextPageLoop recordSize fuel rel1
        { scanInfo with currentSlot := 0, currentPage := scanInfo.currentPage + 1 } r.2

/-- The function `next`: the return code, the table, the scan state and the
caller's record. -/
def next (rel : RM_TableData) (scanInfo : ScanInfo) (record : Record) :
    Option (RC × RM_TableData × ScanInfo × Record) := do
  let md := rel.managementData
  let recordSize ← getRecordSize rel.schema
  nextPageLoop recordSize (md.numPages - md.numPageDP + 1 - scanInfo.currentPage).toNat rel
    scanInfo record

/-! ## Scenarios for the replacement strategies, scans and updates -/

/-- The position of the last pin of page `p` in a history of pinned pages
(0 when `p` was never pinned): the larger, the more recently used. -/
def lastUse (history : List Int) (p : Int) : Nat :=
  history.length - history.reverse.indexOf p

/-- The value at position `k` (counted from 1) of the ascending-sorted
`lruOrder` values of the frames: the `k`-th smallest. -/
def kthSmallestOrder (frames : List Frames) (k : Nat) : Int :=
  ((frames.map Frames.lruOrder).insertionSort fun a b => a ≤ b).getD (k - 1) 0

/-- A three-frame LRU-K pool with `k = 1` after pin-then-unpin of pages
1, 2, 3, 1, 2, 3. -/
def lruKPool : BufferPool :=
  (pinUnpinAll (samplePoolK 3 .RS_LRU_K 1, ⟨0, 0⟩) [1, 2, 3, 1, 2, 3]).1

/-- A three-frame LRU pool after pin-then-unpin of pages 1, 1, 2, 3. -/
def lruPool : BufferPool :=
  (pinUnpinAll (samplePool 3 .RS_LRU, ⟨0, 0⟩) [1, 1, 2, 3]).1

/-- On a fresh table with schema `{a: INT, b: STRING(4)}`: insert `{1, "a"}` and
`{2, "b"}`, delete the first, insert `{3, "c"}`, then `startScan` with the
condition `cond` and three `next` calls.  The result lists the return codes of
the four table calls and of `startScan`, the ids given to the three inserted
records, and the return code and record of each `next`. -/
def scanAfterReuse (cond : Option Expr) :
    Option (List RC × List RID × List (RC × Record)) := do
  let t ← freshTable schemaIntStr4
  let r1 ← insertRecord zeroUninit t (mkRecord 1 [97] 4)
  let r2 ← insertRecord zeroUninit r1.2.1 (mkRecord 2 [98] 4)
  let d ← deleteRecord r2.2.1 r1.2.2.id
  let r3 ← insertRecord zeroUninit d.2 (mkRecord 3 [99] 4)
  let s := startScan r3.2.1 cond
  let si ← s.2.2
  let n1 ← next s.2.1 si (blankRecord 8)
  let n2 ← next n1.2.1 n1.2.2.1 (blankRecord 8)
  let n3 ← next n2.2.1 n2.2.2.1 (blankRecord 8)
  some ([r1.1, r2.1, d.1, r3.1, s.1], [r1.2.2.id, r2.2.2.id, r3.2.2.id],
    [(n1.1, n1.2.2.2), (n2.1, n2.2.2.2), (n3.1, n3.2.2.2)])

/-- On a fresh table with schema `{a: INT, b: STRING(116)}` (one record per
page): insert `{1, "alpha"}` and `{2, "beta"}`, delete the first, update the
second to `{5, "d"}`, then `getRecord` of the id the record holds after the
update.  The result lists the return codes of the four table calls, the id
before and after the update, the return code of `getRecord`, and whether the
payload read equals the updated record's. -/
def updateThenGet : Option (List RC × RID × RID × RC × Bool) := do
  let t ← freshTable schemaIntStr116
  let r1 ← insertRecord zeroUninit t (mkRecord 1 [97, 108, 112, 104, 97] 116)
  let r2 ← insertRecord zeroUninit r1.2.1 (mkRecord 2 [98, 101, 116, 97] 116)
  let d ← deleteRecord r2.2.1 r1.2.2.id
  let upd ← updateRecord zeroUninit d.2 { id := r2.2.2.id, data := (mkRecord 5 [100] 116).data }
  let g ← getRecord upd.2.1 upd.2.2.id (blankRecord 120)
  some ([r1.1, r2.1, d.1, upd.1], r2.2.2.id, upd.2.2.id, g.1,
    decide (g.2.2.data = upd.2.2.data))

/-- A full three-frame FIFO pool: page 1 pinned and kept, pages 2 and 3 pinned
and unpinned. -/
def fifoPool : BufferPool :=
  (pinUnpinAll ((pinPage (samplePool 3 .RS_FIFO) ⟨0, 0⟩ 1).2.1, ⟨1, 0⟩) [2, 3]).1

/-- The state of an `n`-frame FIFO pool after the distinct pages `done` have
been pinned and unpinned one after the other: `readFromDisk` counts them, no
frame is pinned, frame `j mod n` holds the `j`-th page for the last `n` values
of `j`, and the frames not yet reached are empty. -/
def FifoInv (n : Nat) (done : List Int) (bm : BufferPool) : Prop :=
  bm.isInitialized_bp = true ∧ bm.strategy = .RS_FIFO ∧ bm.frames.length = n ∧
  bm.readFromDisk = (done.length : Int) ∧
  (∀ f ∈ bm.frames, f.fix_cnt = 0) ∧
  (∀ f ∈ bm.frames, f.pageNumber = NO_PAGE ∨ f.pageNumber ∈ done) ∧
  (∀ i, i < n → i < done.length → 0 ≤ (bm.frames.getD i default).pageNumber) ∧
  (∀ i, i < n → done.length ≤ i → (bm.frames.getD i default).pageNumber = NO_PAGE) ∧
  (∀ j, j < done.length → done.length ≤ j + n →
    (bm.frames.getD (j % n) default).pageNumber = done.getD j 0)

/-! ## Closing a scan, the directory page on disk, and further scenarios -/

def RC_RM_SCAN_INFO_NULL : RC := 19

/-- The function `closeScan` (on a non-NULL scan handle): the return code, the
table and the scan state (`none` once freed). -/
def closeScan (rel : RM_TableData) (scanInfo : Option ScanInfo) :
    RC × RM_TableData × Option ScanInfo :=
  match scanInfo with
  | none => (RC_RM_SCAN_INFO_NULL, rel, none)
  | some si =>
    let md := rel.managementData
    if si.currentPage ≥ 0 ∧ si.currentPage < md.numPages then
      let un := unpinPage md.bm md.pageHndlBM
      let rel1 : RM_TableData := { rel with managementData := { md with bm := un.2 } }
      if un.1 ≠ RC_OK then (un.1, rel1, some si) else (RC_OK, rel1, none)
    else (RC_OK, rel, none)

/-- The part of `openTable` that reads the copy of the directory page (page 1):
`numPages`, `numPageDP` and the `numPages - numPageDP + 1` directory entries. -/
def decodeDirectoryPage (memPageSM : Page) : Option (Int × Int × List PageDirectoryEntry) := do
  let numPages ← readInt memPageSM 0
  let numPageDP ← readInt memPageSM SIZEOF_INT
  let numEntries := numPages - numPageDP + 1
  if numEntries < 0 then none
  else do
    let pageDirectory ← readPDEArray memPageSM numEntries.toNat (2 * SIZEOF_INT)
    some (numPages, numPageDP, pageDirectory)

/-- The directory of a table as its page 1 on disk gives it. -/
def directoryOnDisk (rel : RM_TableData) : Option (Int × Int × List PageDirectoryEntry) := do
  let page ← rel.managementData.bm.file[1]?
  decodeDirectoryPage page

/-- The directory of a table as it is in memory. -/
def directoryInMemory (rel : RM_TableData) : Int × Int × List PageDirectoryEntry :=
  (rel.managementData.numPages, rel.managementData.numPageDP, rel.managementData.pageDirectory)

/-- A schema without attributes: records of size 0. -/
def schemaEmpty : Schema :=
  { numAttr := 0, attrNames := [], dataTypes := [], typeLength := [],
    keyAttrs := [], keySize := 0 }

/-- `k` calls of `insertRecord` with the payload `data`, each on the table the
previous one left; `none` as soon as a call is undefined or does not return
`RC_OK`. -/
def insertMany (data : List Nat) : Nat → RM_TableData → Option RM_TableData
  | 0, rel => some rel
  | k + 1, rel => do
    let r ← insertRecord zeroUninit rel { id := ⟨-1, -1⟩, data := data }
    if r.1 ≠ RC_OK then none else insertMany data k r.2.1

/-- The freshly created and opened table of `schemaEmpty` after `k` inserts of
the empty record. -/
def emptyRecordsTable (k : Nat) : Option RM_TableData :=
  (freshTable schemaEmpty).bind (insertMany [] k)

/-- On a fresh table with schema `{a: INT, b: STRING(4)}`: insert `{0, "abcd"}`,
then `getRecord` of slot 1 and of slot 15 of page 0.  The result lists the
return code of the insert, the id it assigned, the `recordCount` of directory
entry 0, and the return codes and records of the two `getRecord` calls. -/
def getUnallocatedSlot : Option (RC × RID × Int × (RC × Record) × (RC × Record)) := do
  let t ← freshTable schemaIntStr4
  let r ← insertRecord zeroUninit t (mkRecord 0 [97, 98, 99, 100] 4)
  let entry ← r.2.1.managementData.pageDirectory[0]?
  let g1 ← getRecord r.2.1 { page := 0, slot := 1 } (blankRecord 8)
  let g15 ← getRecord g1.2.1 { page := 0, slot := 15 } (blankRecord 8)
  some (r.1, r.2.2.id, entry.recordCount, (g1.1, g1.2.2), (g15.1, g15.2.2))

/-- The pages and fix counts of the frames of a table's pool. -/
def tablePins (rel : RM_TableData) : List (Int × Int) :=
  rel.managementData.bm.frames.map fun f => (f.pageNumber, f.fix_cnt)

/-- On a fresh table with schema `{a: INT, b: STRING(4)}` holding one record:
`startScan` without condition, `next` twice, `closeScan`.  The result lists
the return codes of the insert, `startScan`, the two `next` calls and
`closeScan`, and the frames' pages and fix counts before `startScan` and
after `closeScan`. -/
def scanToEnd : Option (List RC × List (Int × Int) × List (Int × Int)) := do
  let t ← freshTable schemaIntStr4
  let r ← insertRecord zeroUninit t (mkRecord 1 [97] 4)
  let s := startScan r.2.1 none
  let si ← s.2.2
  let n1 ← next s.2.1 si (blankRecord 8)
  let n2 ← next n1.2.1 n1.2.2.1 (blankRecord 8)
  let c := closeScan n2.2.1 (some n2.2.2.1)
  some ([r.1, s.1, n1.1, n2.1, c.1], tablePins r.2.1, tablePins c.2.1)

/-- A three-frame FIFO pool on a two-page file of zero blocks whose frame
buffers hold the byte 7 throughout (what `malloc` happened to return). -/
def stalePool : BufferPool :=
  (initBufferPool freshPool (some [zeroPage, zeroPage]) 3 .RS_FIFO none
    fun _ => List.replicate PAGE_SIZE 7).2

/-- The size the specification gives an attribute of data type `dt` and type
length `len`: `sizeof(int)` for INT, `sizeof(float)` for FLOAT, `len` for
STRING, `sizeof(bool)` for BOOL, and 0 for any other type. -/
def attrSize (dt len : Int) : Int :=
  if dt = DT_INT then SIZEOF_INT
  else if dt = DT_FLOAT then SIZEOF_FLOAT
  else if dt = DT_STRING then len
  else if dt = DT_BOOL then SIZEOF_BOOL
  else 0

/-- The record size as the specification states it: the sum of `attrSize` over
the attributes. -/
def recordSizeSpec (schema : Schema) : Int :=
  ((schema.dataTypes.zip schema.typeLength).map fun p => attrSize p.1 p.2).sum

/-- The encoded length of a schema as the specification states it:
`sizeof(int) + Σ (strlen(name_i) + 1) + numAttr * sizeof(int) +
numAttr * sizeof(int) + sizeof(int) + keySize * sizeof(int)`. -/
def schemaEncodedLength (schema : Schema) : Int :=
  SIZEOF_INT + (schema.attrNames.map fun nm => (nm.length : Int) + 1).sum +
    schema.numAttr * SIZEOF_INT + schema.numAttr * SIZEOF_INT + SIZEOF_INT +
    schema.keySize * SIZEOF_INT

/-- The schema `{a: INT, b: STRING(4), c: FLOAT, d: BOOL}`, key `a`. -/
def schemaAllTypes : Schema :=
  { numAttr := 4, attrNames := [[97], [98], [99], [100]],
    dataTypes := [DT_INT, DT_STRING, DT_FLOAT, DT_BOOL], typeLength := [0, 4, 0, 0],
    keyAttrs := [0], keySize := 1 }

/-! ## Scenarios for flushing, page arithmetic and free-space accounting -/

/-- A three-frame FIFO pool with page 0 pinned and kept in frame 0 and page 1
pinned, marked dirty and unpinned in frame 1. -/
def pinnedThenDirtyPool : BufferPool :=
  let p0 := pinPage (samplePool 3 .RS_FIFO) ⟨0, 0⟩ 0
  let p1 := pinPage p0.2.1 ⟨0, 0⟩ 1
  let d1 := markDirty p1.2.1 p1.2.2
  (unpinPage d1.2 p1.2.2).2

/-- On the table of `schemaEmpty` after 113 inserts: `startScan` with a
condition no record satisfies and one `next` (which walks every page), and
`getRecord` of the last data page index.  The result lists `numPages` and
`numPageDP`, the return code of `next`, the page index the scan stopped at, the
physical page `next` pinned last, and the return code of `getRecord` for
`{7, 0}` with the physical page it pinned. -/
def scanVersusGet : Option ((Int × Int) × RC × Int × Int × RC × Int) := do
  let t ← emptyRecordsTable 113
  let s := startScan t (some fun _ => false)
  let si ← s.2.2
  let n ← next s.2.1 si (blankRecord 0)
  let g ← getRecord t { page := 7, slot := 0 } (blankRecord 0)
  some ((t.managementData.numPages, t.managementData.numPageDP), n.1, n.2.2.1.currentPage,
    n.2.1.managementData.pageHndlBM.pageNum, g.1, g.2.1.managementData.pageHndlBM.pageNum)

/-- The `freeSpace` of directory entry 0 of a table. -/
def freeSpaceOfPage0 (rel : RM_TableData) : Option Int :=
  rel.managementData.pageDirectory[0]?.map PageDirectoryEntry.freeSpace

/-- On a fresh table with schema `{a: INT, b: STRING(4)}`: the `freeSpace` of
data page 0 before an insert, after it, and after the `deleteRecord` of the
returned id, with the two return codes, the record size and the `offset` the
slot entry of the record holds. -/
def freeSpaceTrace : Option (List RC × Option Int × Option Int × Option Int × Int × Int) := do
  let t ← freshTable schemaIntStr4
  let r ← insertRecord zeroUninit t (mkRecord 7 [97, 98, 99, 100] 4)
  let page ← r.2.1.managementData.bm.frames[r.2.1.managementData.pageHndlBM.data]?
  let offset ← readInt page.memPage (r.2.2.id.slot * SIZEOF_SLOT)
  let recordSize ← getRecordSize schemaIntStr4
  let d ← deleteRecord r.2.1 r.2.2.id
  some ([r.1, d.1], freeSpaceOfPage0 t, freeSpaceOfPage0 r.2.1, freeSpaceOfPage0 d.2,
    recordSize, offset)

/-- On a fresh table with schema `{a: INT, b: STRING(4)}`: insert `{7, "abcd"}`,
then `updateRecord` of it to `{8, "efgh"}`.  The result lists the two return
codes, the id before and after the update, and directory entry 0 before and
after the update. -/
def updateInPlaceTrace :
    Option (List RC × RID × RID × Option PageDirectoryEntry × Option PageDirectoryEntry) := do
  let t ← freshTable schemaIntStr4
  let r ← insertRecord zeroUninit t (mkRecord 7 [97, 98, 99, 100] 4)
  let upd ← updateRecord zeroUninit r.2.1
    { id := r.2.2.id, data := (mkRecord 8 [101, 102, 103, 104] 4).data }
  some ([r.1, upd.1], r.2.2.id, upd.2.2.id, r.2.1.managementData.pageDirectory[0]?,
    upd.2.1.managementData.pageDirectory[0]?)

/-- On a fresh table with schema `{a: INT, b: STRING(4)}`: insert `{1, "a"}`
and `{2, "b"}`, delete the first, read the second, insert `{3, "c"}`, read the
second again.  The result lists the return codes of the four table calls, the
ids of the second and of the third record, and the return code and payload of
the two `getRecord` calls. -/
def getAroundInsert : Option (List RC × List RID × List (RC × List Nat)) := do
  let t ← freshTable schemaIntStr4
  let r1 ← insertRecord zeroUninit t (mkRecord 1 [97] 4)
  let r2 ← insertRecord zeroUninit r1.2.1 (mkRecord 2 [98] 4)
  let d ← deleteRecord r2.2.1 r1.2.2.id
  let g1 ← getRecord d.2 r2.2.2.id (blankRecord 8)
  let r3 ← insertRecord zeroUninit g1.2.1 (mkRecord 3 [99] 4)
  let g2 ← getRecord r3.2.1 r2.2.2.id (blankRecord 8)
  some ([r1.1, r2.1, d.1, r3.1], [r2.2.2.id, r3.2.2.id],
    [(g1.1, g1.2.2.data), (g2.1, g2.2.2.data)])

/-! ## Arrays rearranged inside a segment -/

/-- The array `arr1` is `arr` rearranged inside the cells `lo..hi`: same
length, the same values with the same multiplicities, the cells outside
`lo..hi` untouched, and every property shared by all values of `arr` in
`lo..hi` shared by all values of `arr1` in `lo..hi`. -/
def SegRel (arr arr1 : List Int) (lo hi : Int) : Prop :=
  arr1.length = arr.length ∧ arr1.Perm arr ∧
  (∀ k : Int, (k < lo ∨ hi < k) → getI arr1 k = getI arr k) ∧
  (∀ Q : Int → Prop, (∀ k : Int, lo ≤ k → k ≤ hi → Q (getI arr k)) →
    ∀ k : Int, lo ≤ k → k ≤ hi → Q (getI arr1 k))

/-- The cells `lo..hi` of `arr` are in ascending order. -/
def SortedSeg (arr : List Int) (lo hi : Int) : Prop :=
  ∀ a b : Int, lo ≤ a → a ≤ b → b ≤ hi → getI arr a ≤ getI arr b

/-! ## record_mgr.c: attribute values -/

def RC_RM_DATA_TYPE_ERROR : RC := 504
def RC_RM_INVALID_ATTRIBUTE : RC := 507
def RC_RM_ATTRIBUTE_TYPE_MISMATCH : RC := 508

/-- The struct `Value`: the tag `dt` and the member of the union it selects.
A string is the characters before its terminator; a `float` is its four bytes
in memory; a `bool` is the `short` it is in C. -/
inductive Value where
  | intV (v : Int)
  | stringV (s : List Nat)
  | floatV (bytes : List Nat)
  | boolV (v : Int)
deriving DecidableEq, Repr

/-- The field `dt` of a `Value`. -/
def Value.dt : Value → Int
  | .intV _ => DT_INT
  | .stringV _ => DT_STRING
  | .floatV _ => DT_FLOAT
  | .boolV _ => DT_BOOL

/-- The loop of `setAttr` and of `getAttr` that adds up the sizes of the
attributes `i..attrNum-1` (the two loops test the same four types):
`some (inl rc)` is the early `RC_RM_DATA_TYPE_ERROR` exit, `some (inr offset)`
the offset after the loop.  The accumulator `attrOffset` is an `int` and keeps
the low 32 bits of every addition, as `recordSize` does in `getRecordSize`. -/
def attrOffsetLoop (schema : Schema) : Nat → Nat → Int → Option (RC ⊕ Int)
  | 0, _, attrOffset => some (.inr attrOffset)
  | fuel + 1, i, attrOffset =>
    match schema.dataTypes[i]? with
    | none => none
    | some dt =>
      if dt = DT_INT then attrOffsetLoop schema fuel (i + 1) (toInt32 (attrOffset + SIZEOF_INT))
      else if dt = DT_FLOAT then
        attrOffsetLoop schema fuel (i + 1) (toInt32 (attrOffset + SIZEOF_FLOAT))
      else if dt = DT_BOOL then
        attrOffsetLoop schema fuel (i + 1) (toInt32 (attrOffset + SIZEOF_BOOL))
      else if dt = DT_STRING then
        match schema.typeLength[i]? with
        | none => none
        | some len => attrOffsetLoop schema fuel (i + 1) (toInt32 (attrOffset + len))
      else some (.inl RC_RM_DATA_TYPE_ERROR)

/-- The `n` bytes `strncpy(dest, s, n)` writes for a string `s`: its first `n`
characters, padded with NUL bytes when it is shorter. -/
def strncpyBytes (s : List Nat) (n : Nat) : List Nat :=
  s.take n ++ List.replicate (n - s.length) 0

/-- The function `setAttr`: the return code and the record. -/
def setAttr (record : Record) (schema : Schema) (attrNum : Int) (value : Value) :
    Option (RC × Record) :=
  if attrNum < 0 ∨ attrNum ≥ schema.numAttr then some (RC_RM_INVALID_ATTRIBUTE, record)
  else do
    let dt ← schema.dataTypes[attrNum.toNat]?
    if value.dt ≠ dt then some (RC_RM_ATTRIBUTE_TYPE_MISMATCH, record)
    else
      match ← attrOffsetLoop schema attrNum.toNat 0 0 with
      | .inl rc => some (rc, record)
      | .inr attrOffset =>
        match value with
        | .intV v => do
          let data ← writeBytes record.data attrOffset (encodeInt v)
          some (RC_OK, { record with data := data })
        | .floatV bytes => do
          let data ← if bytes.length = SIZEOF_FLOAT then writeBytes record.data attrOffset bytes
            else none
          some (RC_OK, { record with data := data })
        | .boolV v => do
          let data ← writeBytes record.data attrOffset (encodeShort v)
          some (RC_OK, { record with data := data })
        | .stringV s => do
          let len ← schema.typeLength[attrNum.toNat]?
          let data ← if len < 0 then none
            else writeBytes record.data attrOffset (strncpyBytes s len.toNat)
          some (RC_OK, { record with data := data })

/-- The function `getAttr`: the return code and the value it allocates. -/
def getAttr (record : Record) (schema : Schema) (attrNum : Int) : Option (RC × Option Value) := do
  match ← attrOffsetLoop schema attrNum.toNat 0 0 with
  | .inl rc => some (rc, none)
  | .inr attrOffset =>
    if attrNum < 0 then none
    else do
      let dt ← schema.dataTypes[attrNum.toNat]?
      if dt = DT_INT then do
        let bytes ← readBytes record.data attrOffset SIZEOF_INT
        some (RC_OK, some (.intV (decodeInt bytes)))
      else if dt = DT_FLOAT then do
        let bytes ← readBytes record.data attrOffset SIZEOF_FLOAT
        some (RC_OK, some (.floatV bytes))
      else if dt = DT_STRING then do
        let len ← schema.typeLength[attrNum.toNat]?
        if len < 0 then none
        else do
          let bytes ← readBytes record.data attrOffset len.toNat
          some (RC_OK, some (.stringV (bytes.takeWhile fun b => b != 0)))
      else if dt = DT_BOOL then do
        let bytes ← readBytes record.data attrOffset SIZEOF_BOOL
        some (RC_OK, some (.boolV (decodeShort bytes)))
      else some (RC_RM_DATA_TYPE_ERROR, none)

/-- A value a C program can hold: an `int` in `int` range, a `short` in `short`
range, four bytes of a `float`, a string without NUL inside. -/
def Value.WellFormed : Value → Prop
  | .intV v => isInt32 v
  | .stringV s => ∀ b ∈ s, b ≠ 0
  | .floatV bytes => bytes.length = SIZEOF_FLOAT
  | .boolV v => -32768 ≤ v ∧ v < 32768

/-- The value `getAttr` is expected to return after `setAttr` of `value` into
an attribute of type length `len`: the value itself, a string cut to its first
`len` characters. -/
def storedValue (value : Value) (len : Int) : Value :=
  match value with
  | .stringV s => .stringV (s.take len.toNat)
  | v => v

/-- The offset of attribute `i` as the specification gives it: the sum of the
sizes of the attributes before it. -/
def attrOffsetSpec (schema : Schema) (i : Nat) : Int :=
  (((schema.dataTypes.zip schema.typeLength).map fun p => attrSize p.1 p.2).take i).sum

/-- A schema that `setAttr` and `getAttr` handle: arrays of `numAttr` entries,
every data type one of the four of `DataType`, no negative type length. -/
def Schema.Typed (schema : Schema) : Prop :=
  schema.numAttr = (schema.dataTypes.length : Int) ∧
  schema.typeLength.length = schema.dataTypes.length ∧
  (∀ dt ∈ schema.dataTypes, dt = DT_INT ∨ dt = DT_FLOAT ∨ dt = DT_STRING ∨ dt = DT_BOOL) ∧
  (∀ len ∈ schema.typeLength, 0 ≤ len)

/-- The bytes `setAttr` stores for a value in an attribute of type length `len`. -/
def valueBytes (value : Value) (len : Int) : List Nat :=
  match value with
  | .intV v => encodeInt v
  | .stringV s => strncpyBytes s len.toNat
  | .floatV bytes => bytes
  | .boolV v => encodeShort v

/-- The value `getAttr` builds from the bytes it reads for an attribute of data
type `dt`. -/
def decodeValue (dt : Int) (bytes : List Nat) : Value :=
  if dt = DT_INT then .intV (decodeInt bytes)
  else if dt = DT_FLOAT then .floatV bytes
  else if dt = DT_STRING then .stringV (bytes.takeWhile fun b => b != 0)
  else .boolV (decodeShort bytes)

/-- The schema `{a: STRING(2147483647), b: INT}`, key `b`. -/
def schemaLongString : Schema :=
  { numAttr := 2, attrNames := [[97], [98]], dataTypes := [DT_STRING, DT_INT],
    typeLength := [2147483647, 0], keyAttrs := [1], keySize := 1 }

/-- The schema `{a: 7, b: INT}`: attribute `a` has a data type outside the four
of `DataType`. -/
def schemaUnknownType : Schema :=
  { numAttr := 2, attrNames := [[97], [98]], dataTypes := [7, DT_INT],
    typeLength := [0, 0], keyAttrs := [1], keySize := 1 }

/-- The schema `{a: INT, b: STRING(-4), c: INT}`. -/
def schemaNegativeLength : Schema :=
  { numAttr := 3, attrNames := [[97], [98], [99]], dataTypes := [DT_INT, DT_STRING, DT_INT],
    typeLength := [0, -4, 0], keyAttrs := [0], keySize := 1 }

/-- The schema `{a: INT, b: STRING(2147483643), c: INT, d: STRING(2147483645),
e: INT}`: the attribute sizes sum to `2^32 + 4`, and no `int` addition of the
size and offset loops overflows (the two that leave the range of `int` are the
`size_t` additions of `sizeof(int)`). -/
def schemaWrappedSize : Schema :=
  { numAttr := 5, attrNames := [[97], [98], [99], [100], [101]],
    dataTypes := [DT_INT, DT_STRING, DT_INT, DT_STRING, DT_INT],
    typeLength := [0, 2147483643, 0, 2147483645, 0], keyAttrs := [0], keySize := 1 }

/-! # Theorems -/

/-! ## Buffer pool: frame lists under the operations -/

theorem count_set_of_not_mem (l : List Int) (i : Nat) (a : Int) (h : a ∉ l) :
    (l.set i a).count a ≤ 1 := by
  induction l generalizing i with
  | nil => simp
  | cons x xs ih =>
    have hx : x ≠ a := fun e => h (by simp [e])
    have hxs : a ∉ xs := fun e => h (by simp [e])
    cases i with
    | zero => simp [List.count_cons, List.count_eq_zero_of_not_mem hxs]
    | succ j =>
      have := ih j hxs
      simp [List.count_cons, hx, this]

theorem count_set_of_ne (l : List Int) (i : Nat) (a p : Int) (h : p ≠ a) :
    (l.set i a).count p ≤ l.count p := by
  induction l generalizing i with
  | nil => simp
  | cons x xs ih =>
    cases i with
    | zero =>
      have : (a == p) = false := by simpa using fun e => h e.symm
      simp [List.count_cons, this]
    | succ j =>
      have := ih j
      simp only [List.set_cons_succ, List.count_cons]
      omega

theorem findPage_none (p : Int) (fs : List Frames) :
    findPage p fs = none ↔ p ∉ fs.map Frames.pageNumber := by
  induction fs with
  | nil => simp [findPage]
  | cons f fs ih =>
    by_cases h : f.pageNumber = p
    · simp [findPage, h]
    · have h' : ¬ p = f.pageNumber := fun e => h e.symm
      cases hf : findPage p fs with
      | none => simp [findPage, h, hf, h', ih.mp hf]
      | some i =>
        have : ¬ (p ∉ fs.map Frames.pageNumber) := fun e => by
          rw [ih.mpr e] at hf; cases hf
        simp only [List.map_cons, List.mem_cons, not_or, not_and]
        simp [findPage, h, hf]
        intro _
        simpa using this

theorem findPage_some (p : Int) (fs : List Frames) (i : Nat) (h : findPage p fs = some i) :
    ∃ f, fs[i]? = some f ∧ f.pageNumber = p ∧
      ∀ j, j < i → ∀ g, fs[j]? = some g → g.pageNumber ≠ p := by
  induction fs generalizing i with
  | nil => simp [findPage] at h
  | cons f fs ih =>
    by_cases hf : f.pageNumber = p
    · simp [findPage, hf] at h
      subst h
      exact ⟨f, by simp, hf, by intro j hj; omega⟩
    · cases hr : findPage p fs with
      | none => simp [findPage, hf, hr] at h
      | some k =>
        simp [findPage, hf, hr] at h
        subst h
        obtain ⟨g, hg, hgp, hlt⟩ := ih k hr
        refine ⟨g, by simpa using hg, hgp, ?_⟩
        intro j hj g' hg'
        cases j with
        | zero => simp at hg'; subst hg'; exact hf
        | succ j' => exact hlt j' (by omega) g' (by simpa using hg')

theorem findPage_of_first (p : Int) (fs : List Frames) (i : Nat) (f : Frames)
    (hi : fs[i]? = some f) (hp : f.pageNumber = p)
    (hlt : ∀ j, j < i → ∀ g, fs[j]? = some g → g.pageNumber ≠ p) :
    findPage p fs = some i := by
  induction fs generalizing i with
  | nil => simp at hi
  | cons x xs ih =>
    cases i with
    | zero => simp at hi; subst hi; simp [findPage, hp]
    | succ k =>
      have hx : x.pageNumber ≠ p := hlt 0 (by omega) x (by simp)
      have := ih k (by simpa using hi) (fun j hj g hg => hlt (j + 1) (by omega) g (by simpa using hg))
      simp [findPage, hx, this]

theorem unpinLoop_pageNumber (p : Int) (fs : List Frames) :
    (unpinLoop p fs).2.map Frames.pageNumber = fs.map Frames.pageNumber := by
  induction fs with
  | nil => simp [unpinLoop]
  | cons f fs ih =>
    unfold unpinLoop
    split
    · split <;> simp
    · simp [ih]

theorem unpinLoop_fix_nonneg (p : Int) (fs : List Frames) (h : ∀ f ∈ fs, 0 ≤ f.fix_cnt) :
    ∀ f ∈ (unpinLoop p fs).2, 0 ≤ f.fix_cnt := by
  induction fs with
  | nil => simp [unpinLoop]
  | cons f fs ih =>
    have hf : 0 ≤ f.fix_cnt := h f (by simp)
    have hfs : ∀ g ∈ fs, 0 ≤ g.fix_cnt := fun g hg => h g (by simp [hg])
    unfold unpinLoop
    split
    · split
      · intro g hg
        simp only [List.mem_cons] at hg
        rcases hg with rfl | hg
        · simp; omega
        · exact hfs g hg
      · exact h
    · intro g hg
      simp only [List.mem_cons] at hg
      rcases hg with rfl | hg
      · exact hf
      · exact ih hfs g hg

theorem forcePageLoop_fields (p : Int) (file : PageFile) (w c : Int) (fs : List Frames) :
    (forcePageLoop p file w c fs).1.map Frames.pageNumber = fs.map Frames.pageNumber ∧
    (forcePageLoop p file w c fs).1.map Frames.fix_cnt = fs.map Frames.fix_cnt := by
  induction fs generalizing file w c with
  | nil => simp [forcePageLoop]
  | cons f fs ih =>
    unfold forcePageLoop
    split
    · simp [(ih _ _ _).1, (ih _ _ _).2]
    · simp [(ih _ _ _).1, (ih _ _ _).2]

theorem forceFlushLoop_fields (file : PageFile) (w c : Int) (fs : List Frames) :
    (forceFlushLoop file w c fs).2.1.map Frames.pageNumber = fs.map Frames.pageNumber ∧
    (forceFlushLoop file w c fs).2.1.map Frames.fix_cnt = fs.map Frames.fix_cnt := by
  induction fs generalizing file w c with
  | nil => simp [forceFlushLoop]
  | cons f fs ih =>
    unfold forceFlushLoop
    split
    · simp [(ih _ _ _).1, (ih _ _ _).2]
    · split
      · simp
      · simp [(ih _ _ _).1, (ih _ _ _).2]

theorem markDirty_frames (bm : BufferPool) (page : BM_PageHandle) :
    (markDirty bm page).2.frames = bm.frames.map fun f =>
      if f.pageNumber = page.pageNum then { f with dirty := true } else f := by
  unfold markDirty
  dsimp only
  split <;> rfl

theorem markDirty_fields (bm : BufferPool) (page : BM_PageHandle) :
    (markDirty bm page).2.frames.map Frames.pageNumber = bm.frames.map Frames.pageNumber ∧
    (markDirty bm page).2.frames.map Frames.fix_cnt = bm.frames.map Frames.fix_cnt := by
  rw [markDirty_frames]
  constructor <;>
  · simp only [List.map_map]
    apply List.map_congr_left
    intro f _
    simp only [Function.comp]
    split <;> rfl

theorem map_set_same {α β : Type} (g : α → β) (l : List α) (i : Nat) (a b : α)
    (h : l[i]? = some a) (hg : g b = g a) : (l.set i b).map g = l.map g := by
  induction l generalizing i with
  | nil => simp
  | cons x xs ih =>
    cases i with
    | zero => simp at h; subst h; simp [hg]
    | succ k => simp at h; simp [ih k h]

theorem PoolInv_of_fields (fs gs : List Frames) (h : PoolInv fs)
    (h1 : gs.map Frames.pageNumber = fs.map Frames.pageNumber)
    (h2 : gs.map Frames.fix_cnt = fs.map Frames.fix_cnt) : PoolInv gs := by
  unfold PoolInv
  rw [h1, h2]
  exact h

theorem PoolInv_set_new (fs : List Frames) (idx : Nat) (g : Frames) (h : PoolInv fs)
    (hnew : g.pageNumber ∉ fs.map Frames.pageNumber)
    (hfix : 0 ≤ g.fix_cnt) : PoolInv (fs.set idx g) := by
  refine ⟨?_, ?_⟩
  · intro p hp0
    rw [List.map_set]
    by_cases e : p = g.pageNumber
    · subst e
      exact count_set_of_not_mem _ _ _ hnew
    · exact le_trans (count_set_of_ne _ _ _ _ e) (h.1 p hp0)
  · intro c hc
    rw [List.map_set] at hc
    rcases List.mem_or_eq_of_mem_set hc with hc | hc
    · exact h.2 c hc
    · rw [hc]; exact hfix

theorem PoolInv_replaceFrame (bm : BufferPool) (idx : Nat) (pageNum : Int) (h : PoolInv bm.frames)
    (hnew : findPage pageNum bm.frames = none) :
    PoolInv (replaceFrame bm idx pageNum).1.frames := by
  unfold replaceFrame
  exact PoolInv_set_new _ _ _ h ((findPage_none _ _).mp hnew) (by simp)

theorem PoolInv.mk_unpin (bm : BufferPool) (page : BM_PageHandle) (h : PoolInv bm.frames) :
    PoolInv (unpinPage bm page).2.frames := by
  unfold unpinPage
  refine ⟨?_, ?_⟩
  · intro p hp
    show (List.map Frames.pageNumber (unpinLoop page.pageNum bm.frames).2).count p ≤ 1
    rw [unpinLoop_pageNumber]
    exact h.1 p hp
  · intro c hc
    obtain ⟨f, hf, rfl⟩ := List.mem_map.mp hc
    exact unpinLoop_fix_nonneg _ _ (fun g hg => h.2 _ (List.mem_map_of_mem _ hg)) f hf

theorem PoolInv_FIFO (bm : BufferPool) (page : BM_PageHandle) (pageNum : Int)
    (h : PoolInv bm.frames) (hnew : findPage pageNum bm.frames = none) :
    PoolInv (FIFO bm page pageNum).2.1.frames := by
  unfold FIFO
  dsimp only
  split <;> split <;> first | exact PoolInv_replaceFrame _ _ _ h hnew | exact h

theorem PoolInv_pinPage (bm : BufferPool) (page : BM_PageHandle) (pageNum : Int)
    (h : PoolInv bm.frames) : PoolInv (pinPage bm page pageNum).2.1.frames := by
  unfold pinPage
  split
  · exact h
  · split
    · exact h
    · rename_i hneg
      split
      · rename_i i hi
        obtain ⟨f, hf, hfp, _⟩ := findPage_some _ _ _ hi
        have hget : bm.frames.getD i default = f := by
          simp [List.getD, hf]
        simp only [hget]
        refine ⟨?_, ?_⟩
        · intro p hp0
          rw [map_set_same Frames.pageNumber _ _ f _ hf (by rfl)]
          exact h.1 p hp0
        · intro c hc
          rw [List.map_set] at hc
          rcases List.mem_or_eq_of_mem_set hc with hc | hc
          · exact h.2 c hc
          · have : 0 ≤ f.fix_cnt := h.2 _ (List.mem_map.mpr ⟨f, List.getElem?_mem hf, rfl⟩)
            rw [hc]; simp; omega
      · rename_i hnone
        split
        · exact PoolInv_set_new _ _ _ h ((findPage_none _ _).mp hnone) (by simp)
        · split
          · exact PoolInv_FIFO _ _ _ h hnone
          · exact PoolInv_replaceFrame _ _ _ h hnone
          · exact PoolInv_replaceFrame _ _ _ h hnone
          · exact h

theorem PoolInv_initFrames (mem : Nat → Page) (n : Nat) : PoolInv (initFrames mem n) := by
  unfold initFrames
  refine ⟨?_, ?_⟩
  · intro p hp
    have : (List.map Frames.pageNumber (List.map (fun i => ({ memPage := mem i, pageNumber := NO_PAGE, dirty := false, fix_cnt := 0, lruOrder := 0 } : Frames)) (List.range n))).count p = 0 := by
      apply List.count_eq_zero_of_not_mem
      simp only [List.map_map, List.mem_map, not_exists, not_and]
      intro x _ e
      simp [NO_PAGE] at e
      omega
    omega
  · intro c hc
    simp only [List.map_map, List.mem_map] at hc
    obtain ⟨x, _, e⟩ := hc
    simp at e
    omega

theorem Reachable_inv (bm : BufferPool) (h : Reachable bm) :
    PoolInv bm.frames ∧ bm.isInitialized_bp = true := by
  induction h with
  | init bm0 file numPages strategy stratData mem h0 _ _ =>
    simp [initBufferPool, h0, PoolInv_initFrames]
  | pin bm page pageNum _ ih =>
    refine ⟨PoolInv_pinPage _ _ _ ih.1, ?_⟩
    have := ih.2
    unfold pinPage FIFO LRU LRU_K replaceFrame
    dsimp only
    repeat' split
    all_goals simp [this]
  | unpin bm page _ ih =>
    exact ⟨PoolInv.mk_unpin bm page ih.1, ih.2⟩
  | dirty bm page _ ih =>
    refine ⟨PoolInv_of_fields _ _ ih.1 (markDirty_fields _ _).1 (markDirty_fields _ _).2, ?_⟩
    unfold markDirty; dsimp only; split <;> exact ih.2
  | force bm page _ ih =>
    refine ⟨?_, ?_⟩
    · unfold forcePage; dsimp only
      split <;> exact PoolInv_of_fields _ _ ih.1 (forcePageLoop_fields _ _ _ _ _).1 (forcePageLoop_fields _ _ _ _ _).2
    · unfold forcePage; dsimp only; split <;> exact ih.2
  | flush bm _ ih =>
    refine ⟨?_, ?_⟩
    · unfold forceFlushPool
      split
      · exact ih.1
      · dsimp only
        split
        · exact PoolInv_of_fields _ _ ih.1 (forceFlushLoop_fields _ _ _ _).1 (forceFlushLoop_fields _ _ _ _).2
        · split <;> exact PoolInv_of_fields _ _ ih.1 (forceFlushLoop_fields _ _ _ _).1 (forceFlushLoop_fields _ _ _ _).2
    · unfold forceFlushPool
      split
      · exact ih.2
      · dsimp only
        split
        · exact ih.2
        · split <;> exact ih.2

theorem index_unique_of_count (l : List Int) (p : Int) (h : l.count p ≤ 1) (i j : Nat)
    (hi : l[i]? = some p) (hj : l[j]? = some p) : i = j := by
  induction l generalizing i j with
  | nil => simp at hi
  | cons x xs ih =>
    cases i with
    | zero =>
      cases j with
      | zero => rfl
      | succ j' =>
        simp at hi hj
        subst hi
        have hm : x ∈ xs := List.getElem?_mem hj
        have : 0 < xs.count x := List.count_pos_iff.mpr hm
        simp [List.count_cons] at h
        omega
    | succ i' =>
      cases j with
      | zero =>
        simp at hi hj
        subst hj
        have hm : x ∈ xs := List.getElem?_mem hi
        have : 0 < xs.count x := List.count_pos_iff.mpr hm
        simp [List.count_cons] at h
        omega
      | succ j' =>
        simp at hi hj
        have hc : xs.count p ≤ 1 := by
          have := List.count_le_count_cons p x xs
          omega
        rw [ih hc i' j' hi hj]

theorem pinPage_hit_first (bm : BufferPool) (page : BM_PageHandle) (pageNum : Int) (i : Nat)
    (f : Frames) (hinit : bm.isInitialized_bp = true) (hp : 0 ≤ pageNum)
    (hi : bm.frames[i]? = some f) (hf : f.pageNumber = pageNum)
    (hfirst : ∀ j, j < i → ∀ g, bm.frames[j]? = some g → g.pageNumber ≠ pageNum) :
    pinPage bm page pageNum =
      (RC_OK,
       { bm with lruCounter := bm.lruCounter + 1,
                 frames := bm.frames.set i
                   { f with fix_cnt := f.fix_cnt + 1, lruOrder := bm.lruCounter + 1 } },
       { pageNum := pageNum, data := i }) := by
  have hfind := findPage_of_first pageNum bm.frames i f hi hf hfirst
  have hneg : ¬ pageNum < 0 := by omega
  have hget : bm.frames[i]?.getD default = f := by simp [hi]
  unfold pinPage
  simp [hinit, hneg, hfind, hget]

theorem pinPage_free_first (bm : BufferPool) (page : BM_PageHandle) (pageNum : Int) (i : Nat)
    (f : Frames) (hinit : bm.isInitialized_bp = true) (hp : 0 ≤ pageNum)
    (hmiss : ∀ g ∈ bm.frames, g.pageNumber ≠ pageNum)
    (hi : bm.frames[i]? = some f) (hf : f.pageNumber = NO_PAGE)
    (hfirst : ∀ j, j < i → ∀ g, bm.frames[j]? = some g → g.pageNumber ≠ NO_PAGE) :
    pinPage bm page pageNum =
      (RC_OK,
       { bm with file := (loadPage bm.file pageNum f.memPage).1,
                 readFromDisk := bm.readFromDisk + 1,
                 frames := bm.frames.set i
                   { f with memPage := (loadPage bm.file pageNum f.memPage).2, fix_cnt := 1,
                            pageNumber := pageNum } },
       { pageNum := pageNum, data := i }) := by
  have hfind := findPage_of_first NO_PAGE bm.frames i f hi hf hfirst
  have hnone : findPage pageNum bm.frames = none := by
    rw [findPage_none]
    intro hm
    obtain ⟨g, hg, e⟩ := List.mem_map.mp hm
    exact hmiss g hg e
  have hneg : ¬ pageNum < 0 := by omega
  have hget : bm.frames[i]?.getD default = f := by simp [hi]
  unfold pinPage
  simp [hinit, hneg, hfind, hnone, hget]

theorem loadPage_of_present (file : PageFile) (pageNum : Int) (memPage p : Page)
    (hp : 0 ≤ pageNum) (h : file[pageNum.toNat]? = some p) :
    loadPage file pageNum memPage = (file, p) := by
  have hlt : pageNum.toNat < file.length := by
    rcases Nat.lt_or_ge pageNum.toNat file.length with h' | h'
    · exact h'
    · rw [List.getElem?_eq_none h'] at h; cases h
  have h1 : ¬ ((file.length : Int) < pageNum) := by omega
  have h2 : ¬ (pageNum < 0 ∨ pageNum > (file.length : Int)) := by omega
  have h3 : ¬ pageNum < 0 := by omega
  simp [loadPage, ensureCapacity, openPageFile, readBlock, freadBlock, h1, h2, h3, h]

theorem forceFlushLoop_clean (file : PageFile) (w c : Int) (fs : List Frames)
    (h : (forceFlushLoop file w c fs).1 = none) :
    ∀ f ∈ (forceFlushLoop file w c fs).2.1, f.dirty = false ∧ f.fix_cnt = 0 := by
  induction fs generalizing file w c with
  | nil => simp [forceFlushLoop]
  | cons f fs ih =>
    unfold forceFlushLoop at h ⊢
    split at h
    · rename_i hd
      rw [if_pos hd]
      intro g hg
      simp only [List.mem_cons] at hg
      rcases hg with rfl | hg
      · exact ⟨rfl, hd.2⟩
      · exact ih _ _ _ h g hg
    · rename_i hd
      rw [if_neg hd]
      split at h
      · cases h
      · rename_i hfix
        rw [if_neg hfix]
        have hz : f.fix_cnt = 0 := by simpa using hfix
        intro g hg
        simp only [List.mem_cons] at hg
        rcases hg with rfl | hg
        · refine ⟨?_, hz⟩
          cases hdd : g.dirty with
          | false => rfl
          | true => exact absurd ⟨hdd, hz⟩ hd
        · exact ih _ _ _ h g hg

theorem forceFlushLoop_rc (file : PageFile) (w c : Int) (fs : List Frames) (rc : RC)
    (h : (forceFlushLoop file w c fs).1 = some rc) : rc = RC_BP_FLUSHPOOL_FAILED := by
  induction fs generalizing file w c with
  | nil => simp [forceFlushLoop] at h
  | cons f fs ih =>
    unfold forceFlushLoop at h
    split at h
    · exact ih _ _ _ h
    · split at h
      · simpa using h.symm
      · exact ih _ _ _ h

/-! ## Buffer pool: the claims -/

/-- C5: in every pool state reachable from `initBufferPool` by `pinPage`,
`unpinPage`, `markDirty`, `forcePage` and `forceFlushPool` calls, for every
page number `p ≥ 0` at most one frame has `pageNumber == p`. -/
theorem at_most_one_frame_per_page (bm : BufferPool) (h : Reachable bm) (p : Int) (hp : 0 ≤ p) :
    bm.frames.countP (fun f => decide (f.pageNumber = p)) ≤ 1 := by
  have := (Reachable_inv bm h).1.1 p hp
  rw [List.count, List.countP_map] at this
  have e : ((fun x => x == p) ∘ Frames.pageNumber) = fun f => decide (f.pageNumber = p) := by
    funext f
    simp only [Function.comp, beq_eq_decide]
    exact decide_eq_decide.mpr Iff.rfl
  rw [e] at this
  exact this

theorem at_most_one_frame_per_page_witness :
    Reachable (pinPage (samplePool 3 .RS_FIFO) ⟨0, 0⟩ 1).2.1 ∧
    (pinPage (samplePool 3 .RS_FIFO) ⟨0, 0⟩ 1).2.1.frames.countP
      (fun f => decide (f.pageNumber = 1)) ≤ 1 :=
  have hr : Reachable (pinPage (samplePool 3 .RS_FIFO) ⟨0, 0⟩ 1).2.1 :=
    Reachable.pin _ _ _
      (Reachable.init freshPool [zeroPage, zeroPage] 3 .RS_FIFO none (fun _ => zeroPage) rfl
        (by decide) (by intro h; cases h))
  ⟨hr, at_most_one_frame_per_page _ hr 1 (by decide)⟩

/-- C6: in every pool state reachable from `initBufferPool` by `pinPage`,
`unpinPage`, `markDirty`, `forcePage` and `forceFlushPool` calls, every frame
has `fix_cnt ≥ 0`. -/
theorem fix_count_nonneg (bm : BufferPool) (h : Reachable bm) :
    ∀ f ∈ bm.frames, 0 ≤ f.fix_cnt := by
  intro f hf
  exact (Reachable_inv bm h).1.2 _ (List.mem_map_of_mem _ hf)

theorem fix_count_nonneg_witness :
    Reachable (unpinPage (samplePool 2 .RS_LRU) ⟨5, 0⟩).2 ∧
    ∀ f ∈ (unpinPage (samplePool 2 .RS_LRU) ⟨5, 0⟩).2.frames, 0 ≤ f.fix_cnt :=
  have hr : Reachable (unpinPage (samplePool 2 .RS_LRU) ⟨5, 0⟩).2 :=
    Reachable.unpin _ _
      (Reachable.init freshPool [zeroPage, zeroPage] 2 .RS_LRU none (fun _ => zeroPage) rfl
        (by decide) (by intro h; cases h))
  ⟨hr, fix_count_nonneg _ hr⟩

/-- C7: if `forceFlushPool` returns `RC_OK`, then afterwards every frame with
`fix_cnt == 0` has `dirty == false`. -/
theorem forceFlushPool_ok_clean (bm : BufferPool) (h : (forceFlushPool bm).1 = RC_OK) :
    ∀ f ∈ (forceFlushPool bm).2.frames, f.fix_cnt = 0 → f.dirty = false := by
  unfold forceFlushPool at h ⊢
  split at h
  · simp [RC_BP_FLUSHPOOL_FAILED, RC_OK] at h
  · rename_i hinit
    rw [if_neg hinit]
    dsimp only at h ⊢
    cases hr : (forceFlushLoop bm.file bm.writtenToDisk 0 bm.frames).1 with
    | some rc =>
      exfalso
      have e := forceFlushLoop_rc _ _ _ _ _ hr
      subst e
      simp [hr, RC_BP_FLUSHPOOL_FAILED, RC_OK] at h
    | none =>
      simp only [hr]
      intro f hf _
      split at hf
      · exact (forceFlushLoop_clean _ _ _ _ hr f hf).1
      · exact (forceFlushLoop_clean _ _ _ _ hr f hf).1

theorem forceFlushPool_ok_clean_witness :
    (forceFlushPool dirtyPool).1 = RC_OK ∧
    ∀ f ∈ (forceFlushPool dirtyPool).2.frames, f.fix_cnt = 0 → f.dirty = false :=
  ⟨by decide, forceFlushPool_ok_clean dirtyPool (by decide)⟩

/-- C8 (the code departs from the claim): on a full two-frame LRU pool whose
frames hold pages 1 and 2, both with `fix_cnt = 1`, `pinPage` of the
non-resident page 3 returns `RC_OK` and replaces the page of frame 0, a frame
that had `fix_cnt = 1` before the call. -/
theorem lru_evicts_pinned_frame :
    pinnedLruPool.frames.map Frames.pageNumber = [1, 2] ∧
    pinnedLruPool.frames.map Frames.fix_cnt = [1, 1] ∧
    (pinPage pinnedLruPool ⟨2, 1⟩ 3).1 = RC_OK ∧
    (pinPage pinnedLruPool ⟨2, 1⟩ 3).2.2 = ⟨3, 0⟩ ∧
    (pinPage pinnedLruPool ⟨2, 1⟩ 3).2.1.frames.map Frames.pageNumber = [3, 2] := by
  decide

/-- C9: in a reachable (initialised) pool, when `pageNum ≥ 0` is resident in
frame `i`, `pinPage` returns `RC_OK`, increments `lruCounter` by one, sets the
frame's `lruOrder` to the new `lruCounter` and raises its `fix_cnt` by one
while keeping its `pageNumber`, `dirty` and buffer, fills the handle with
`pageNum` and the frame's buffer, and leaves every other frame, the frame
count, the page file and both I/O counters unchanged. -/
theorem pinPage_hit (bm : BufferPool) (hr : Reachable bm) (page : BM_PageHandle) (pageNum : Int)
    (hp : 0 ≤ pageNum) (i : Nat) (f : Frames) (hi : bm.frames[i]? = some f)
    (hf : f.pageNumber = pageNum) :
    (pinPage bm page pageNum).1 = RC_OK ∧
    (pinPage bm page pageNum).2.1.lruCounter = bm.lruCounter + 1 ∧
    (pinPage bm page pageNum).2.1.frames[i]? =
      some { f with fix_cnt := f.fix_cnt + 1, lruOrder := bm.lruCounter + 1 } ∧
    (pinPage bm page pageNum).2.2 = { pageNum := pageNum, data := i } ∧
    (∀ j, j ≠ i → (pinPage bm page pageNum).2.1.frames[j]? = bm.frames[j]?) ∧
    (pinPage bm page pageNum).2.1.frames.length = bm.frames.length ∧
    (pinPage bm page pageNum).2.1.file = bm.file ∧
    (pinPage bm page pageNum).2.1.readFromDisk = bm.readFromDisk ∧
    (pinPage bm page pageNum).2.1.writtenToDisk = bm.writtenToDisk := by
  obtain ⟨hinv, hinit⟩ := Reachable_inv bm hr
  have hfirst : ∀ j, j < i → ∀ g, bm.frames[j]? = some g → g.pageNumber ≠ pageNum := by
    intro j hj g hg e
    have h1 : (bm.frames.map Frames.pageNumber)[i]? = some pageNum := by simp [hi, hf]
    have h2 : (bm.frames.map Frames.pageNumber)[j]? = some pageNum := by simp [hg, e]
    have := index_unique_of_count _ _ (hinv.1 pageNum hp) i j h1 h2
    omega
  have hlt : i < bm.frames.length := by
    rcases Nat.lt_or_ge i bm.frames.length with h' | h'
    · exact h'
    · rw [List.getElem?_eq_none h'] at hi; cases hi
  rw [pinPage_hit_first bm page pageNum i f hinit hp hi hf hfirst]
  refine ⟨rfl, rfl, ?_, rfl, ?_, ?_, rfl, rfl, rfl⟩
  · simp [hlt]
  · intro j hj
    simp [List.getElem?_set, Ne.symm hj]
  · simp

theorem pinPage_hit_witness :
    Reachable (pinPage (samplePool 3 .RS_FIFO) ⟨0, 0⟩ 1).2.1 ∧
    (pinPage (pinPage (samplePool 3 .RS_FIFO) ⟨0, 0⟩ 1).2.1 ⟨0, 0⟩ 1).2.1.frames[0]? =
      some { memPage := zeroPage, pageNumber := 1, dirty := false, fix_cnt := 1 + 1,
             lruOrder := 0 + 1 } :=
  have hr : Reachable (pinPage (samplePool 3 .RS_FIFO) ⟨0, 0⟩ 1).2.1 :=
    Reachable.pin _ _ _
      (Reachable.init freshPool [zeroPage, zeroPage] 3 .RS_FIFO none (fun _ => zeroPage) rfl
        (by decide) (by intro h; cases h))
  ⟨hr, (pinPage_hit _ hr ⟨0, 0⟩ 1 (by decide) 0
    { memPage := zeroPage, pageNumber := 1, dirty := false, fix_cnt := 1, lruOrder := 0 }
    (by decide) rfl).2.2.1⟩

/-- C10: in an initialised pool, when `pageNum ≥ 0` is held by no frame and
frame `i` is the lowest-index frame with `pageNumber == NO_PAGE`, `pinPage`
returns `RC_OK`, loads into frame `i` (its buffer becomes what the read of
block `pageNum` leaves in it, which is that block of the file whenever the
file has it), sets that frame's `pageNumber = pageNum` and `fix_cnt = 1`, fills
the handle with `pageNum` and that frame's buffer, and leaves every other frame
unchanged. -/
theorem pinPage_free_slot (bm : BufferPool) (hinit : bm.isInitialized_bp = true)
    (page : BM_PageHandle) (pageNum : Int) (hp : 0 ≤ pageNum)
    (hmiss : ∀ g ∈ bm.frames, g.pageNumber ≠ pageNum)
    (i : Nat) (f : Frames) (hi : bm.frames[i]? = some f) (hf : f.pageNumber = NO_PAGE)
    (hfirst : ∀ j, j < i → ∀ g, bm.frames[j]? = some g → g.pageNumber ≠ NO_PAGE) :
    (pinPage bm page pageNum).1 = RC_OK ∧
    (pinPage bm page pageNum).2.1.frames[i]? =
      some { f with memPage := (loadPage bm.file pageNum f.memPage).2, fix_cnt := 1,
                    pageNumber := pageNum } ∧
    (∀ p, bm.file[pageNum.toNat]? = some p → (loadPage bm.file pageNum f.memPage).2 = p) ∧
    (pinPage bm page pageNum).2.2 = { pageNum := pageNum, data := i } ∧
    (∀ j, j ≠ i → (pinPage bm page pageNum).2.1.frames[j]? = bm.frames[j]?) ∧
    (pinPage bm page pageNum).2.1.frames.length = bm.frames.length := by
  have hlt : i < bm.frames.length := by
    rcases Nat.lt_or_ge i bm.frames.length with h' | h'
    · exact h'
    · rw [List.getElem?_eq_none h'] at hi; cases hi
  rw [pinPage_free_first bm page pageNum i f hinit hp hmiss hi hf hfirst]
  refine ⟨rfl, ?_, ?_, rfl, ?_, ?_⟩
  · simp [hlt]
  · intro p hpp
    rw [loadPage_of_present bm.file pageNum f.memPage p hp hpp]
  · intro j hj
    simp [List.getElem?_set, Ne.symm hj]
  · simp

theorem pinPage_free_slot_witness :
    (pinPage (pinPage (samplePool 3 .RS_FIFO) ⟨0, 0⟩ 1).2.1 ⟨0, 0⟩ 0).2.2 = ⟨0, 1⟩ :=
  (pinPage_free_slot (pinPage (samplePool 3 .RS_FIFO) ⟨0, 0⟩ 1).2.1 (by decide) ⟨0, 0⟩ 0
    (by decide) (by decide) 1
    { memPage := zeroPage, pageNumber := NO_PAGE, dirty := false, fix_cnt := 0, lruOrder := 0 }
    (by decide) rfl (by decide)).2.2.2.1

/-! ## Bytes in page buffers -/

theorem encodeInt_length (v : Int) : (encodeInt v).length = 4 := by
  simp [encodeInt]

theorem decodeInt_encodeInt (v : Int) (h : isInt32 v) : decodeInt (encodeInt v) = v := by
  unfold isInt32 at h
  unfold decodeInt encodeInt
  simp only [List.getD_cons_zero, List.getD_cons_succ]
  generalize hu : (v % 4294967296).toNat = u
  have hu' : (u : Int) = v % 4294967296 := by
    rw [← hu]; exact Int.toNat_of_nonneg (Int.emod_nonneg _ (by decide))
  have hlt : v % 4294967296 < 4294967296 := Int.emod_lt_of_pos _ (by decide)
  have hsum : u % 256 + 256 * (u / 256 % 256) + 65536 * (u / 65536 % 256) +
      16777216 * (u / 16777216 % 256) = u := by omega
  rw [hsum]
  split <;> omega

theorem decodeInt_append (v : Int) (h : isInt32 v) (rest : List Nat) :
    decodeInt (encodeInt v ++ rest) = v := by
  have := decodeInt_encodeInt v h
  unfold decodeInt encodeInt at *
  simpa using this

theorem readBytes_mid (pre bs rest : List Nat) (off : Int) (n : Nat)
    (hoff : off = (pre.length : Int)) (hn : n = bs.length) :
    readBytes (pre ++ bs ++ rest) off n = some bs := by
  subst hoff hn
  unfold readBytes
  have h1 : (0 : Int) ≤ (pre.length : Int) ∧
      ((pre.length : Int)).toNat + bs.length ≤ (pre ++ bs ++ rest).length := by
    simp
  rw [if_pos h1]
  simp [List.append_assoc]

theorem readInt_mid (pre rest : List Nat) (v : Int) (h : isInt32 v) (off : Int)
    (hoff : off = (pre.length : Int)) :
    readInt (pre ++ encodeInt v ++ rest) off = some v := by
  unfold readInt
  rw [readBytes_mid pre (encodeInt v) rest off SIZEOF_INT hoff (by simp [encodeInt_length, SIZEOF_INT])]
  simp [decodeInt_encodeInt v h]

theorem writeBytes_zeros (pre bs : List Nat) (k : Nat) (off : Int)
    (hoff : off = (pre.length : Int)) (hk : bs.length ≤ k) :
    writeBytes (pre ++ List.replicate k 0) off bs =
      some ((pre ++ bs) ++ List.replicate (k - bs.length) 0) := by
  subst hoff
  unfold writeBytes
  have h1 : (0 : Int) ≤ (pre.length : Int) ∧
      ((pre.length : Int)).toNat + bs.length ≤ (pre ++ List.replicate k 0).length := by
    simp; omega
  rw [if_pos h1]
  simp [List.append_assoc, List.drop_append, List.take_append]

theorem intsBytes_length (xs : List Int) : (intsBytes xs).length = 4 * xs.length := by
  induction xs with
  | nil => simp [intsBytes]
  | cons x xs ih =>
    have : intsBytes (x :: xs) = encodeInt x ++ intsBytes xs := by simp [intsBytes]
    rw [this, List.length_append, encodeInt_length, ih, List.length_cons]
    omega

theorem intsBytes_cons (x : Int) (xs : List Int) :
    intsBytes (x :: xs) = encodeInt x ++ intsBytes xs := by
  simp [intsBytes]

theorem cnames_cons (nm : List Nat) (names : List (List Nat)) :
    cnames (nm :: names) = nm ++ [0] ++ cnames names := by
  simp [cnames]

theorem readIntArrayLoop_mid (xs : List Int) (hx : ∀ v ∈ xs, isInt32 v) (pre rest : List Nat)
    (off : Int) (hoff : off = (pre.length : Int)) :
    readIntArrayLoop (pre ++ intsBytes xs ++ rest) xs.length off = some xs := by
  induction xs generalizing pre off with
  | nil => simp [readIntArrayLoop]
  | cons x xs ih =>
    have hx0 : isInt32 x := hx x (by simp)
    have hxs : ∀ v ∈ xs, isInt32 v := fun v hv => hx v (by simp [hv])
    have e1 : pre ++ intsBytes (x :: xs) ++ rest = pre ++ encodeInt x ++ (intsBytes xs ++ rest) := by
      simp [intsBytes_cons, List.append_assoc]
    have e2 : pre ++ intsBytes (x :: xs) ++ rest = (pre ++ encodeInt x) ++ intsBytes xs ++ rest := by
      simp [intsBytes_cons, List.append_assoc]
    have h1 : readInt (pre ++ intsBytes (x :: xs) ++ rest) off = some x := by
      rw [e1]; exact readInt_mid pre _ x hx0 off hoff
    have h2 : readIntArrayLoop (pre ++ intsBytes (x :: xs) ++ rest) xs.length (off + SIZEOF_INT)
        = some xs := by
      rw [e2]
      apply ih hxs
      subst hoff
      simp [encodeInt_length, SIZEOF_INT]
    simp only [List.length_cons, readIntArrayLoop, h1, Option.bind_eq_bind, Option.some_bind, h2]

theorem takeWhile_nul (nm rest : List Nat) (hnm : ∀ b ∈ nm, b ≠ 0) :
    (nm ++ 0 :: rest).takeWhile (fun b => b != 0) = nm := by
  induction nm with
  | nil => simp
  | cons b bs ih =>
    have hb : b ≠ 0 := hnm b (by simp)
    have := ih (fun c hc => hnm c (by simp [hc]))
    simp [List.takeWhile_cons, hb, this]

theorem cstringAt_mid (pre nm rest : List Nat) (hnm : ∀ b ∈ nm, b ≠ 0) (off : Int)
    (hoff : off = (pre.length : Int)) :
    cstringAt (pre ++ (nm ++ [0]) ++ rest) off = some nm := by
  subst hoff
  unfold cstringAt
  have h1 : (0 : Int) ≤ (pre.length : Int) ∧
      ((pre.length : Int)).toNat ≤ (pre ++ (nm ++ [0]) ++ rest).length := by
    simp
  rw [if_pos h1]
  have hd : List.drop ((pre.length : Int)).toNat (pre ++ (nm ++ [0]) ++ rest) = nm ++ 0 :: rest := by
    simp [List.append_assoc]
  simp only [hd]
  have hc : (nm ++ 0 :: rest).contains 0 = true := by simp
  rw [if_pos hc]
  rw [takeWhile_nul nm rest hnm]

theorem readAttrNames_mid (names : List (List Nat)) (hn : ∀ nm ∈ names, ∀ b ∈ nm, b ≠ 0)
    (pre rest : List Nat) (off : Int) (hoff : off = (pre.length : Int)) :
    readAttrNames (pre ++ cnames names ++ rest) names.length off =
      some (names, off + ((cnames names).length : Int)) := by
  induction names generalizing pre off with
  | nil => simp [readAttrNames, cnames]
  | cons nm names ih =>
    have hnm : ∀ b ∈ nm, b ≠ 0 := hn nm (by simp)
    have hns : ∀ m ∈ names, ∀ b ∈ m, b ≠ 0 := fun m hm => hn m (by simp [hm])
    have e1 : pre ++ cnames (nm :: names) ++ rest = pre ++ (nm ++ [0]) ++ (cnames names ++ rest) := by
      simp [cnames_cons, List.append_assoc]
    have e2 : pre ++ cnames (nm :: names) ++ rest = (pre ++ (nm ++ [0])) ++ cnames names ++ rest := by
      simp [cnames_cons, List.append_assoc]
    have h1 : cstringAt (pre ++ cnames (nm :: names) ++ rest) off = some nm := by
      rw [e1]; exact cstringAt_mid pre nm _ hnm off hoff
    have h2 : readAttrNames (pre ++ cnames (nm :: names) ++ rest) names.length
        (off + (nm.length : Int) + 1) =
        some (names, off + (nm.length : Int) + 1 + ((cnames names).length : Int)) := by
      rw [e2]
      apply ih hns
      subst hoff
      simp only [List.length_append, List.length_cons, List.length_nil]
      push_cast
      omega
    simp only [List.length_cons, readAttrNames, h1, Option.bind_eq_bind, Option.some_bind, h2]
    simp only [cnames_cons, List.length_append, List.length_cons, List.length_nil,
      Option.some.injEq, Prod.mk.injEq, true_and]
    push_cast
    omega

theorem toInt32_small (v : Int) (h0 : 0 ≤ v) (h1 : v < 2147483648) : toInt32 v = v := by
  unfold toInt32
  have : v % 4294967296 = v := Int.emod_eq_of_lt h0 (by omega)
  simp only [this]
  rw [if_pos h1]

theorem toSizeT_small (v : Int) (h0 : 0 ≤ v) (h1 : v < 18446744073709551616) : toSizeT v = v := by
  unfold toSizeT
  exact Int.emod_eq_of_lt h0 h1

theorem cnames_length_ge (names : List (List Nat)) : names.length ≤ (cnames names).length := by
  induction names with
  | nil => simp [cnames]
  | cons nm names ih =>
    rw [cnames_cons]
    simp only [List.length_append, List.length_cons, List.length_nil]
    omega

theorem schemaBytes_length (S : Schema) :
    (schemaBytes S).length = 4 + (cnames S.attrNames).length + 4 * S.dataTypes.length +
      4 * S.typeLength.length + 4 + 4 * S.keyAttrs.length := by
  simp [schemaBytes, encodeInt_length, intsBytes_length]
  omega

theorem decodeSchemaPage_schemaBytes (S : Schema) (hwf : S.WellFormed)
    (hlen : (schemaBytes S).length ≤ PAGE_SIZE) (rest : List Nat) :
    decodeSchemaPage (schemaBytes S ++ rest) = some S := by
  obtain ⟨numAttr, names, types, lens, keys, keySize⟩ := S
  obtain ⟨h1, h2, h3, h4, h5, h6, h7, h8, _, _⟩ := hwf
  simp only at h1 h2 h3 h4 h5 h6 h7 h8
  subst h1 h4
  rw [schemaBytes_length] at hlen
  simp only [PAGE_SIZE] at hlen
  have hcn := cnames_length_ge names
  have hn32 : isInt32 (names.length : Int) := by unfold isInt32; omega
  have hk32 : isInt32 (keys.length : Int) := by unfold isInt32; omega
  have hsz : toInt32 (toSizeT (names.length : Int) * SIZEOF_INT) = 4 * (names.length : Int) := by
    rw [toSizeT_small _ (by omega) (by omega)]
    simp only [SIZEOF_INT]
    push_cast
    rw [toInt32_small _ (by omega) (by omega)]
    omega
  -- the page, segment by segment
  have r1 : readInt (schemaBytes ⟨names.length, names, types, lens, keys, keys.length⟩ ++ rest) 0
      = some (names.length : Int) := by
    have := readInt_mid [] (cnames names ++ intsBytes types ++ intsBytes lens ++
      encodeInt (keys.length : Int) ++ intsBytes keys ++ rest) (names.length : Int) hn32 0 (by simp)
    simpa [schemaBytes, List.append_assoc] using this
  have r2 : readAttrNames (schemaBytes ⟨names.length, names, types, lens, keys, keys.length⟩ ++ rest)
      names.length ((SIZEOF_INT : Nat) : Int)
      = some (names, ((SIZEOF_INT : Nat) : Int) + ((cnames names).length : Int)) := by
    have := readAttrNames_mid names h5 (encodeInt (names.length : Int)) (intsBytes types ++
      intsBytes lens ++ encodeInt (keys.length : Int) ++ intsBytes keys ++ rest)
      ((SIZEOF_INT : Nat) : Int) (by simp [encodeInt_length, SIZEOF_INT])
    simpa [schemaBytes, List.append_assoc] using this
  have r3 : readIntArrayLoop (schemaBytes ⟨names.length, names, types, lens, keys, keys.length⟩ ++ rest)
      names.length (((SIZEOF_INT : Nat) : Int) + ((cnames names).length : Int)) = some types := by
    have := readIntArrayLoop_mid types h6 (encodeInt (names.length : Int) ++ cnames names)
      (intsBytes lens ++ encodeInt (keys.length : Int) ++ intsBytes keys ++ rest)
      (((SIZEOF_INT : Nat) : Int) + ((cnames names).length : Int))
      (by simp [encodeInt_length, SIZEOF_INT])
    rw [h2] at this
    simpa [schemaBytes, List.append_assoc] using this
  have r4 : readIntArrayLoop (schemaBytes ⟨names.length, names, types, lens, keys, keys.length⟩ ++ rest)
      names.length (((SIZEOF_INT : Nat) : Int) + ((cnames names).length : Int) +
        4 * (names.length : Int)) = some lens := by
    have := readIntArrayLoop_mid lens h7 (encodeInt (names.length : Int) ++ cnames names ++
      intsBytes types)
      (encodeInt (keys.length : Int) ++ intsBytes keys ++ rest)
      (((SIZEOF_INT : Nat) : Int) + ((cnames names).length : Int) + 4 * (names.length : Int))
      (by simp [encodeInt_length, SIZEOF_INT, intsBytes_length, h2]; omega)
    rw [h3] at this
    simpa [schemaBytes, List.append_assoc] using this
  have r5 : readInt (schemaBytes ⟨names.length, names, types, lens, keys, keys.length⟩ ++ rest)
      (((SIZEOF_INT : Nat) : Int) + ((cnames names).length : Int) +
        4 * (names.length : Int) + 4 * (names.length : Int)) = some (keys.length : Int) := by
    have := readInt_mid (encodeInt (names.length : Int) ++ cnames names ++
      intsBytes types ++ intsBytes lens) (intsBytes keys ++ rest) (keys.length : Int) hk32
      (((SIZEOF_INT : Nat) : Int) + ((cnames names).length : Int) +
        4 * (names.length : Int) + 4 * (names.length : Int))
      (by simp [encodeInt_length, SIZEOF_INT, intsBytes_length, h2, h3]; omega)
    simpa [schemaBytes, List.append_assoc] using this
  have r6 : readIntArrayLoop (schemaBytes ⟨names.length, names, types, lens, keys, keys.length⟩ ++ rest)
      keys.length (((SIZEOF_INT : Nat) : Int) + ((cnames names).length : Int) +
        4 * (names.length : Int) + 4 * (names.length : Int) + ((SIZEOF_INT : Nat) : Int)) = some keys := by
    have := readIntArrayLoop_mid keys h8 (encodeInt (names.length : Int) ++ cnames names ++
      intsBytes types ++ intsBytes lens ++ encodeInt (keys.length : Int)) rest
      (((SIZEOF_INT : Nat) : Int) + ((cnames names).length : Int) +
        4 * (names.length : Int) + 4 * (names.length : Int) + ((SIZEOF_INT : Nat) : Int))
      (by simp [encodeInt_length, SIZEOF_INT, intsBytes_length, h2, h3]; omega)
    simpa [schemaBytes, List.append_assoc] using this
  have hneg1 : ¬ ((names.length : Int) < 0) := by omega
  have hneg2 : ¬ ((keys.length : Int) < 0) := by omega
  simp only [decodeSchemaPage, readIntArray, r1, Option.bind_eq_bind, Option.some_bind,
    Int.toNat_ofNat, r2, hneg1, if_false, r3, hsz, r4, r5, hneg2, r6]

theorem writeAttrNames_zeros (names all : List (List Nat)) (i : Nat) (hall : all.drop i = names)
    (pre : List Nat) (k : Nat) (hpk : pre.length + k = PAGE_SIZE) (off : Int)
    (hoff : off = (pre.length : Int)) :
    writeAttrNames all names.length i (pre ++ List.replicate k 0) off =
      if pre.length + (cnames names).length ≤ PAGE_SIZE then
        some (.inr (pre ++ cnames names ++ List.replicate (k - (cnames names).length) 0,
          off + ((cnames names).length : Int)))
      else some (.inl RC_PAGE_FULL) := by
  induction names generalizing i pre k off with
  | nil => simp [writeAttrNames, cnames, hpk.symm]
  | cons nm names ih =>
    have hi : all[i]? = some nm := by
      have := congrArg List.head? hall
      simpa [List.head?_drop] using this
    have hdrop : all.drop (i + 1) = names := by
      have := congrArg List.tail hall
      simpa [List.tail_drop] using this
    simp only [List.length_cons, writeAttrNames, hi]
    by_cases hfull : off + ((nm.length : Int) + 1) > (PAGE_SIZE : Int)
    · rw [if_pos hfull]
      have : ¬ (pre.length + (cnames (nm :: names)).length ≤ PAGE_SIZE) := by
        rw [cnames_cons]
        simp only [List.length_append, List.length_cons, List.length_nil]
        subst hoff
        omega
      rw [if_neg this]
    · rw [if_neg hfull]
      have hk : (nm ++ [0]).length ≤ k := by
        simp only [List.length_append, List.length_cons, List.length_nil]
        subst hoff
        omega
      rw [writeBytes_zeros pre (nm ++ [0]) k off hoff hk]
      simp only
      have hpk' : (pre ++ (nm ++ [0])).length + (k - (nm ++ [0]).length) = PAGE_SIZE := by
        simp only [List.length_append, List.length_cons, List.length_nil] at hk ⊢
        omega
      have hoff' : off + ((nm.length : Int) + 1) = ((pre ++ (nm ++ [0])).length : Int) := by
        subst hoff
        simp only [List.length_append, List.length_cons, List.length_nil]
        push_cast
        omega
      have ih' := ih (i + 1) hdrop (pre ++ (nm ++ [0])) (k - (nm ++ [0]).length) hpk'
        (off + ((nm.length : Int) + 1)) hoff'
      rw [ih']
      by_cases hfit : pre.length + (cnames (nm :: names)).length ≤ PAGE_SIZE
      · have hfit' : (pre ++ (nm ++ [0])).length + (cnames names).length ≤ PAGE_SIZE := by
          rw [cnames_cons] at hfit
          simp only [List.length_append, List.length_cons, List.length_nil] at hfit ⊢
          omega
        have e1 : cnames (nm :: names) = nm ++ [0] ++ cnames names := cnames_cons _ _
        have e2 : (cnames (nm :: names)).length = nm.length + 1 + (cnames names).length := by
          rw [e1]
          simp only [List.length_append, List.length_cons, List.length_nil]
        have e3 : k - (nm ++ [0]).length - (cnames names).length =
            k - (cnames (nm :: names)).length := by
          rw [e2]
          simp only [List.length_append, List.length_cons, List.length_nil]
          omega
        have e4 : off + ((nm.length : Int) + 1) + ((cnames names).length : Int) =
            off + ((cnames (nm :: names)).length : Int) := by
          rw [e2]
          push_cast
          omega
        rw [if_pos hfit, if_pos hfit', e3, e4, e1]
        simp only [List.append_assoc]
      · have hfit' : ¬ ((pre ++ (nm ++ [0])).length + (cnames names).length ≤ PAGE_SIZE) := by
          rw [cnames_cons] at hfit
          simp only [List.length_append, List.length_cons, List.length_nil] at hfit ⊢
          omega
        rw [if_neg hfit, if_neg hfit']

theorem intArrayBytes_all (xs : List Int) (cnt : Int) (h : cnt = (xs.length : Int)) :
    intArrayBytes xs cnt = some (intsBytes xs) := by
  subst h
  simp [intArrayBytes, intsBytes]

theorem encodeSchemaPage_spec (S : Schema) (hwf : S.WellFormed) :
    ((schemaBytes S).length ≤ PAGE_SIZE →
      encodeSchemaPage S = some (RC_OK,
        schemaBytes S ++ List.replicate (PAGE_SIZE - (schemaBytes S).length) 0)) ∧
    (¬ (schemaBytes S).length ≤ PAGE_SIZE →
      ∃ page, encodeSchemaPage S = some (RC_PAGE_FULL, page)) := by
  obtain ⟨numAttr, names, types, lens, keys, keySize⟩ := S
  obtain ⟨h1, h2, h3, h4, h5, h6, h7, h8, h9, h10⟩ := hwf
  simp only at h1 h2 h3 h4 h5 h6 h7 h8 h9 h10
  subst h1 h4
  rw [schemaBytes_length]
  simp only [PAGE_SIZE]
  have hcn := cnames_length_ge names
  unfold isInt32 at h9 h10
  unfold encodeSchemaPage
  have f0 : ¬ ((PAGE_SIZE : Int) < 0 + (SIZEOF_INT : Int)) := by decide
  have f1 : writeBytes zeroPage 0 (encodeInt (names.length : Int)) =
      some (encodeInt (names.length : Int) ++ List.replicate 124 0) := by
    have := writeBytes_zeros [] (encodeInt (names.length : Int)) 128 0 rfl
      (by rw [encodeInt_length]; omega)
    simpa [zeroPage, PAGE_SIZE, encodeInt_length] using this
  have f2 := writeAttrNames_zeros names names 0 rfl (encodeInt (names.length : Int)) 124
    (by rw [encodeInt_length]; rfl) ((SIZEOF_INT : Nat) : Int) (by rw [encodeInt_length]; rfl)
  rw [encodeInt_length] at f2
  simp only [if_neg f0, f1, Option.bind_eq_bind, Option.some_bind, Int.toNat_ofNat, f2]
  clear f0 f1 f2
  have hs : toSizeT (names.length : Int) * ((SIZEOF_INT : Nat) : Int) = 4 * (names.length : Int) := by
    rw [toSizeT_small _ (by omega) (by omega)]
    simp only [SIZEOF_INT]
    push_cast
    omega
  have hsk : toSizeT (keys.length : Int) * ((SIZEOF_INT : Nat) : Int) = 4 * (keys.length : Int) := by
    rw [toSizeT_small _ (by omega) (by omega)]
    simp only [SIZEOF_INT]
    push_cast
    omega
  simp only [hs, hsk]
  clear hs hsk
  by_cases c1 : 4 + (cnames names).length ≤ PAGE_SIZE
  case neg =>
    rw [if_neg c1]
    simp only [PAGE_SIZE] at c1
    exact ⟨fun hle => by omega, fun _ => ⟨_, rfl⟩⟩
  rw [if_pos c1]
  simp only [PAGE_SIZE] at c1
  simp only [Option.some_bind]
  have o1 : ((SIZEOF_INT : Nat) : Int) + ((cnames names).length : Int) =
      ((4 + (cnames names).length : Nat) : Int) := by
    simp only [SIZEOF_INT]; omega
  have t1 : toSizeT (((4 + (cnames names).length : Nat) : Int) + 4 * (names.length : Int)) =
      ((4 + (cnames names).length + 4 * names.length : Nat) : Int) := by
    rw [toSizeT_small _ (by omega) (by omega)]; omega
  have i1 : toInt32 (((4 + (cnames names).length : Nat) : Int) + 4 * (names.length : Int)) =
      ((4 + (cnames names).length + 4 * names.length : Nat) : Int) := by
    rw [toInt32_small _ (by omega) (by omega)]; omega
  simp only [o1, t1, i1]
  clear o1 t1 i1
  by_cases c2 : ((4 + (cnames names).length + 4 * names.length : Nat) : Int) > (PAGE_SIZE : Int)
  case pos =>
    rw [if_pos c2]
    simp only [PAGE_SIZE] at c2
    exact ⟨fun hle => by omega, fun _ => ⟨_, rfl⟩⟩
  rw [if_neg c2]
  simp only [PAGE_SIZE] at c2
  have a1 := intArrayBytes_all types (names.length : Int) (by rw [h2])
  have w1 := writeBytes_zeros (encodeInt (names.length : Int) ++ cnames names) (intsBytes types)
    (124 - (cnames names).length) ((4 + (cnames names).length : Nat) : Int)
    (by simp only [List.length_append, encodeInt_length])
    (by rw [intsBytes_length, h2]; omega)
  rw [intsBytes_length, h2] at w1
  simp only [a1, Option.some_bind, w1]
  clear a1 w1
  have t2 : toSizeT (((4 + (cnames names).length + 4 * names.length : Nat) : Int) +
      4 * (names.length : Int)) =
      ((4 + (cnames names).length + 4 * names.length + 4 * names.length : Nat) : Int) := by
    rw [toSizeT_small _ (by omega) (by omega)]; omega
  have i2 : toInt32 (((4 + (cnames names).length + 4 * names.length : Nat) : Int) +
      4 * (names.length : Int)) =
      ((4 + (cnames names).length + 4 * names.length + 4 * names.length : Nat) : Int) := by
    rw [toInt32_small _ (by omega) (by omega)]; omega
  simp only [t2, i2]
  clear t2 i2
  by_cases c3 : ((4 + (cnames names).length + 4 * names.length + 4 * names.length : Nat) : Int) >
      (PAGE_SIZE : Int)
  case pos =>
    rw [if_pos c3]
    simp only [PAGE_SIZE] at c3
    exact ⟨fun hle => by omega, fun _ => ⟨_, rfl⟩⟩
  rw [if_neg c3]
  simp only [PAGE_SIZE] at c3
  have a2 := intArrayBytes_all lens (names.length : Int) (by rw [h3])
  have w2 := writeBytes_zeros (encodeInt (names.length : Int) ++ cnames names ++ intsBytes types)
    (intsBytes lens) (124 - (cnames names).length - 4 * names.length)
    ((4 + (cnames names).length + 4 * names.length : Nat) : Int)
    (by simp only [List.length_append, encodeInt_length, intsBytes_length, h2])
    (by rw [intsBytes_length, h3]; omega)
  rw [intsBytes_length, h3] at w2
  simp only [a2, Option.some_bind, w2]
  clear a2 w2
  have t3 : toSizeT (((4 + (cnames names).length + 4 * names.length + 4 * names.length + 4
        : Nat) : Int) + 4 * (keys.length : Int)) =
      ((4 + (cnames names).length + 4 * names.length + 4 * names.length + 4 + 4 * keys.length
        : Nat) : Int) := by
    rw [toSizeT_small _ (by omega) (by omega)]; omega
  have o3 : ((4 + (cnames names).length + 4 * names.length + 4 * names.length : Nat) : Int)
      + ((SIZEOF_INT : Nat) : Int) =
      ((4 + (cnames names).length + 4 * names.length + 4 * names.length + 4 : Nat) : Int) := by
    simp only [SIZEOF_INT]; omega
  simp only [o3, t3]
  clear o3 t3
  by_cases c4 : ((4 + (cnames names).length + 4 * names.length + 4 * names.length + 4 +
      4 * keys.length : Nat) : Int) > (PAGE_SIZE : Int)
  case pos =>
    rw [if_pos c4]
    simp only [PAGE_SIZE] at c4
    exact ⟨fun hle => by omega, fun _ => ⟨_, rfl⟩⟩
  rw [if_neg c4]
  simp only [PAGE_SIZE] at c4
  have a3 := intArrayBytes_all keys (keys.length : Int) rfl
  have w3 := writeBytes_zeros
    (encodeInt (names.length : Int) ++ cnames names ++ intsBytes types ++ intsBytes lens)
    (encodeInt (keys.length : Int))
    (124 - (cnames names).length - 4 * names.length - 4 * names.length)
    ((4 + (cnames names).length + 4 * names.length + 4 * names.length : Nat) : Int)
    (by simp only [List.length_append, encodeInt_length, intsBytes_length, h2, h3])
    (by rw [encodeInt_length]; omega)
  rw [encodeInt_length] at w3
  have w4 := writeBytes_zeros
    (encodeInt (names.length : Int) ++ cnames names ++ intsBytes types ++ intsBytes lens ++
      encodeInt (keys.length : Int))
    (intsBytes keys)
    (124 - (cnames names).length - 4 * names.length - 4 * names.length - 4)
    ((4 + (cnames names).length + 4 * names.length + 4 * names.length + 4 : Nat) : Int)
    (by simp only [List.length_append, encodeInt_length, intsBytes_length, h2, h3])
    (by rw [intsBytes_length]; omega)
  rw [intsBytes_length] at w4
  simp only [w3, a3, Option.some_bind, w4]
  clear w3 a3 w4
  refine ⟨fun _ => ?_, fun hgt => by omega⟩
  simp only [schemaBytes, h2, h3, Option.some.injEq, Prod.mk.injEq, true_and]
  have e : 124 - (cnames names).length - 4 * names.length - 4 * names.length - 4 - 4 * keys.length
      = 128 - (4 + (cnames names).length + 4 * names.length + 4 * names.length + 4 + 4 * keys.length) := by
    omega
  rw [e]

set_option maxRecDepth 100000 in
theorem initialDirectoryPage_some : ∃ p, initialDirectoryPage = some p := by
  cases h : initialDirectoryPage with
  | some p => exact ⟨p, rfl⟩
  | none => exact absurd h (by decide)

theorem createTable_spec (S : Schema) (hwf : S.WellFormed) :
    ((schemaBytes S).length ≤ PAGE_SIZE →
      ∃ dirPage, initialDirectoryPage = some dirPage ∧
        createTable S = some (RC_OK,
          [schemaBytes S ++ List.replicate (PAGE_SIZE - (schemaBytes S).length) 0, dirPage])) ∧
    (¬ (schemaBytes S).length ≤ PAGE_SIZE → createTable S = some (RC_PAGE_FULL, [zeroPage])) := by
  obtain ⟨hok, hfull⟩ := encodeSchemaPage_spec S hwf
  constructor
  · intro hle
    obtain ⟨dirPage, hd⟩ := initialDirectoryPage_some
    refine ⟨dirPage, hd, ?_⟩
    unfold createTable
    simp only [hok hle, hd, Option.bind_eq_bind, Option.some_bind]
    simp [writeBlock, openPageFile, fwriteBlock, RC_OK]
  · intro hgt
    obtain ⟨page, hp⟩ := hfull hgt
    unfold createTable
    simp only [hp, Option.bind_eq_bind, Option.some_bind]
    simp [RC_PAGE_FULL, RC_OK]

set_option maxRecDepth 100000 in
theorem initialDirectoryPage_reads :
    (initialDirectoryPage.bind fun p => readInt p 0) = some 1 ∧
    (initialDirectoryPage.bind fun p => readInt p SIZEOF_INT) = some 1 ∧
    (initialDirectoryPage.bind fun p => readPDEArray p 1 (2 * SIZEOF_INT)) =
      some [{ pageID := 0, hasFreeSlot := 1, freeSpace := PAGE_SIZE, recordCount := 0 }] := by
  decide

theorem openTable_after_createTable (S : Schema) (hwf : S.WellFormed)
    (hle : (schemaBytes S).length ≤ PAGE_SIZE) (file : PageFile)
    (hc : createTable S = some (RC_OK, file)) (bm0 : BufferPool)
    (h0 : bm0.isInitialized_bp = false) (mem : Nat → Page) :
    ∃ t, openTable file bm0 mem = some (RC_OK, some t) ∧ t.schema = S ∧
      t.managementData.numPages = 1 ∧ t.managementData.numPageDP = 1 ∧
      t.managementData.pageDirectory =
        [{ pageID := 0, hasFreeSlot := 1, freeSpace := PAGE_SIZE, recordCount := 0 }] := by
  obtain ⟨dirPage, hd, hc'⟩ := (createTable_spec S hwf).1 hle
  rw [hc'] at hc
  simp only [Option.some.injEq, Prod.mk.injEq, true_and] at hc
  subst hc
  obtain ⟨r1, r2, r3⟩ := initialDirectoryPage_reads
  rw [hd] at r1 r2 r3
  simp only [Option.some_bind] at r1 r2 r3
  have hdec := decodeSchemaPage_schemaBytes S hwf hle
    (List.replicate (PAGE_SIZE - (schemaBytes S).length) 0)
  have hr : List.range 5 = [0, 1, 2, 3, 4] := by decide
  unfold openTable
  simp [h0, initBufferPool, maximum_Pages, initFrames, hr, pinPage, findPage, NO_PAGE, RC_OK,
    loadPage, ensureCapacity, ensureCapacityLoop, openPageFile, readBlock, freadBlock, handleData,
    unpinPage, unpinLoop, hdec, r1, r2, r3]

/-- C4: for every well-formed schema `S` (`numAttr ≥ 0` attribute names without
NUL, `keySize ≥ 0` key attributes), `createTable` returns, and unless it
returns `RC_PAGE_FULL` it returns `RC_OK` and page 0 of the file it wrote,
decoded the way `openTable` decodes it, is `S`: the same `numAttr`, attribute
names, data types, type lengths, `keySize` and key attribute indexes; and
`openTable` on that file (in a process without an initialised pool) returns
`RC_OK` with a table whose schema is `S`. -/
theorem schema_page_round_trip (S : Schema) (hwf : S.WellFormed) :
    ∃ rc file, createTable S = some (rc, file) ∧
      (rc ≠ RC_PAGE_FULL →
        rc = RC_OK ∧ (∃ page0, file[0]? = some page0 ∧ decodeSchemaPage page0 = some S) ∧
        ∀ (bm0 : BufferPool) (mem : Nat → Page), bm0.isInitialized_bp = false →
          ∃ t, openTable file bm0 mem = some (RC_OK, some t) ∧ t.schema = S) := by
  obtain ⟨hok, hfull⟩ := createTable_spec S hwf
  by_cases hle : (schemaBytes S).length ≤ PAGE_SIZE
  · obtain ⟨dirPage, _, hc⟩ := hok hle
    refine ⟨_, _, hc, fun _ => ⟨rfl, ⟨_, rfl, ?_⟩, ?_⟩⟩
    · exact decodeSchemaPage_schemaBytes S hwf hle _
    · intro bm0 mem h0
      obtain ⟨t, ht, hs, _⟩ := openTable_after_createTable S hwf hle _ hc bm0 h0 mem
      exact ⟨t, ht, hs⟩
  · exact ⟨_, _, hfull hle, fun h => absurd rfl h⟩

/-! ## Record manager: the page a handle points to -/

theorem HoldsAt_of_maps (fs gs : List Frames) (P : Int) (idx : Nat) (buf : Page)
    (h : HoldsAt fs P idx buf)
    (h1 : gs.map Frames.pageNumber = fs.map Frames.pageNumber)
    (h2 : gs.map Frames.memPage = fs.map Frames.memPage) : HoldsAt gs P idx buf := by
  unfold HoldsAt
  rw [h1, h2]
  exact h

theorem HoldsAt_first (fs : List Frames) (P : Int) (idx : Nat) (buf : Page)
    (h : HoldsAt fs P idx buf) :
    ∃ f, fs[idx]? = some f ∧ f.pageNumber = P ∧ f.memPage = buf ∧
      ∀ j, j < idx → ∀ g, fs[j]? = some g → g.pageNumber ≠ P := by
  obtain ⟨h1, h2, h3⟩ := h
  simp only [List.getElem?_map] at h1 h2 h3
  cases hf : fs[idx]? with
  | none => simp [hf] at h1
  | some f =>
    simp only [hf, Option.map_some', Option.some.injEq] at h1 h2
    refine ⟨f, rfl, h1, h2, ?_⟩
    intro j hj g hg e
    exact h3 j hj (by simp [hg, e])

theorem HoldsAt_set_new (fs : List Frames) (i : Nat) (g : Frames) (hi : i < fs.length)
    (hnew : g.pageNumber ∉ fs.map Frames.pageNumber) :
    HoldsAt (fs.set i g) g.pageNumber i g.memPage := by
  refine ⟨?_, ?_, ?_⟩
  · simp [hi]
  · simp [hi]
  · intro j hj e
    rw [List.map_set, List.getElem?_set_ne (by omega)] at e
    exact hnew (List.getElem?_mem e)

theorem HoldsAt_set_buf (fs : List Frames) (P : Int) (i : Nat) (buf buf1 : Page) (f : Frames)
    (h : HoldsAt fs P i buf) (hf : fs[i]? = some f) :
    HoldsAt (fs.set i { f with memPage := buf1 }) P i buf1 := by
  have hi : i < fs.length := by
    rcases Nat.lt_or_ge i fs.length with h' | h'
    · exact h'
    · rw [List.getElem?_eq_none h'] at hf; cases hf
  obtain ⟨h1, h2, h3⟩ := h
  have hm : (fs.set i { f with memPage := buf1 }).map Frames.pageNumber = fs.map Frames.pageNumber :=
    map_set_same Frames.pageNumber fs i f _ hf (by rfl)
  refine ⟨by rw [hm]; exact h1, by simp [hi], ?_⟩
  rw [hm]
  exact h3

theorem fifoScan_none (frames : List Frames) (fuel : Nat) (idx ce : Int) (ce1 : Int)
    (h : fifoScan frames fuel idx ce = (none, ce1)) : ce1 = ce + fuel := by
  induction fuel generalizing idx ce with
  | zero => simp [fifoScan] at h; omega
  | succ k ih =>
    unfold fifoScan at h
    split at h
    · simp at h
    · have := ih _ _ h
      push_cast
      omega

theorem replaceFrame_HoldsAt (bm : BufferPool) (idx : Nat) (P : Int) (buf : Page)
    (hnone : findPage P bm.frames = none)
    (hbuf : handleData (replaceFrame bm idx P).1 (replaceFrame bm idx P).2 = some buf) :
    HoldsAt (replaceFrame bm idx P).1.frames P idx buf ∧ (replaceFrame bm idx P).2 = ⟨P, idx⟩ ∧
    (replaceFrame bm idx P).1.isInitialized_bp = bm.isInitialized_bp := by
  simp only [replaceFrame, handleData] at hbuf ⊢
  have hi : idx < bm.frames.length := by
    rcases Nat.lt_or_ge idx bm.frames.length with h' | h'
    · exact h'
    · rw [List.getElem?_eq_none (by simpa using h')] at hbuf; cases hbuf
  refine ⟨?_, by simp, by simp⟩
  simp only [List.getElem?_set_self hi, Option.map_some', Option.some.injEq] at hbuf
  rw [← hbuf]
  exact HoldsAt_set_new bm.frames idx _ hi ((findPage_none _ _).mp hnone)

theorem pinPage_ok_HoldsAt (bm : BufferPool) (page : BM_PageHandle) (P : Int) (buf : Page)
    (hok : (pinPage bm page P).1 = RC_OK)
    (hbuf : handleData (pinPage bm page P).2.1 (pinPage bm page P).2.2 = some buf) :
    HoldsAt (pinPage bm page P).2.1.frames P (pinPage bm page P).2.2.data buf ∧
    (pinPage bm page P).2.2.pageNum = P ∧
    (pinPage bm page P).2.1.isInitialized_bp = true ∧ 0 ≤ P := by
  unfold pinPage at hok hbuf ⊢
  split at hok
  · simp [RC_BP_PIN_ERROR, RC_OK] at hok
  rename_i hinit
  have hinit' : bm.isInitialized_bp = true := by simpa using hinit
  rw [if_neg hinit] at hbuf ⊢
  split at hok
  · simp [RC_BP_PIN_ERROR, RC_OK] at hok
  rename_i hneg
  rw [if_neg hneg] at hbuf ⊢
  have hP : 0 ≤ P := by omega
  cases hfind : findPage P bm.frames with
  | some i =>
    simp only [hfind] at hbuf ⊢
    obtain ⟨f, hf, hfp, hfirst⟩ := findPage_some _ _ _ hfind
    have hget : bm.frames[i]?.getD default = f := by simp [hf]
    have hget' : bm.frames.getD i default = f := by simp [List.getD, hf]
    have hi : i < bm.frames.length := by
      rcases Nat.lt_or_ge i bm.frames.length with h' | h'
      · exact h'
      · rw [List.getElem?_eq_none h'] at hf; cases hf
    simp only [hget', handleData, List.getElem?_set_self hi, Option.map_some',
      Option.some.injEq] at hbuf ⊢
    refine ⟨⟨?_, ?_, ?_⟩, by simp, hinit', hP⟩
    · rw [map_set_same Frames.pageNumber _ _ f _ hf (by rfl)]
      simp [hf, hfp]
    · simp [hi, hbuf]
    · intro j hj e
      rw [map_set_same Frames.pageNumber _ _ f _ hf (by rfl)] at e
      simp only [List.getElem?_map] at e
      cases hg : bm.frames[j]? with
      | none => simp [hg] at e
      | some g =>
        simp only [hg, Option.map_some', Option.some.injEq] at e
        exact hfirst j hj g hg e
  | none =>
    simp only [hfind] at hok hbuf ⊢
    cases hfree : findPage NO_PAGE bm.frames with
    | some i =>
      simp only [hfree] at hbuf ⊢
      obtain ⟨f, hf, _, _⟩ := findPage_some _ _ _ hfree
      have hi : i < bm.frames.length := by
        rcases Nat.lt_or_ge i bm.frames.length with h' | h'
        · exact h'
        · rw [List.getElem?_eq_none h'] at hf; cases hf
      simp only [handleData, List.getElem?_set_self hi, Option.map_some',
        Option.some.injEq] at hbuf
      refine ⟨?_, by simp, hinit', hP⟩
      rw [← hbuf]
      exact HoldsAt_set_new bm.frames i
        { bm.frames.getD i default with
          memPage := (loadPage bm.file P (bm.frames.getD i default).memPage).2, fix_cnt := 1,
          pageNumber := P } hi ((findPage_none _ _).mp hfind)
    | none =>
      simp only [hfree] at hok hbuf ⊢
      cases hs : bm.strategy with
      | RS_FIFO =>
        simp only [hs] at hok hbuf ⊢
        unfold FIFO at hok hbuf ⊢
        dsimp only at hok hbuf ⊢
        split at hok
        · simp [RC_BP_PIN_ERROR, RC_OK] at hok
        rename_i hce
        rw [if_neg hce] at hbuf ⊢
        cases hscan : (fifoScan bm.frames bm.numPages
            (Int.tmod bm.readFromDisk (bm.numPages : Int)) 0).1 with
        | none =>
          exfalso
          apply hce
          have := fifoScan_none bm.frames bm.numPages _ 0
            (fifoScan bm.frames bm.numPages (Int.tmod bm.readFromDisk (bm.numPages : Int)) 0).2
            (by rw [← hscan])
          omega
        | some idx =>
          simp only [hscan] at hbuf ⊢
          obtain ⟨h1, h2, h3⟩ := replaceFrame_HoldsAt bm idx.toNat P buf hfind hbuf
          exact ⟨by rw [h2]; exact h1, by rw [h2], by rw [h3]; exact hinit', hP⟩
      | RS_LRU =>
        simp only [hs, LRU] at hok hbuf ⊢
        obtain ⟨h1, h2, h3⟩ := replaceFrame_HoldsAt bm _ P buf hfind hbuf
        exact ⟨by rw [h2]; exact h1, by rw [h2], by rw [h3]; exact hinit', hP⟩
      | RS_LRU_K =>
        simp only [hs, LRU_K] at hok hbuf ⊢
        obtain ⟨h1, h2, h3⟩ := replaceFrame_HoldsAt bm _ P buf hfind hbuf
        exact ⟨by rw [h2]; exact h1, by rw [h2], by rw [h3]; exact hinit', hP⟩
      | RS_OTHER =>
        simp [hs, RC_BP_PIN_ERROR, RC_OK] at hok

theorem markDirty_memPage (bm : BufferPool) (page : BM_PageHandle) :
    (markDirty bm page).2.frames.map Frames.memPage = bm.frames.map Frames.memPage := by
  rw [markDirty_frames]
  simp only [List.map_map]
  apply List.map_congr_left
  intro f _
  simp only [Function.comp]
  split <;> rfl

theorem markDirty_init (bm : BufferPool) (page : BM_PageHandle) :
    (markDirty bm page).2.isInitialized_bp = bm.isInitialized_bp := by
  unfold markDirty
  dsimp only
  split <;> rfl

theorem unpinLoop_memPage (p : Int) (fs : List Frames) :
    (unpinLoop p fs).2.map Frames.memPage = fs.map Frames.memPage := by
  induction fs with
  | nil => simp [unpinLoop]
  | cons f fs ih =>
    unfold unpinLoop
    split
    · split <;> simp
    · simp [ih]

theorem pinPage_hit_HoldsAt (bm : BufferPool) (page : BM_PageHandle) (P : Int) (idx : Nat)
    (buf : Page) (hinit : bm.isInitialized_bp = true) (hP : 0 ≤ P)
    (h : HoldsAt bm.frames P idx buf) :
    (pinPage bm page P).1 = RC_OK ∧ (pinPage bm page P).2.2 = ⟨P, idx⟩ ∧
    handleData (pinPage bm page P).2.1 ⟨P, idx⟩ = some buf := by
  obtain ⟨f, hf, hfp, hfb, hfirst⟩ := HoldsAt_first _ _ _ _ h
  have hi : idx < bm.frames.length := by
    rcases Nat.lt_or_ge idx bm.frames.length with h' | h'
    · exact h'
    · rw [List.getElem?_eq_none h'] at hf; cases hf
  rw [pinPage_hit_first bm page P idx f hinit hP hf hfp hfirst]
  refine ⟨rfl, rfl, ?_⟩
  simp [handleData, hi, hfb]

theorem decodeShort_one : decodeShort (encodeShort 1) = 1 := by decide

theorem readShort_writeBytes (buf buf1 : Page) (off : Int)
    (h : writeBytes buf off (encodeShort 1) = some buf1) : readShort buf1 off = some 1 := by
  unfold writeBytes at h
  split at h
  · rename_i hb
    simp only [Option.some.injEq] at h
    subst h
    have hlen : (encodeShort 1).length = 2 := by decide
    rw [hlen] at hb
    have hoff : off = ((buf.take off.toNat).length : Int) := by
      simp only [List.length_take]
      omega
    unfold readShort
    rw [readBytes_mid (buf.take off.toNat) (encodeShort 1) _ off SIZEOF_BOOL hoff (by decide)]
    simp [decodeShort_one]
  · cases h

/-- C2: whenever `deleteRecord(table, rid)` returns `RC_OK`, `getRecord(table,
rid)` called next returns `RC_RM_RECORD_NOT_FOUND` (and leaves the result
record as it was). -/
theorem delete_then_get_not_found (rel rel1 : RM_TableData) (id : RID) (res : Record)
    (h : deleteRecord rel id = some (RC_OK, rel1)) :
    ∃ t, getRecord rel1 id res = some (RC_RM_RECORD_NOT_FOUND, t, res) := by
  unfold deleteRecord at h
  dsimp only at h
  split at h
  · simp [RC_RM_INVALID_RID, RC_OK] at h
  rename_i hvalid
  split at h
  · rename_i hp
    simp only [Option.some.injEq, Prod.mk.injEq] at h
    exact absurd h.1 hp
  rename_i hp
  generalize hpe : pinPage rel.managementData.bm rel.managementData.pageHndlBM
    (id.page + rel.managementData.numPageDP + 1) = p at h hp
  have hpok : p.1 = RC_OK := by simpa using hp
  cases hb : handleData p.2.1 p.2.2 with
  | none => simp [hb] at h
  | some buf =>
  simp only [hb, Option.bind_eq_bind, Option.some_bind] at h
  cases hfree : readShort buf (id.slot * SIZEOF_SLOT + SIZEOF_INT) with
  | none => simp [hfree] at h
  | some isFree =>
  simp only [hfree, Option.some_bind] at h
  split at h
  · simp [RC_RM_RECORD_NOT_FOUND, RC_OK] at h
  cases hw : writeBytes buf (id.slot * SIZEOF_SLOT + SIZEOF_INT) (encodeShort 1) with
  | none => simp [hw] at h
  | some buf1 =>
  simp only [hw, Option.some_bind] at h
  cases hset : setHandleData p.2.1 p.2.2 buf1 with
  | none => simp [hset] at h
  | some bm2 =>
  simp only [hset, Option.some_bind] at h
  cases hro : readInt buf1 (id.slot * SIZEOF_SLOT) with
  | none => simp [hro] at h
  | some offset =>
  simp only [hro, Option.some_bind] at h
  split at h
  · cases h
  split at h
  · rename_i hun
    simp only [Option.some.injEq, Prod.mk.injEq] at h
    exact absurd h.1 hun
  simp only [Option.some.injEq, Prod.mk.injEq, true_and] at h
  subst h
  -- the frame that holds the page after the delete
  have hpin := pinPage_ok_HoldsAt rel.managementData.bm rel.managementData.pageHndlBM
    (id.page + rel.managementData.numPageDP + 1) buf (by rw [hpe]; exact hpok) (by rw [hpe]; exact hb)
  rw [hpe] at hpin
  obtain ⟨hh, hpn, hinit, hP⟩ := hpin
  obtain ⟨f, hf, _, _, _⟩ := HoldsAt_first _ _ _ _ hh
  have hbm2 : bm2 = { p.2.1 with frames := p.2.1.frames.set p.2.2.data { f with memPage := buf1 } } := by
    simp only [setHandleData, hf, Option.map_some', Option.some.injEq] at hset
    exact hset.symm
  have hh2 : HoldsAt bm2.frames (id.page + rel.managementData.numPageDP + 1) p.2.2.data buf1 := by
    rw [hbm2]
    exact HoldsAt_set_buf _ _ _ buf buf1 f hh hf
  have hinit2 : bm2.isInitialized_bp = true := by rw [hbm2]; exact hinit
  have hh3 : HoldsAt (unpinPage (markDirty bm2 p.2.2).2 p.2.2).2.frames
      (id.page + rel.managementData.numPageDP + 1) p.2.2.data buf1 := by
    apply HoldsAt_of_maps _ _ _ _ _ hh2
    · show List.map Frames.pageNumber (unpinLoop _ _).2 = _
      rw [unpinLoop_pageNumber, (markDirty_fields _ _).1]
    · show List.map Frames.memPage (unpinLoop _ _).2 = _
      rw [unpinLoop_memPage, markDirty_memPage]
  have hinit3 : (unpinPage (markDirty bm2 p.2.2).2 p.2.2).2.isInitialized_bp = true := by
    show (markDirty bm2 p.2.2).2.isInitialized_bp = true
    rw [markDirty_init]; exact hinit2
  obtain ⟨g1, g2, g3⟩ := pinPage_hit_HoldsAt _ p.2.2 _ _ _ hinit3 hP hh3
  have hrs := readShort_writeBytes buf buf1 _ hw
  unfold getRecord
  dsimp only
  have hvalid' : ¬ ¬ (id.page ≥ 0 ∧ id.page < rel.managementData.numPages ∧ id.slot ≥ 0) := by
    intro hn; apply hn; omega
  rw [if_neg hvalid']
  have hne : ¬ ((pinPage (unpinPage (markDirty bm2 p.2.2).2 p.2.2).2 p.2.2
      (id.page + rel.managementData.numPageDP + 1)).1 ≠ RC_OK) := by simp [g1]
  rw [if_neg hne]
  simp only [g2, g3, Option.bind_eq_bind, Option.some_bind, hrs, if_true]
  exact ⟨_, rfl⟩

/-! ## Record manager: the claims -/

set_option maxRecDepth 1000000 in
/-- C1 (the code departs from the claim): on a fresh table of
`{a: INT, b: STRING(116)}`, after `insertRecord` of `{1, "alpha"}` and
`{2, "beta"}` and `deleteRecord` of the first (all `RC_OK`), `insertRecord` of
`{3, "gamma"}` returns `RC_OK` and assigns the id `{0, 1}`, and `getRecord` of
that id returns `RC_OK` with id `{0, 1}` but a payload that differs from the
one inserted. -/
theorem insert_then_get_other_payload :
    insertAfterDelete =
      some ([RC_OK, RC_OK, RC_OK, RC_OK], { page := 0, slot := 1 }, RC_OK,
        { page := 0, slot := 1 }, false) := by
  decide

set_option maxRecDepth 1000000 in
theorem delete_then_get_not_found_witness :
    deleteRecord tableAfterInsert { page := 0, slot := 0 } = some (RC_OK, tableAfterDelete) ∧
    ∃ t, getRecord tableAfterDelete { page := 0, slot := 0 } (blankRecord 8) =
      some (RC_RM_RECORD_NOT_FOUND, t, blankRecord 8) :=
  ⟨by decide,
   delete_then_get_not_found tableAfterInsert tableAfterDelete { page := 0, slot := 0 }
     (blankRecord 8) (by decide)⟩

set_option maxRecDepth 1000000 in
/-- C3 (the code departs from the claim): on a fresh table of
`{a: INT, b: STRING(4)}`, after one `insertRecord` and one `deleteRecord` of
the inserted record, both returning `RC_OK`, `getNumTuples` is 1, not
1 - 1 = 0. -/
theorem num_tuples_after_insert_delete :
    insertDeleteCount = some (RC_OK, RC_OK, some 1) := by
  decide

theorem schemaIntStr4_wellFormed : schemaIntStr4.WellFormed :=
  ⟨by decide, by decide, by decide, by decide, by decide, by decide, by decide, by decide,
   by decide, by decide⟩

theorem schema_page_round_trip_witness :
    schemaIntStr4.WellFormed ∧
    ∃ rc file, createTable schemaIntStr4 = some (rc, file) ∧
      (rc ≠ RC_PAGE_FULL →
        rc = RC_OK ∧ (∃ page0, file[0]? = some page0 ∧ decodeSchemaPage page0 = some schemaIntStr4) ∧
        ∀ (bm0 : BufferPool) (mem : Nat → Page), bm0.isInitialized_bp = false →
          ∃ t, openTable file bm0 mem = some (RC_OK, some t) ∧ t.schema = schemaIntStr4) :=
  ⟨schemaIntStr4_wellFormed, schema_page_round_trip schemaIntStr4 schemaIntStr4_wellFormed⟩

/-! ## Initialisation and the read counter -/

/-- C20: for `n ≥ 1` and an existing page file, `initBufferPool` on a pool that
is not yet initialised returns `RC_OK` and leaves exactly `n` frames, every one
with `pageNumber = NO_PAGE`, `dirty = false`, `fix_cnt = 0` and `lruOrder = 0`,
and both I/O counters at 0. -/
theorem initBufferPool_post (bm0 : BufferPool) (file : PageFile) (n : Nat)
    (strategy : ReplacementStrategy) (stratData : Option Int) (mem : Nat → Page)
    (hn : 1 ≤ n) (h0 : bm0.isInitialized_bp = false) :
    (initBufferPool bm0 (some file) n strategy stratData mem).1 = RC_OK ∧
    (initBufferPool bm0 (some file) n strategy stratData mem).2.frames.length = n ∧
    (∀ f ∈ (initBufferPool bm0 (some file) n strategy stratData mem).2.frames,
      f.pageNumber = NO_PAGE ∧ f.dirty = false ∧ f.fix_cnt = 0 ∧ f.lruOrder = 0) ∧
    (initBufferPool bm0 (some file) n strategy stratData mem).2.readFromDisk = 0 ∧
    (initBufferPool bm0 (some file) n strategy stratData mem).2.writtenToDisk = 0 ∧
    getNumWriteIO (initBufferPool bm0 (some file) n strategy stratData mem).2 = 0 ∧
    (initBufferPool bm0 (some file) n strategy stratData mem).2.isInitialized_bp = true := by
  have _ := hn
  unfold initBufferPool
  rw [if_neg (by simp [h0])]
  refine ⟨rfl, by simp [initFrames], ?_, rfl, rfl, rfl, rfl⟩
  intro f hf
  dsimp only at hf
  simp only [initFrames, List.mem_map, List.mem_range] at hf
  obtain ⟨i, _, rfl⟩ := hf
  exact ⟨rfl, rfl, rfl, rfl⟩

theorem initBufferPool_post_witness :
    1 ≤ 3 ∧ freshPool.isInitialized_bp = false ∧
    (initBufferPool freshPool (some [zeroPage, zeroPage]) 3 .RS_FIFO none fun _ => zeroPage).2.frames.length = 3 ∧
    (initBufferPool freshPool (some [zeroPage, zeroPage]) 3 .RS_FIFO none fun _ => zeroPage).2.readFromDisk = 0 :=
  ⟨by decide, rfl,
   (initBufferPool_post freshPool [zeroPage, zeroPage] 3 .RS_FIFO none (fun _ => zeroPage)
      (by decide) rfl).2.1,
   (initBufferPool_post freshPool [zeroPage, zeroPage] 3 .RS_FIFO none (fun _ => zeroPage)
      (by decide) rfl).2.2.2.1⟩

theorem replaceFrame_readFromDisk (bm : BufferPool) (idx : Nat) (pageNum : Int) :
    (replaceFrame bm idx pageNum).1.readFromDisk = bm.readFromDisk + 1 := rfl

/-- A `FIFO` call that returns `RC_OK` has replaced the frame its scan found. -/
theorem FIFO_ok (bm : BufferPool) (page : BM_PageHandle) (pageNum : Int)
    (hok : (FIFO bm page pageNum).1 = RC_OK) :
    ∃ idx : Int, (fifoScan bm.frames bm.numPages
        (Int.tmod bm.readFromDisk (bm.numPages : Int)) 0).1 = some idx ∧
      (FIFO bm page pageNum).2 = replaceFrame bm idx.toNat pageNum := by
  unfold FIFO at hok ⊢
  dsimp only at hok ⊢
  split at hok
  · simp [RC_BP_PIN_ERROR, RC_OK] at hok
  rename_i hce
  rw [if_neg hce]
  cases hscan : (fifoScan bm.frames bm.numPages
      (Int.tmod bm.readFromDisk (bm.numPages : Int)) 0).1 with
  | none =>
    exfalso
    apply hce
    have := fifoScan_none bm.frames bm.numPages _ 0
      (fifoScan bm.frames bm.numPages (Int.tmod bm.readFromDisk (bm.numPages : Int)) 0).2
      (by rw [← hscan])
    omega
  | some idx => exact ⟨idx, rfl, rfl⟩

/-- C17: on an initialised pool and for `pageNum ≥ 0`, a `pinPage` that hits
leaves the read-I/O counter unchanged, and a `pinPage` that misses and returns
`RC_OK` (free frame or eviction) raises it by exactly one. -/
theorem pinPage_read_io (bm : BufferPool) (page : BM_PageHandle) (pageNum : Int)
    (hinit : bm.isInitialized_bp = true) (hp : 0 ≤ pageNum) :
    (pageNum ∈ bm.frames.map Frames.pageNumber →
      (pinPage bm page pageNum).1 = RC_OK ∧
      ( getNumReadIO (pinPage bm page pageNum).2.1) = ( getNumReadIO bm)) ∧
    (pageNum ∉ bm.frames.map Frames.pageNumber → (pinPage bm page pageNum).1 = RC_OK →
      ( getNumReadIO (pinPage bm page pageNum).2.1) = ( getNumReadIO bm) + 1) := by
  have hneg : ¬ pageNum < 0 := by omega
  constructor
  · intro hmem
    unfold pinPage
    rw [if_neg (by simp [hinit]), if_neg hneg]
    cases hfind : findPage pageNum bm.frames with
    | none => exact absurd hmem ((findPage_none _ _).mp hfind)
    | some i => exact ⟨rfl, rfl⟩
  · intro hmiss hok
    have hfind := (findPage_none _ _).mpr hmiss
    unfold pinPage at hok ⊢
    rw [if_neg (by simp [hinit]), if_neg hneg] at hok ⊢
    simp only [hfind] at hok ⊢
    cases hfree : findPage NO_PAGE bm.frames with
    | some i => simp [ getNumReadIO]
    | none =>
      simp only [hfree] at hok ⊢
      cases hs : bm.strategy with
      | RS_FIFO =>
        simp only [hs] at hok ⊢
        obtain ⟨idx, _, h2⟩ := FIFO_ok bm page pageNum hok
        rw [h2]
        simp [ getNumReadIO, replaceFrame_readFromDisk]
      | RS_LRU => simp [LRU, getNumReadIO, replaceFrame_readFromDisk]
      | RS_LRU_K => simp [LRU_K, getNumReadIO, replaceFrame_readFromDisk]
      | RS_OTHER =>
        simp only [hs] at hok
        simp [RC_BP_PIN_ERROR, RC_OK] at hok

set_option maxRecDepth 1000000 in
theorem pinPage_read_io_witness :
    ( getNumReadIO (pinPage (samplePool 3 .RS_FIFO) ⟨0, 0⟩ 0).2.1) =
      ( getNumReadIO (samplePool 3 .RS_FIFO)) + 1 ∧
    ( getNumReadIO (pinPage (pinThenUnpin (samplePool 3 .RS_FIFO, ⟨0, 0⟩) 0).1 ⟨0, 0⟩ 0).2.1) =
      ( getNumReadIO (pinThenUnpin (samplePool 3 .RS_FIFO, ⟨0, 0⟩) 0).1) :=
  ⟨(pinPage_read_io (samplePool 3 .RS_FIFO) ⟨0, 0⟩ 0 (by decide) (by decide)).2
      (by decide) (by decide),
   ((pinPage_read_io (pinThenUnpin (samplePool 3 .RS_FIFO, ⟨0, 0⟩) 0).1 ⟨0, 0⟩ 0
      (by decide) (by decide)).1 (by decide)).2⟩

/-! ## Replacement order under LRU and LRU-K, scans and updates on concrete tables -/

set_option maxRecDepth 1000000 in
/-- C14: on the full three-frame LRU-K pool with `k = 1` whose frames hold pages
1, 2, 3 with `lruOrder` 1, 2, 3, the 1st smallest `lruOrder` is 1 (frame 0), yet
`pinPage` of the non-resident page 4 replaces frame 2, whose `lruOrder` 3 is the
largest: `LRU_K` reads cell `numPages - k` of the ascending array. -/
theorem lru_k_evicts_kth_largest :
    lruKPool.strategy = .RS_LRU_K ∧ lruKPool.stratParam = 1 ∧
    frameContents lruKPool = [1, 2, 3] ∧
    lruKPool.frames.map Frames.lruOrder = [1, 2, 3] ∧
    kthSmallestOrder lruKPool.frames 1 = 1 ∧
    lruKVictim lruKPool.frames lruKPool.stratParam = 2 ∧
    (lruKPool.frames.getD (lruKVictim lruKPool.frames lruKPool.stratParam) default).lruOrder ≠
      kthSmallestOrder lruKPool.frames 1 ∧
    (pinPage lruKPool ⟨0, 0⟩ 4).1 = RC_OK ∧
    frameContents (pinPage lruKPool ⟨0, 0⟩ 4).2.1 = [1, 2, 4] := by
  decide

set_option maxRecDepth 1000000 in
/-- C16: on a fresh three-frame LRU pool, after pin-then-unpin of pages
1, 1, 2, 3 the pool is full and page 1 is the least recently used (its last pin
precedes those of pages 2 and 3), yet `pinPage` of page 4 evicts page 2 and
keeps page 1: the free-frame path of `pinPage` leaves `lruOrder` at 0, so pages
that were loaded but never hit look older than a page that was hit. -/
theorem lru_evicts_not_least_recent :
    frameContents lruPool = [1, 2, 3] ∧
    lruPool.frames.map Frames.lruOrder = [1, 0, 0] ∧
    lastUse [1, 1, 2, 3] 1 < lastUse [1, 1, 2, 3] 2 ∧
    lastUse [1, 1, 2, 3] 1 < lastUse [1, 1, 2, 3] 3 ∧
    (pinPage lruPool ⟨0, 0⟩ 4).1 = RC_OK ∧
    frameContents (pinPage lruPool ⟨0, 0⟩ 4).2.1 = [1, 4, 3] := by
  decide

set_option maxRecDepth 1000000 in
/-- C18: on a fresh table, after inserting `{1, "a"}` and `{2, "b"}`, deleting
the first and inserting `{3, "c"}` (all `RC_OK`; the live records are
`{2, "b"}` at `{0, 1}` and `{3, "c"}` at `{0, 0}`), a scan without condition
returns the payload of `{3, "c"}` twice, for slot 0 and for slot 1, and never
the payload of `{2, "b"}`, before `RC_RM_NO_MORE_TUPLES`. -/
theorem scan_after_slot_reuse :
    scanAfterReuse none =
      some ([RC_OK, RC_OK, RC_OK, RC_OK, RC_OK],
        [{ page := 0, slot := 0 }, { page := 0, slot := 1 }, { page := 0, slot := 0 }],
        [(RC_OK, { id := { page := 0, slot := 0 }, data := (mkRecord 3 [99] 4).data }),
         (RC_OK, { id := { page := 0, slot := 1 }, data := (mkRecord 3 [99] 4).data }),
         (RC_RM_NO_MORE_TUPLES, blankRecord 8)]) ∧
    (mkRecord 3 [99] 4).data ≠ (mkRecord 2 [98] 4).data := by
  decide

set_option maxRecDepth 1000000 in
/-- C19: on a fresh table with one record per page, after inserting two
records and deleting the first, `updateRecord` of the second (the live record
at `{1, 0}`) takes the delete-then-insert path, returns `RC_OK` and reassigns
the id to `{0, 0}`; `getRecord` of that id returns `RC_RM_RECORD_NOT_FOUND`. -/
theorem update_then_get_not_found :
    updateThenGet =
      some ([RC_OK, RC_OK, RC_OK, RC_OK], { page := 1, slot := 0 }, { page := 0, slot := 0 },
        RC_RM_RECORD_NOT_FOUND, false) := by
  decide

/-! ## The contract of `unpinPage` -/

/-- The frames after `pinPage` are the frames before, or those with one frame
replaced by a frame holding `pageNum ≥ 0`. -/
theorem pinPage_frames (bm : BufferPool) (page : BM_PageHandle) (pageNum : Int) :
    (pinPage bm page pageNum).2.1.frames = bm.frames ∨
    ∃ (i : Nat) (g : Frames), 0 ≤ pageNum ∧ g.pageNumber = pageNum ∧
      (pinPage bm page pageNum).2.1.frames = bm.frames.set i g := by
  unfold pinPage
  split
  · exact Or.inl rfl
  split
  · exact Or.inl rfl
  rename_i hneg
  have hp : 0 ≤ pageNum := by omega
  cases hfind : findPage pageNum bm.frames with
  | some i =>
    obtain ⟨f, hf, hfp, _⟩ := findPage_some _ _ _ hfind
    have hget : bm.frames.getD i default = f := by simp [List.getD, hf]
    refine Or.inr ⟨i, _, hp, ?_, rfl⟩
    rw [hget]
    exact hfp
  | none =>
    dsimp only
    cases hfree : findPage NO_PAGE bm.frames with
    | some i => exact Or.inr ⟨i, _, hp, rfl, rfl⟩
    | none =>
      dsimp only
      cases hs : bm.strategy with
      | RS_FIFO =>
        dsimp only
        unfold FIFO
        dsimp only
        cases hscan : (fifoScan bm.frames bm.numPages
            (Int.tmod bm.readFromDisk (bm.numPages : Int)) 0).1 with
        | none => split <;> exact Or.inl rfl
        | some idx => split <;> exact Or.inr ⟨idx.toNat, _, hp, rfl, rfl⟩
      | RS_LRU => exact Or.inr ⟨_, _, hp, rfl, rfl⟩
      | RS_LRU_K => exact Or.inr ⟨_, _, hp, rfl, rfl⟩
      | RS_OTHER => exact Or.inl rfl

/-- A property of frames that only reads `pageNumber` and `fix_cnt` carries over
to a frame list with the same two columns. -/
theorem frames_forall_of_fields (P : Int → Int → Prop) (fs gs : List Frames)
    (h : ∀ f ∈ fs, P f.pageNumber f.fix_cnt)
    (h1 : gs.map Frames.pageNumber = fs.map Frames.pageNumber)
    (h2 : gs.map Frames.fix_cnt = fs.map Frames.fix_cnt) :
    ∀ f ∈ gs, P f.pageNumber f.fix_cnt := by
  have e : gs.map (fun f => (f.pageNumber, f.fix_cnt)) = fs.map (fun f => (f.pageNumber, f.fix_cnt)) := by
    rw [← List.zip_map', ← List.zip_map', h1, h2]
  intro f hf
  have : (f.pageNumber, f.fix_cnt) ∈ gs.map (fun f => (f.pageNumber, f.fix_cnt)) :=
    List.mem_map.mpr ⟨f, hf, rfl⟩
  rw [e] at this
  obtain ⟨g, hg, hgf⟩ := List.mem_map.mp this
  have := h g hg
  simp only [Prod.mk.injEq] at hgf
  rw [← hgf.1, ← hgf.2]
  exact this

theorem unpinLoop_free_unpinned (p : Int) (fs : List Frames)
    (h : ∀ f ∈ fs, f.pageNumber < 0 → f.fix_cnt = 0) :
    ∀ f ∈ (unpinLoop p fs).2, f.pageNumber < 0 → f.fix_cnt = 0 := by
  induction fs with
  | nil => simp [unpinLoop]
  | cons f fs ih =>
    have hf := h f (by simp)
    have hfs : ∀ g ∈ fs, g.pageNumber < 0 → g.fix_cnt = 0 := fun g hg => h g (by simp [hg])
    unfold unpinLoop
    split
    · split
      · rename_i hpos
        intro g hg
        simp only [List.mem_cons] at hg
        rcases hg with rfl | hg
        · intro hlt
          have := hf hlt
          omega
        · exact hfs g hg
      · exact h
    · intro g hg
      simp only [List.mem_cons] at hg
      rcases hg with rfl | hg
      · exact hf
      · exact ih hfs g hg

/-- In a reachable pool an empty frame (negative page number) is not pinned. -/
theorem Reachable_free_unpinned (bm : BufferPool) (h : Reachable bm) :
    ∀ f ∈ bm.frames, f.pageNumber < 0 → f.fix_cnt = 0 := by
  induction h with
  | init bm0 file numPages strategy stratData mem h0 hn hk =>
    intro f hf _
    unfold initBufferPool at hf
    rw [if_neg (by simp [h0])] at hf
    simp only [initFrames, List.mem_map, List.mem_range] at hf
    obtain ⟨i, _, rfl⟩ := hf
    rfl
  | pin bm page pageNum _ ih =>
    rcases pinPage_frames bm page pageNum with e | ⟨i, g, hp, hg, e⟩
    · rw [e]; exact ih
    · rw [e]
      intro f hf hlt
      rcases List.mem_or_eq_of_mem_set hf with hf | hf
      · exact ih f hf hlt
      · subst hf
        omega
  | unpin bm page _ ih => exact unpinLoop_free_unpinned _ _ ih
  | dirty bm page _ ih =>
    exact frames_forall_of_fields (fun p c => p < 0 → c = 0) _ _ ih
      (markDirty_fields bm page).1 (markDirty_fields bm page).2
  | force bm page _ ih =>
    have hfr : (forcePage bm page).2.frames =
        (forcePageLoop page.pageNum bm.file bm.writtenToDisk 0 bm.frames).1 := by
      unfold forcePage
      dsimp only
      split <;> rfl
    rw [hfr]
    exact frames_forall_of_fields (fun p c => p < 0 → c = 0) _ _ ih
      (forcePageLoop_fields _ _ _ _ _).1 (forcePageLoop_fields _ _ _ _ _).2
  | flush bm _ ih =>
    have hfr : (forceFlushPool bm).2.frames = bm.frames ∨ (forceFlushPool bm).2.frames =
        (forceFlushLoop bm.file bm.writtenToDisk 0 bm.frames).2.1 := by
      unfold forceFlushPool
      split
      · exact Or.inl rfl
      · dsimp only
        split
        · exact Or.inr rfl
        · split <;> exact Or.inr rfl
    rcases hfr with e | e
    · rw [e]; exact ih
    · rw [e]
      exact frames_forall_of_fields (fun p c => p < 0 → c = 0) _ _ ih
        (forceFlushLoop_fields _ _ _ _).1 (forceFlushLoop_fields _ _ _ _).2

/-- The loop of `unpinPage` when frame `i` is the first to hold `p`. -/
theorem unpinLoop_first (p : Int) (fs : List Frames) (i : Nat) (f : Frames)
    (hi : fs[i]? = some f) (hp : f.pageNumber = p)
    (hfirst : ∀ j, j < i → ∀ g, fs[j]? = some g → g.pageNumber ≠ p) :
    unpinLoop p fs =
      if f.fix_cnt > 0 then (RC_OK, fs.set i { f with fix_cnt := f.fix_cnt - 1 })
      else (RC_BP_UNPIN_ERROR, fs) := by
  induction fs generalizing i with
  | nil => simp at hi
  | cons x xs ih =>
    cases i with
    | zero =>
      simp only [List.getElem?_cons_zero, Option.some.injEq] at hi
      subst hi
      unfold unpinLoop
      rw [if_pos hp]
      split <;> simp
    | succ k =>
      simp only [List.getElem?_cons_succ] at hi
      have hx : x.pageNumber ≠ p := hfirst 0 (by omega) x (by simp)
      unfold unpinLoop
      rw [if_neg hx]
      rw [ih k hi (fun j hj g hg => hfirst (j + 1) (by omega) g (by simpa using hg))]
      split <;> simp

/-- The loop of `unpinPage` when no frame holds `p`. -/
theorem unpinLoop_absent (p : Int) (fs : List Frames) (h : ∀ f ∈ fs, f.pageNumber ≠ p) :
    unpinLoop p fs = (RC_BP_UNPIN_ERROR, fs) := by
  induction fs with
  | nil => rfl
  | cons x xs ih =>
    unfold unpinLoop
    rw [if_neg (h x (by simp)), ih (fun f hf => h f (by simp [hf]))]

theorem frames_index_of_mem (fs : List Frames) (g : Frames) (h : g ∈ fs) :
    ∃ j : Nat, fs[j]? = some g := by
  obtain ⟨j, hj, e⟩ := List.getElem_of_mem h
  exact ⟨j, by rw [List.getElem?_eq_getElem hj, e]⟩

/-- C11: in every reachable pool state and for every handle, `unpinPage` returns
`RC_BP_UNPIN_ERROR` exactly when no frame holds `page.pageNum` or the frame
holding it has `fix_cnt == 0`, and then the pool is unchanged; otherwise it
returns `RC_OK` and the pool is the old one with that frame's `fix_cnt` lowered
by one and nothing else changed. -/
theorem unpinPage_contract (bm : BufferPool) (h : Reachable bm) (page : BM_PageHandle) :
    ((unpinPage bm page).1 = RC_BP_UNPIN_ERROR ↔
      ((∀ f ∈ bm.frames, f.pageNumber ≠ page.pageNum) ∨
       ∃ f ∈ bm.frames, f.pageNumber = page.pageNum ∧ f.fix_cnt = 0)) ∧
    ((unpinPage bm page).1 = RC_BP_UNPIN_ERROR → (unpinPage bm page).2 = bm) ∧
    ((unpinPage bm page).1 ≠ RC_BP_UNPIN_ERROR →
      (unpinPage bm page).1 = RC_OK ∧
      ∃ (i : Nat) (f : Frames), bm.frames[i]? = some f ∧ f.pageNumber = page.pageNum ∧
        0 < f.fix_cnt ∧
        (unpinPage bm page).2 =
          { bm with frames := bm.frames.set i { f with fix_cnt := f.fix_cnt - 1 } }) := by
  have hinv := (Reachable_inv bm h).1
  have hfree := Reachable_free_unpinned bm h
  unfold unpinPage
  dsimp only
  cases hfind : findPage page.pageNum bm.frames with
  | none =>
    have habs : ∀ f ∈ bm.frames, f.pageNumber ≠ page.pageNum := by
      intro f hf e
      exact (findPage_none _ _).mp hfind (List.mem_map.mpr ⟨f, hf, e⟩)
    rw [unpinLoop_absent _ _ habs]
    refine ⟨⟨fun _ => Or.inl habs, fun _ => rfl⟩, fun _ => rfl, fun hne => absurd rfl hne⟩
  | some i =>
    obtain ⟨f, hf, hfp, hfirst⟩ := findPage_some _ _ _ hfind
    have hmem : f ∈ bm.frames := List.mem_iff_getElem?.mpr ⟨i, hf⟩
    rw [unpinLoop_first _ _ i f hf hfp hfirst]
    by_cases hpos : f.fix_cnt > 0
    · rw [if_pos hpos]
      refine ⟨⟨fun e => ?_, fun hor => ?_⟩, fun e => ?_, fun _ => ⟨rfl, i, f, hf, hfp, hpos, rfl⟩⟩
      · simp [RC_OK, RC_BP_UNPIN_ERROR] at e
      · exfalso
        rcases hor with habs | ⟨g, hg, hgp, hg0⟩
        · exact habs f hmem hfp
        · by_cases hneg : page.pageNum < 0
          · have := hfree f hmem (by omega)
            omega
          · obtain ⟨j, hj⟩ := frames_index_of_mem _ g hg
            have hij : i = j :=
              index_unique_of_count _ page.pageNum (hinv.1 _ (by omega)) i j
                (by simp [hf, hfp]) (by simp [hj, hgp])
            subst hij
            rw [hf] at hj
            cases hj
            omega
      · simp [RC_OK, RC_BP_UNPIN_ERROR] at e
    · rw [if_neg hpos]
      have h0 : f.fix_cnt = 0 := by
        have := hinv.2 f.fix_cnt (List.mem_map_of_mem _ hmem)
        omega
      exact ⟨⟨fun _ => Or.inr ⟨f, hmem, hfp, h0⟩, fun _ => rfl⟩, fun _ => rfl,
        fun hne => absurd rfl hne⟩

set_option maxRecDepth 100000 in
theorem unpinPage_contract_witness :
    Reachable (pinPage (samplePool 3 .RS_FIFO) ⟨0, 0⟩ 1).2.1 ∧
    (unpinPage (pinPage (samplePool 3 .RS_FIFO) ⟨0, 0⟩ 1).2.1 ⟨1, 0⟩).1 = RC_OK ∧
    ((unpinPage (pinPage (samplePool 3 .RS_FIFO) ⟨0, 0⟩ 1).2.1 ⟨2, 0⟩).1 = RC_BP_UNPIN_ERROR →
      (unpinPage (pinPage (samplePool 3 .RS_FIFO) ⟨0, 0⟩ 1).2.1 ⟨2, 0⟩).2 =
        (pinPage (samplePool 3 .RS_FIFO) ⟨0, 0⟩ 1).2.1) :=
  have hr : Reachable (pinPage (samplePool 3 .RS_FIFO) ⟨0, 0⟩ 1).2.1 :=
    Reachable.pin _ _ _
      (Reachable.init freshPool [zeroPage, zeroPage] 3 .RS_FIFO none (fun _ => zeroPage) rfl
        (by decide) (by intro h; cases h))
  ⟨hr, ((unpinPage_contract _ hr ⟨1, 0⟩).2.2 (by decide)).1,
   (unpinPage_contract _ hr ⟨2, 0⟩).2.1⟩

/-! ## The victim of `LRU` -/

/-- The search loop of `LRU` returns the first index of the minimum. -/
theorem lruScan_spec (ord : Nat → Int) (fs : List Frames) (i idx : Nat)
    (hfs : ∀ (k : Nat) (f : Frames), fs[k]? = some f → f.lruOrder = ord (i + k))
    (hidx : idx < i) (hmin : ∀ j, j < i → ord idx ≤ ord j)
    (hstrict : ∀ j, j < idx → ord idx < ord j) :
    lruScan fs i (ord idx) idx < i + fs.length ∧
    (∀ j, j < i + fs.length → ord (lruScan fs i (ord idx) idx) ≤ ord j) ∧
    (∀ j, j < lruScan fs i (ord idx) idx → ord (lruScan fs i (ord idx) idx) < ord j) := by
  induction fs generalizing i idx with
  | nil =>
    simp only [lruScan, List.length_nil, Nat.add_zero]
    exact ⟨hidx, hmin, hstrict⟩
  | cons f fs ih =>
    have hf : f.lruOrder = ord i := hfs 0 f (by simp)
    have hfs1 : ∀ (k : Nat) (g : Frames), fs[k]? = some g → g.lruOrder = ord (i + 1 + k) := by
      intro k g hg
      have := hfs (k + 1) g (by simpa using hg)
      rw [this]
      congr 1
      omega
    have hlen : i + (f :: fs).length = i + 1 + fs.length := by simp; omega
    unfold lruScan
    rw [hlen]
    split
    · rename_i hlt
      rw [hf] at hlt ⊢
      apply ih (i + 1) i hfs1 (by omega)
      · intro j hj
        rcases Nat.lt_or_ge j i with h1 | h1
        · have := hmin j h1
          omega
        · have : j = i := by omega
          rw [this]
      · intro j hj
        have := hmin j hj
        omega
    · rename_i hge
      rw [hf] at hge
      apply ih (i + 1) idx hfs1 (by omega)
      · intro j hj
        rcases Nat.lt_or_ge j i with h1 | h1
        · exact hmin j h1
        · have : j = i := by omega
          rw [this]
          omega
      · exact hstrict

theorem lruVictim_spec (frames : List Frames) (hn : 0 < frames.length) :
    lruVictim frames < frames.length ∧
    (∀ j, j < frames.length →
      (frames.getD (lruVictim frames) default).lruOrder ≤ (frames.getD j default).lruOrder) ∧
    (∀ j, j < lruVictim frames →
      (frames.getD (lruVictim frames) default).lruOrder < (frames.getD j default).lruOrder) := by
  cases frames with
  | nil => simp at hn
  | cons x xs =>
    have h0 : (frameAt (x :: xs) 0).lruOrder = (fun j => ((x :: xs).getD j default).lruOrder) 0 := by
      simp [frameAt]
    unfold lruVictim
    rw [h0]
    have := lruScan_spec (fun j => ((x :: xs).getD j default).lruOrder) xs 1 0
      (by
        intro k f hk
        have e : 1 + k = k + 1 := by omega
        simp only [e, List.getD_cons_succ]
        simp [List.getD, hk])
      (by omega)
      (by intro j hj; have : j = 0 := by omega
          rw [this])
      (by intro j hj; omega)
    simp only [List.tail_cons]
    have hl : (x :: xs).length = 1 + xs.length := by simp; omega
    rw [hl]
    exact this

/-- C13: for an initialised LRU pool that is full (no frame is empty) and a page
`pageNum ≥ 0` that is not resident, `pinPage` returns `RC_OK` and replaces the
frame at the first index of the smallest `lruOrder` among all frames, whatever
the fix counts: the frame then holds `pageNum` with `fix_cnt = 1`, the handle
points to it, and no other frame changes. -/
theorem lru_victim_smallest_order (bm : BufferPool) (page : BM_PageHandle) (pageNum : Int)
    (hinit : bm.isInitialized_bp = true) (hs : bm.strategy = .RS_LRU)
    (hn : 0 < bm.frames.length) (hp : 0 ≤ pageNum)
    (hmiss : pageNum ∉ bm.frames.map Frames.pageNumber)
    (hfull : NO_PAGE ∉ bm.frames.map Frames.pageNumber) :
    ∃ v : Nat, v = lruVictim bm.frames ∧ v < bm.frames.length ∧
      (∀ j, j < bm.frames.length →
        (bm.frames.getD v default).lruOrder ≤ (bm.frames.getD j default).lruOrder) ∧
      (∀ j, j < v →
        (bm.frames.getD v default).lruOrder < (bm.frames.getD j default).lruOrder) ∧
      pinPage bm page pageNum = (RC_OK, replaceFrame bm v pageNum) ∧
      (pinPage bm page pageNum).2.2 = { pageNum := pageNum, data := v } ∧
      (∃ g : Frames, g.pageNumber = pageNum ∧ g.fix_cnt = 1 ∧ g.dirty = false ∧
        (pinPage bm page pageNum).2.1.frames = bm.frames.set v g) := by
  obtain ⟨h1, h2, h3⟩ := lruVictim_spec bm.frames hn
  have hpin : pinPage bm page pageNum = (RC_OK, replaceFrame bm (lruVictim bm.frames) pageNum) := by
    unfold pinPage
    rw [if_neg (by simp [hinit]), if_neg (by omega)]
    simp only [(findPage_none _ _).mpr hmiss, (findPage_none _ _).mpr hfull, hs, LRU]
  refine ⟨_, rfl, h1, h2, h3, hpin, ?_, ?_⟩
  · rw [hpin]; rfl
  · rw [hpin]
    exact ⟨_, rfl, rfl, rfl, rfl⟩

set_option maxRecDepth 100000 in
theorem lru_victim_smallest_order_witness :
    lruVictim lruPool.frames = 1 ∧
    pinPage lruPool ⟨0, 0⟩ 4 = (RC_OK, replaceFrame lruPool 1 4) :=
  match lru_victim_smallest_order lruPool ⟨0, 0⟩ 4 (by decide) (by decide) (by decide)
      (by decide) (by decide) (by decide) with
  | ⟨v, hv, _, _, _, hpin, _⟩ => ⟨by decide, by rw [hpin, hv]; decide⟩

/-! ## The victim of `FIFO` -/

theorem tmod_natCast (a n : Nat) : Int.tmod (a : Int) (n : Int) = ((a % n : Nat) : Int) := by
  rw [Int.tmod_eq_emod (by omega) (by omega)]
  norm_cast

theorem frameAt_natCast (frames : List Frames) (s : Nat) :
    frameAt frames (s : Int) = frames.getD s default := by
  unfold frameAt
  rw [if_neg (by omega)]
  simp

/-- The scan of `FIFO` stops at the first frame with `fix_cnt == 0`, counting
the frames it passed. -/
theorem fifoScan_first (frames : List Frames) (j : Nat) (fuel s : Nat) (ce : Int)
    (hs : s < frames.length) (hj : j < fuel)
    (h0 : (frames.getD ((s + j) % frames.length) default).fix_cnt = 0)
    (hbefore : ∀ i, i < j → (frames.getD ((s + i) % frames.length) default).fix_cnt ≠ 0) :
    fifoScan frames fuel (s : Int) ce = (some (((s + j) % frames.length : Nat) : Int), ce + j) := by
  induction j generalizing fuel s ce with
  | zero =>
    cases fuel with
    | zero => omega
    | succ k =>
      simp only [Nat.add_zero, Nat.mod_eq_of_lt hs] at h0 ⊢
      unfold fifoScan
      rw [frameAt_natCast, if_pos h0]
      simp
  | succ j ih =>
    cases fuel with
    | zero => omega
    | succ k =>
      have hne : (frames.getD s default).fix_cnt ≠ 0 := by
        have := hbefore 0 (by omega)
        simpa [Nat.mod_eq_of_lt hs] using this
      have hmod : ∀ i, ((s + 1) % frames.length + i) % frames.length =
          (s + (i + 1)) % frames.length := by
        intro i
        rw [Nat.mod_add_mod]
        congr 1
        omega
      unfold fifoScan
      rw [frameAt_natCast, if_neg hne]
      have e : Int.tmod ((s : Int) + 1) (frames.length : Int) =
          (((s + 1) % frames.length : Nat) : Int) := by
        rw [← tmod_natCast]
        norm_cast
      rw [e, ih k ((s + 1) % frames.length) (ce + 1) (Nat.mod_lt _ (by omega)) (by omega)
        (by rw [hmod]; exact h0) (by intro i hi; rw [hmod]; exact hbefore (i + 1) (by omega))]
      rw [hmod]
      simp only [Prod.mk.injEq, true_and]
      push_cast
      omega

/-- The scan of `FIFO` over a pool where every frame is pinned finds nothing. -/
theorem fifoScan_all_pinned (frames : List Frames) (fuel s : Nat) (ce : Int)
    (hs : s < frames.length) (hall : ∀ f ∈ frames, f.fix_cnt ≠ 0) :
    fifoScan frames fuel (s : Int) ce = (none, ce + fuel) := by
  induction fuel generalizing s ce with
  | zero => simp [fifoScan]
  | succ k ih =>
    have hne : (frames.getD s default).fix_cnt ≠ 0 := by
      apply hall
      rw [List.getD_eq_getElem _ _ hs]
      exact List.getElem_mem hs
    unfold fifoScan
    rw [frameAt_natCast, if_neg hne]
    have e : Int.tmod ((s : Int) + 1) (frames.length : Int) =
        (((s + 1) % frames.length : Nat) : Int) := by
      rw [← tmod_natCast]
      norm_cast
    rw [e, ih _ _ (Nat.mod_lt _ (by omega))]
    simp only [Prod.mk.injEq, true_and]
    push_cast
    omega

/-- What `pinPage` does on a full FIFO pool for a page that is not resident. -/
theorem pinPage_fifo_scan (bm : BufferPool) (page : BM_PageHandle) (pageNum : Int)
    (hinit : bm.isInitialized_bp = true) (hs : bm.strategy = .RS_FIFO)
    (hn : 0 < bm.frames.length) (hr : 0 ≤ bm.readFromDisk) (hp : 0 ≤ pageNum)
    (hmiss : pageNum ∉ bm.frames.map Frames.pageNumber)
    (hfull : NO_PAGE ∉ bm.frames.map Frames.pageNumber) :
    (∀ j, j < bm.frames.length →
      (bm.frames.getD ((bm.readFromDisk.toNat + j) % bm.frames.length) default).fix_cnt = 0 →
      (∀ i, i < j →
        (bm.frames.getD ((bm.readFromDisk.toNat + i) % bm.frames.length) default).fix_cnt ≠ 0) →
      pinPage bm page pageNum =
        (RC_OK, replaceFrame bm ((bm.readFromDisk.toNat + j) % bm.frames.length) pageNum) ∧
      (pinPage bm page pageNum).2.2 =
        { pageNum := pageNum, data := (bm.readFromDisk.toNat + j) % bm.frames.length } ∧
      ∃ g : Frames, g.pageNumber = pageNum ∧ g.fix_cnt = 1 ∧ g.dirty = false ∧
        (pinPage bm page pageNum).2.1.frames =
          bm.frames.set ((bm.readFromDisk.toNat + j) % bm.frames.length) g) ∧
    ((∀ f ∈ bm.frames, f.fix_cnt ≠ 0) →
      pinPage bm page pageNum = (RC_BP_PIN_ERROR, bm, page)) := by
  have hpin : pinPage bm page pageNum = FIFO bm page pageNum := by
    unfold pinPage
    rw [if_neg (by simp [hinit]), if_neg (by omega)]
    simp only [(findPage_none _ _).mpr hmiss, (findPage_none _ _).mpr hfull, hs]
  have hstart : Int.tmod bm.readFromDisk (bm.numPages : Int) =
      ((bm.readFromDisk.toNat % bm.frames.length : Nat) : Int) := by
    rw [← tmod_natCast, Int.toNat_of_nonneg hr]
    rfl
  have hlt : bm.readFromDisk.toNat % bm.frames.length < bm.frames.length := Nat.mod_lt _ hn
  constructor
  · intro j hj h0 hbefore
    have hscan := fifoScan_first bm.frames j bm.numPages
      (bm.readFromDisk.toNat % bm.frames.length) 0 hlt hj
      (by rw [Nat.mod_add_mod]; exact h0)
      (by intro i hi; rw [Nat.mod_add_mod]; exact hbefore i hi)
    rw [Nat.mod_add_mod] at hscan
    have hF : FIFO bm page pageNum =
        (RC_OK, replaceFrame bm ((bm.readFromDisk.toNat + j) % bm.frames.length) pageNum) := by
      unfold FIFO
      dsimp only
      rw [hstart, hscan]
      dsimp only
      rw [if_neg (by simp only [BufferPool.numPages]; omega)]
      simp only [Int.toNat_ofNat]
    rw [hpin, hF]
    exact ⟨rfl, rfl, _, rfl, rfl, rfl, rfl⟩
  · intro hall
    rw [hpin]
    unfold FIFO
    dsimp only
    rw [hstart, fifoScan_all_pinned bm.frames bm.numPages _ 0 hlt hall]
    dsimp only
    rw [if_pos (by simp)]

/-- C12: for an initialised FIFO pool of `n ≥ 1` frames that is full (no frame
is empty) and a page `pageNum ≥ 0` that is not resident: if `j < n` is the
least offset whose frame `(readFromDisk + j) mod n` has `fix_cnt == 0`, then
`pinPage` returns `RC_OK` and replaces exactly that frame; if every frame has a
nonzero `fix_cnt`, `pinPage` returns `RC_BP_PIN_ERROR` and the pool (every frame
and both I/O counters) and the handle are unchanged. -/
theorem fifo_victim (bm : BufferPool) (page : BM_PageHandle) (pageNum : Int)
    (hinit : bm.isInitialized_bp = true) (hs : bm.strategy = .RS_FIFO)
    (hn : 0 < bm.frames.length) (hr : 0 ≤ bm.readFromDisk) (hp : 0 ≤ pageNum)
    (hmiss : pageNum ∉ bm.frames.map Frames.pageNumber)
    (hfull : NO_PAGE ∉ bm.frames.map Frames.pageNumber) :
    (∀ j, j < bm.frames.length →
      (bm.frames.getD ((bm.readFromDisk.toNat + j) % bm.frames.length) default).fix_cnt = 0 →
      (∀ i, i < j →
        (bm.frames.getD ((bm.readFromDisk.toNat + i) % bm.frames.length) default).fix_cnt ≠ 0) →
      pinPage bm page pageNum =
        (RC_OK, replaceFrame bm ((bm.readFromDisk.toNat + j) % bm.frames.length) pageNum) ∧
      (pinPage bm page pageNum).2.2 =
        { pageNum := pageNum, data := (bm.readFromDisk.toNat + j) % bm.frames.length } ∧
      ∃ g : Frames, g.pageNumber = pageNum ∧ g.fix_cnt = 1 ∧ g.dirty = false ∧
        (pinPage bm page pageNum).2.1.frames =
          bm.frames.set ((bm.readFromDisk.toNat + j) % bm.frames.length) g) ∧
    ((∀ f ∈ bm.frames, f.fix_cnt ≠ 0) →
      pinPage bm page pageNum = (RC_BP_PIN_ERROR, bm, page)) :=
  pinPage_fifo_scan bm page pageNum hinit hs hn hr hp hmiss hfull

set_option maxRecDepth 100000 in
theorem fifo_victim_witness :
    (fifoPool.readFromDisk.toNat + 1) % fifoPool.frames.length = 1 ∧
    pinPage fifoPool ⟨0, 0⟩ 4 =
      (RC_OK, replaceFrame fifoPool
        ((fifoPool.readFromDisk.toNat + 1) % fifoPool.frames.length) 4) :=
  ⟨by decide,
   ((fifo_victim fifoPool ⟨0, 0⟩ 4 (by decide) (by decide) (by decide) (by decide) (by decide)
      (by decide) (by decide)).1 1 (by decide) (by decide) (by decide)).1⟩

/-! ## FIFO keeps the last `n` pages -/

theorem getD_set_frames (fs : List Frames) (v i : Nat) (g : Frames) (hv : v < fs.length) :
    (fs.set v g).getD i default = if v = i then g else fs.getD i default := by
  simp only [List.getD_eq_getElem?_getD, List.getElem?_set]
  split
  · simp [hv]
  · rfl

/-- Unpinning right after a pin that put `g` (holding `p`, pinned once) into
frame `v` of frames that did not hold `p`. -/
theorem unpinPage_after_pin (bm1 : BufferPool) (fs : List Frames) (v : Nat) (g : Frames) (p : Int)
    (hfs : bm1.frames = fs.set v g) (hv : v < fs.length) (hg : g.pageNumber = p)
    (hfix : g.fix_cnt = 1) (hmiss : ∀ f ∈ fs, f.pageNumber ≠ p) :
    unpinPage bm1 ⟨p, v⟩ = (RC_OK, { bm1 with frames := fs.set v { g with fix_cnt := 0 } }) := by
  unfold unpinPage
  dsimp only
  rw [hfs, unpinLoop_first p (fs.set v g) v g (by simp [hv]) hg]
  · rw [if_pos (by omega)]
    simp [hfix]
  · intro j hj x hx
    rw [List.getElem?_set_ne (by omega)] at hx
    exact hmiss x (List.mem_iff_getElem?.mpr ⟨j, hx⟩)

theorem getD_mem_frames (fs : List Frames) (i : Nat) (hi : i < fs.length) :
    fs.getD i default ∈ fs := by
  rw [List.getD_eq_getElem _ _ hi]
  exact List.getElem_mem hi

theorem getD_of_getElem?_frames (fs : List Frames) (i : Nat) (f : Frames)
    (h : fs[i]? = some f) : fs.getD i default = f := by
  simp [List.getD, h]

/-- The pin of a new page on a FIFO pool in the state `FifoInv`: the page goes
into frame `done.length mod n`. -/
theorem pinPage_fifoInv (n : Nat) (done : List Int) (bm : BufferPool) (h : BM_PageHandle)
    (p : Int) (hinv : FifoInv n done bm) (hn : 0 < n) (hp : 0 ≤ p) (hnew : p ∉ done) :
    (∀ f ∈ bm.frames, f.pageNumber ≠ p) ∧
    ∃ (g : Frames) (bm1 : BufferPool),
      pinPage bm h p = (RC_OK, bm1, ⟨p, done.length % n⟩) ∧
      bm1.frames = bm.frames.set (done.length % n) g ∧ g.pageNumber = p ∧ g.fix_cnt = 1 ∧
      bm1.readFromDisk = (done.length : Int) + 1 ∧ bm1.isInitialized_bp = true ∧
      bm1.strategy = .RS_FIFO := by
  obtain ⟨hinit, hs, hlen, hread, hfix, hres, hpos, hempty, hmod⟩ := hinv
  have hmiss : ∀ f ∈ bm.frames, f.pageNumber ≠ p := by
    intro f hf e
    rcases hres f hf with h1 | h1
    · rw [e] at h1
      simp only [NO_PAGE] at h1
      omega
    · rw [e] at h1
      exact hnew h1
  refine ⟨hmiss, ?_⟩
  by_cases ht : done.length < n
  · have hv : done.length % n = done.length := Nat.mod_eq_of_lt ht
    rw [hv]
    have hi : bm.frames[done.length]? = some (bm.frames.getD done.length default) := by
      rw [List.getD_eq_getElem _ _ (by omega), List.getElem?_eq_getElem]
    have hpin := pinPage_free_first bm h p done.length _ hinit hp hmiss hi
      (hempty _ ht (le_refl _))
      (by
        intro j hj g hg e
        have := hpos j (by omega) hj
        rw [getD_of_getElem?_frames _ _ _ hg, e] at this
        simp only [NO_PAGE] at this
        omega)
    exact ⟨_, _, hpin, rfl, rfl, rfl, by simp [hread], hinit, hs⟩
  · have hfull : NO_PAGE ∉ bm.frames.map Frames.pageNumber := by
      intro hmem
      obtain ⟨f, hf, e⟩ := List.mem_map.mp hmem
      obtain ⟨i, hi⟩ := frames_index_of_mem _ f hf
      have hil : i < bm.frames.length := by
        rcases Nat.lt_or_ge i bm.frames.length with h' | h'
        · exact h'
        · rw [List.getElem?_eq_none h'] at hi; cases hi
      have := hpos i (by omega) (by omega)
      rw [getD_of_getElem?_frames _ _ _ hi, e] at this
      simp only [NO_PAGE] at this
      omega
    have hmiss' : p ∉ bm.frames.map Frames.pageNumber := by
      intro hmem
      obtain ⟨f, hf, e⟩ := List.mem_map.mp hmem
      exact hmiss f hf e
    have htn : bm.readFromDisk.toNat = done.length := by
      rw [hread]
      simp
    have hpin := (pinPage_fifo_scan bm h p hinit hs (by omega) (by omega) hp hmiss' hfull).1 0
      (by omega)
      (hfix _ (getD_mem_frames _ _ (Nat.mod_lt _ (by omega))))
      (by intro i hi; omega)
    rw [htn, hlen, Nat.add_zero] at hpin
    refine ⟨_, _, hpin.1, rfl, rfl, rfl, ?_, hinit, hs⟩
    simp [replaceFrame, hread]

theorem mod_ne_of_lt_of_sub_lt (n j t : Nat) (hjt : j < t) (htn : t < j + n) :
    j % n ≠ t % n := by
  intro e
  have hdvd : n ∣ t - j := (Nat.modEq_iff_dvd' (le_of_lt hjt)).mp e
  have := Nat.eq_zero_of_dvd_of_lt hdvd (by omega)
  omega

/-- One pin-then-unpin of a new page keeps `FifoInv`. -/
theorem FifoInv_step (n : Nat) (done : List Int) (s : BufferPool × BM_PageHandle) (p : Int)
    (hinv : FifoInv n done s.1) (hn : 0 < n) (hp : 0 ≤ p) (hnew : p ∉ done) :
    FifoInv n (done ++ [p]) (pinThenUnpin s p).1 := by
  obtain ⟨hmiss, g, bm1, hpin, hfr, hg, hgfix, hread1, hinit1, hs1⟩ :=
    pinPage_fifoInv n done s.1 s.2 p hinv hn hp hnew
  obtain ⟨hinit, hs, hlen, hread, hfix, hres, hpos, hempty, hmod⟩ := hinv
  have hv : done.length % n < s.1.frames.length := by
    rw [hlen]
    exact Nat.mod_lt _ hn
  have hun := unpinPage_after_pin bm1 s.1.frames (done.length % n) g p hfr hv hg hgfix hmiss
  have hres1 : (pinThenUnpin s p).1 =
      { bm1 with frames := s.1.frames.set (done.length % n) { g with fix_cnt := 0 } } := by
    unfold pinThenUnpin
    rw [hpin]
    dsimp only
    rw [hun]
  rw [hres1]
  have hget : ∀ i, (s.1.frames.set (done.length % n) { g with fix_cnt := 0 }).getD i default =
      if done.length % n = i then { g with fix_cnt := 0 } else s.1.frames.getD i default :=
    fun i => getD_set_frames _ _ _ _ hv
  refine ⟨hinit1, hs1, by simp [hlen], by simp [hread1], ?_, ?_, ?_, ?_, ?_⟩
  · intro f hf
    rcases List.mem_or_eq_of_mem_set hf with hf | hf
    · exact hfix f hf
    · rw [hf]
  · intro f hf
    rcases List.mem_or_eq_of_mem_set hf with hf | hf
    · rcases hres f hf with h1 | h1
      · exact Or.inl h1
      · exact Or.inr (by simp [h1])
    · rw [hf]
      exact Or.inr (by simp [hg])
  · intro i hi hit
    dsimp only
    rw [hget]
    split
    · simp only [hg]
      exact hp
    · rename_i hne
      simp only [List.length_append, List.length_singleton] at hit
      apply hpos i hi
      by_contra hcon
      have : i = done.length := by omega
      rw [this, Nat.mod_eq_of_lt (by omega)] at hne
      exact hne rfl
  · intro i hi hit
    dsimp only
    simp only [List.length_append, List.length_singleton] at hit
    rw [hget, if_neg]
    · exact hempty i hi (by omega)
    · rw [Nat.mod_eq_of_lt (by omega)]
      omega
  · intro j hj hjn
    dsimp only
    simp only [List.length_append, List.length_singleton] at hj hjn
    rw [hget]
    rcases Nat.lt_or_ge j done.length with hlt | hge
    · rw [if_neg (fun e => mod_ne_of_lt_of_sub_lt n j done.length hlt (by omega) e.symm)]
      rw [hmod j hlt (by omega)]
      simp [List.getD_eq_getElem?_getD, List.getElem?_append_left hlt]
    · have hj' : j = done.length := by omega
      rw [hj', if_pos rfl]
      simp [List.getD_eq_getElem?_getD, hg]

theorem FifoInv_all (n : Nat) (ps : List Int) (done : List Int) (s : BufferPool × BM_PageHandle)
    (hinv : FifoInv n done s.1) (hn : 0 < n) (hp : ∀ p ∈ ps, 0 ≤ p)
    (hnd : (done ++ ps).Nodup) :
    FifoInv n (done ++ ps) (pinUnpinAll s ps).1 := by
  induction ps generalizing done s with
  | nil => simpa [pinUnpinAll] using hinv
  | cons p ps ih =>
    have hnew : p ∉ done := by
      intro hmem
      have := List.nodup_append.mp hnd
      exact this.2.2 hmem (by simp)
    have h1 := FifoInv_step n done s p hinv hn (hp p (by simp)) hnew
    have := ih (done ++ [p]) (pinThenUnpin s p) h1 (fun q hq => hp q (by simp [hq]))
      (by simpa using hnd)
    simpa [pinUnpinAll] using this

theorem FifoInv_init (b0 : BufferPool) (file : PageFile) (n : Nat) (sd : Option Int)
    (mem : Nat → Page) (h0 : b0.isInitialized_bp = false) :
    FifoInv n [] (initBufferPool b0 (some file) n .RS_FIFO sd mem).2 := by
  unfold initBufferPool
  rw [if_neg (by simp [h0])]
  have hall : ∀ f ∈ initFrames mem n, f.fix_cnt = 0 ∧ f.pageNumber = NO_PAGE := by
    intro f hf
    simp only [initFrames, List.mem_map, List.mem_range] at hf
    obtain ⟨i, _, rfl⟩ := hf
    exact ⟨rfl, rfl⟩
  have hlen : (initFrames mem n).length = n := by simp [initFrames]
  refine ⟨rfl, rfl, hlen, rfl, fun f hf => (hall f hf).1, fun f hf => Or.inl (hall f hf).2,
    ?_, ?_, ?_⟩
  · intro i _ hi
    simp at hi
  · intro i hi _
    exact (hall _ (getD_mem_frames _ _ (by omega))).2
  · intro j hj
    simp at hj

/-- C15: for `n ≥ 1` and `m ≥ n` pairwise distinct page numbers `ps` (all
`≥ 0`), on an `n`-frame FIFO pool fresh from `initBufferPool`, after pinning and
at once unpinning the pages of `ps` in order, the resident pages are exactly
the last `n` pages of `ps`: the frame contents are a permutation of them. -/
theorem fifo_keeps_last_n (b0 : BufferPool) (file : PageFile) (n : Nat) (sd : Option Int)
    (mem : Nat → Page) (h : BM_PageHandle) (ps : List Int)
    (h0 : b0.isInitialized_bp = false) (hn : 1 ≤ n) (hm : n ≤ ps.length)
    (hnd : ps.Nodup) (hp : ∀ p ∈ ps, 0 ≤ p) :
    (frameContents
      (pinUnpinAll ((initBufferPool b0 (some file) n .RS_FIFO sd mem).2, h) ps).1).Perm
        (ps.drop (ps.length - n)) ∧
    ∀ p, p ∈ frameContents
        (pinUnpinAll ((initBufferPool b0 (some file) n .RS_FIFO sd mem).2, h) ps).1 ↔
      p ∈ ps.drop (ps.length - n) := by
  have hinv := FifoInv_all n ps [] ((initBufferPool b0 (some file) n .RS_FIFO sd mem).2, h)
    (FifoInv_init b0 file n sd mem h0) (by omega) hp (by simpa using hnd)
  rw [List.nil_append] at hinv
  obtain ⟨_, _, hlen, _, _, _, _, _, hmod⟩ := hinv
  have hsub : ps.drop (ps.length - n) ⊆ frameContents
      (pinUnpinAll ((initBufferPool b0 (some file) n .RS_FIFO sd mem).2, h) ps).1 := by
    intro x hx
    obtain ⟨k, hk, e⟩ := List.getElem_of_mem hx
    rw [List.getElem_drop] at e
    rw [List.length_drop] at hk
    have hj : ps.length - n + k < ps.length := by omega
    have := hmod (ps.length - n + k) hj (by omega)
    rw [List.getD_eq_getElem _ _ hj, e] at this
    rw [← this]
    unfold frameContents
    exact List.mem_map_of_mem _ (getD_mem_frames _ _ (by rw [hlen]; exact Nat.mod_lt _ (by omega)))
  have hperm : (ps.drop (ps.length - n)).Perm (frameContents
      (pinUnpinAll ((initBufferPool b0 (some file) n .RS_FIFO sd mem).2, h) ps).1) :=
    (List.subperm_of_subset (hnd.sublist (List.drop_sublist _ _)) hsub).perm_of_length_le
      (by simp only [frameContents, List.length_map, hlen, List.length_drop]; omega)
  exact ⟨hperm.symm, fun p => hperm.symm.mem_iff⟩

set_option maxRecDepth 100000 in
theorem fifo_keeps_last_n_witness :
    (frameContents (pinUnpinAll (samplePool 3 .RS_FIFO, ⟨0, 0⟩) [1, 2, 3, 4]).1).Perm [2, 3, 4] ∧
    frameContents (pinUnpinAll (samplePool 3 .RS_FIFO, ⟨0, 0⟩) [1, 2, 3, 4]).1 = [4, 2, 3] :=
  ⟨(fifo_keeps_last_n freshPool [zeroPage, zeroPage] 3 none (fun _ => zeroPage) ⟨0, 0⟩
      [1, 2, 3, 4] rfl (by decide) (by decide) (by decide) (by decide)).1,
   by decide⟩

/-! ## Slots never allocated, the directory page on disk, scans and pins at the end of the file -/

set_option maxRecDepth 1000000 in
/-- C24: on a fresh table with one record (directory entry 0 has
`recordCount = 1`), `getRecord` of slot 1 and of slot 15 of page 0, slots that
were never allocated, both return `RC_OK`: slot 15 reads its slot entry from
the payload of the record and hands back the eight bytes at offset 0. -/
theorem getRecord_unallocated_slot :
    getUnallocatedSlot =
      some (RC_OK, { page := 0, slot := 0 }, 1,
        (RC_OK, { id := { page := 0, slot := 1 }, data := [120, 0, 0, 0, 0, 0, 0, 0] }),
        (RC_OK, { id := { page := 0, slot := 15 }, data := [120, 0, 0, 0, 0, 0, 0, 0] })) := by
  decide

set_option maxRecDepth 10000000 in
/-- C27: on the freshly created and opened table of a schema whose records
have size 0, after 96 inserts (all `RC_OK`) page 1 on disk decodes to the
directory in memory, and after the 97th insert (`RC_OK`, seventh data page) the
table has `numPages = 7` in memory while page 1 on disk still says
`numPages = 6`: the directory image was sent to page
`(7 / 7) * 7 + numPageDP = 8`. -/
theorem directory_page_stale_after_insert :
    (emptyRecordsTable 96).bind directoryOnDisk = (emptyRecordsTable 96).map directoryInMemory ∧
    ((emptyRecordsTable 97).map fun t => (directoryInMemory t).1) = some 7 ∧
    ((emptyRecordsTable 97).bind fun t => (directoryOnDisk t).map fun d => d.1) = some 6 ∧
    (emptyRecordsTable 97).bind directoryOnDisk ≠ (emptyRecordsTable 97).map directoryInMemory := by
  decide

set_option maxRecDepth 1000000 in
/-- C28: on a fresh table with one record, `startScan`, `next` (`RC_OK`), `next`
(`RC_RM_NO_MORE_TUPLES`) and `closeScan` (`RC_OK`) leave the frame of page 2
with `fix_cnt = 1`, where it was 0 before `startScan`. -/
theorem scan_leaves_page_pinned :
    scanToEnd =
      some ([RC_OK, RC_OK, RC_OK, RC_RM_NO_MORE_TUPLES, RC_OK],
        [(0, 0), (1, 0), (2, 0), (NO_PAGE, 0), (NO_PAGE, 0)],
        [(0, 0), (1, 0), (2, 1), (NO_PAGE, 0), (NO_PAGE, 0)]) := by
  decide

set_option maxRecDepth 1000000 in
/-- C29: on an initialised pool over a two-page file (pages 0 and 1), `pinPage`
of the non-resident page 2 returns `RC_OK`, the file still has two pages
(fewer than `pageNum + 1 = 3`), and the frame now labelled page 2 holds the
bytes its buffer had before, not zeros and not a page of the file. -/
theorem pinPage_at_end_of_file_reads_nothing :
    stalePool.isInitialized_bp = true ∧ stalePool.file.length = 2 ∧
    (2 : Int) ∉ stalePool.frames.map Frames.pageNumber ∧
    (pinPage stalePool ⟨0, 0⟩ 2).1 = RC_OK ∧
    (pinPage stalePool ⟨0, 0⟩ 2).2.1.file.length = 2 ∧
    (pinPage stalePool ⟨0, 0⟩ 2).2.1.frames.map Frames.pageNumber = [2, NO_PAGE, NO_PAGE] ∧
    handleData (pinPage stalePool ⟨0, 0⟩ 2).2.1 (pinPage stalePool ⟨0, 0⟩ 2).2.2 =
      some (List.replicate PAGE_SIZE 7) ∧
    List.replicate PAGE_SIZE 7 ≠ zeroPage := by
  decide

set_option maxRecDepth 1000000 in
/-- C30: on a fresh three-frame pool, `pinPage` of page 0 loads it into a free
frame and returns `RC_OK`, yet `lruCounter` is still 0 and the frame's
`lruOrder` is still 0, not greater than the other frames' `lruOrder`. -/
theorem pinPage_free_frame_no_stamp :
    (samplePool 3 .RS_FIFO).isInitialized_bp = true ∧
    (samplePool 3 .RS_FIFO).lruCounter = 0 ∧
    (pinPage (samplePool 3 .RS_FIFO) ⟨0, 0⟩ 0).1 = RC_OK ∧
    (pinPage (samplePool 3 .RS_FIFO) ⟨0, 0⟩ 0).2.1.lruCounter = 0 ∧
    (pinPage (samplePool 3 .RS_FIFO) ⟨0, 0⟩ 0).2.1.frames.map Frames.pageNumber =
      [0, NO_PAGE, NO_PAGE] ∧
    (pinPage (samplePool 3 .RS_FIFO) ⟨0, 0⟩ 0).2.1.frames.map Frames.lruOrder = [0, 0, 0] := by
  decide

/-! ## `initBufferPool` on an initialised pool, and `markDirty` -/

/-- C21 (counterexample): `initBufferPool` on the three-frame FIFO pool that a
first `initBufferPool` left initialised returns `RC_OK`, not an error code (and
leaves the pool as it was). -/
theorem initBufferPool_again_returns_ok :
    (samplePool 3 .RS_FIFO).isInitialized_bp = true ∧
    ¬ ((initBufferPool (samplePool 3 .RS_FIFO) (some [zeroPage, zeroPage]) 5 .RS_LRU none
        fun _ => zeroPage).1 ≠ RC_OK) ∧
    (initBufferPool (samplePool 3 .RS_FIFO) (some [zeroPage, zeroPage]) 5 .RS_LRU none
        fun _ => zeroPage).2 = samplePool 3 .RS_FIFO := by
  decide

/-- C21 (amended): `initBufferPool` called while a pool is already initialised
returns `RC_OK` and leaves the existing pool unchanged, whatever the file (present
or missing), frame count, strategy and parameter. -/
theorem initBufferPool_initialised (bm : BufferPool) (file : Option PageFile) (n : Nat)
    (strategy : ReplacementStrategy) (stratData : Option Int) (mem : Nat → Page)
    (h : bm.isInitialized_bp = true) :
    initBufferPool bm file n strategy stratData mem = (RC_OK, bm) := by
  unfold initBufferPool
  rw [if_pos h]

theorem initBufferPool_initialised_witness :
    (samplePool 3 .RS_FIFO).isInitialized_bp = true ∧
    initBufferPool (samplePool 3 .RS_FIFO) none 5 .RS_LRU (some 2) (fun _ => zeroPage) =
      (RC_OK, samplePool 3 .RS_FIFO) :=
  ⟨rfl, initBufferPool_initialised (samplePool 3 .RS_FIFO) none 5 .RS_LRU (some 2)
    (fun _ => zeroPage) rfl⟩

/-- C25 (counterexample): on a fresh two-frame pool (both frames empty, not
dirty) `markDirty` with a handle whose `pageNum` is `NO_PAGE` returns `RC_OK`
and sets `dirty` on both frames: more than one frame's flag changes, and no
frame holds a page. -/
theorem markDirty_no_page_handle :
    (samplePool 2 .RS_FIFO).frames.map Frames.pageNumber = [NO_PAGE, NO_PAGE] ∧
    (samplePool 2 .RS_FIFO).frames.map Frames.dirty = [false, false] ∧
    (markDirty (samplePool 2 .RS_FIFO) ⟨NO_PAGE, 0⟩).1 = RC_OK ∧
    (markDirty (samplePool 2 .RS_FIFO) ⟨NO_PAGE, 0⟩).2.frames.map Frames.dirty = [true, true] ∧
    (markDirty (samplePool 2 .RS_FIFO) ⟨NO_PAGE, 0⟩).2 ≠ samplePool 2 .RS_FIFO := by
  decide

/-- The frames after `markDirty` when frame `i` is the only one holding the page. -/
theorem map_dirty_eq_set (fs : List Frames) (p : Int) (i : Nat) (f : Frames)
    (hi : fs[i]? = some f) (hp : f.pageNumber = p)
    (huniq : ∀ (j : Nat) (g : Frames), fs[j]? = some g → g.pageNumber = p → j = i) :
    (fs.map fun g => if g.pageNumber = p then { g with dirty := true } else g) =
      fs.set i { f with dirty := true } := by
  apply List.ext_getElem?
  intro j
  rw [List.getElem?_map, List.getElem?_set]
  by_cases hij : i = j
  · subst hij
    have hlt : i < fs.length := by
      rcases Nat.lt_or_ge i fs.length with h' | h'
      · exact h'
      · rw [List.getElem?_eq_none h'] at hi; cases hi
    simp [hi, hp, hlt]
  · rw [if_neg hij]
    cases hg : fs[j]? with
    | none => rfl
    | some g =>
      simp only [Option.map_some', Option.some.injEq]
      rw [if_neg]
      intro e
      exact hij (huniq j g hg e).symm

theorem filter_ne_length_lt (fs : List Frames) (p : Int) (f : Frames) (hf : f ∈ fs)
    (hp : f.pageNumber = p) :
    (fs.filter fun g => decide (g.pageNumber ≠ p)).length < fs.length := by
  induction fs with
  | nil => simp at hf
  | cons x xs ih =>
    simp only [List.mem_cons] at hf
    by_cases hx : x.pageNumber = p
    · have := List.length_filter_le (fun g : Frames => decide (g.pageNumber ≠ p)) xs
      simp only [List.filter_cons, hx, ne_eq, not_true_eq_false, decide_False,
        Bool.false_eq_true, if_false, List.length_cons]
      simp only [ne_eq] at this
      omega
    · rcases hf with rfl | hf
      · exact absurd hp hx
      · have := ih hf
        simp only [List.filter_cons, ne_eq, hx, not_false_eq_true, decide_True, if_true,
          List.length_cons]
        simp only [ne_eq] at this
        omega

theorem markDirty_absent (bm : BufferPool) (page : BM_PageHandle)
    (h : ∀ f ∈ bm.frames, f.pageNumber ≠ page.pageNum) :
    markDirty bm page = (RC_BP_UNMARK_ERROR, bm) := by
  have hmap : (bm.frames.map fun f =>
      if f.pageNumber = page.pageNum then { f with dirty := true } else f) = bm.frames := by
    conv_rhs => rw [← List.map_id bm.frames]
    apply List.map_congr_left
    intro f hf
    rw [if_neg (h f hf)]
    rfl
  have hfil : (bm.frames.filter fun f => decide (f.pageNumber ≠ page.pageNum)) = bm.frames := by
    apply List.filter_eq_self.mpr
    intro f hf
    simpa using h f hf
  unfold markDirty
  simp only [hmap, hfil, BufferPool.numPages, if_true]

/-- C25 (amended): in every reachable pool state and for every handle with
`pageNum ≥ 0`: if a frame holds `page.pageNum`, `markDirty` returns `RC_OK` and
the pool is the old one with `dirty = true` in that frame and nothing else
changed; if no frame holds it (here for every handle), `markDirty` returns
`RC_BP_UNMARK_ERROR` and the pool is unchanged. -/
theorem markDirty_contract (bm : BufferPool) (h : Reachable bm) (page : BM_PageHandle)
    (hp : 0 ≤ page.pageNum) :
    (∀ (i : Nat) (f : Frames), bm.frames[i]? = some f → f.pageNumber = page.pageNum →
      markDirty bm page =
        (RC_OK, { bm with frames := bm.frames.set i { f with dirty := true } })) ∧
    ((∀ f ∈ bm.frames, f.pageNumber ≠ page.pageNum) →
      markDirty bm page = (RC_BP_UNMARK_ERROR, bm)) := by
  have hinv := (Reachable_inv bm h).1
  refine ⟨?_, markDirty_absent bm page⟩
  intro i f hi hf
  have huniq : ∀ (j : Nat) (g : Frames), bm.frames[j]? = some g →
      g.pageNumber = page.pageNum → j = i := by
    intro j g hj hg
    exact index_unique_of_count _ page.pageNum (hinv.1 _ hp) j i
      (by simp [hj, hg]) (by simp [hi, hf])
  have hmem : f ∈ bm.frames := List.mem_iff_getElem?.mpr ⟨i, hi⟩
  have hlt := filter_ne_length_lt bm.frames page.pageNum f hmem hf
  unfold markDirty
  dsimp only
  rw [map_dirty_eq_set bm.frames page.pageNum i f hi hf huniq]
  rw [if_neg (by simp only [BufferPool.numPages]; omega)]

set_option maxRecDepth 100000 in
theorem markDirty_contract_witness :
    Reachable (pinPage (samplePool 3 .RS_FIFO) ⟨0, 0⟩ 1).2.1 ∧
    (markDirty (pinPage (samplePool 3 .RS_FIFO) ⟨0, 0⟩ 1).2.1 ⟨1, 0⟩).1 = RC_OK ∧
    markDirty (pinPage (samplePool 3 .RS_FIFO) ⟨0, 0⟩ 1).2.1 ⟨2, 0⟩ =
      (RC_BP_UNMARK_ERROR, (pinPage (samplePool 3 .RS_FIFO) ⟨0, 0⟩ 1).2.1) :=
  have hr : Reachable (pinPage (samplePool 3 .RS_FIFO) ⟨0, 0⟩ 1).2.1 :=
    Reachable.pin _ _ _
      (Reachable.init freshPool [zeroPage, zeroPage] 3 .RS_FIFO none (fun _ => zeroPage) rfl
        (by decide) (by intro h; cases h))
  ⟨hr,
   by rw [(markDirty_contract _ hr ⟨1, 0⟩ (by decide)).1 0
        ((pinPage (samplePool 3 .RS_FIFO) ⟨0, 0⟩ 1).2.1.frames.getD 0 default)
        (by decide) (by decide)],
   (markDirty_contract _ hr ⟨2, 0⟩ (by decide)).2 (by decide)⟩

/-! ## Record size, `ensureCapacity` and the page-full test of `createTable` -/

theorem toInt32_add_toInt32 (a b : Int) : toInt32 (toInt32 a + b) = toInt32 (a + b) := by
  unfold toInt32
  dsimp only
  split_ifs <;> omega

theorem toInt32_of_isInt32 (v : Int) (h : isInt32 v) : toInt32 v = v := by
  unfold isInt32 at h
  unfold toInt32
  dsimp only
  split <;> omega

/-- The loop of `getRecordSize` adds the sizes of the attributes it still has to
visit and keeps the low 32 bits of the sum. -/
theorem getRecordSizeLoop_spec (schema : Schema) (fuel i : Nat) (acc : Int)
    (hdt : i + fuel ≤ schema.dataTypes.length)
    (htl : schema.typeLength.length = schema.dataTypes.length) :
    getRecordSizeLoop fuel i schema (toInt32 acc) =
      some (toInt32 (acc + ((((schema.dataTypes.zip schema.typeLength).drop i).take fuel).map
        fun p => attrSize p.1 p.2).sum)) := by
  induction fuel generalizing i acc with
  | zero => simp [getRecordSizeLoop]
  | succ k ih =>
    have hi : i < schema.dataTypes.length := by omega
    have hi2 : i < schema.typeLength.length := by omega
    have hz : i < (schema.dataTypes.zip schema.typeLength).length := by
      simp only [List.length_zip]
      omega
    have hdrop : (schema.dataTypes.zip schema.typeLength).drop i =
        (schema.dataTypes[i], schema.typeLength[i]) ::
          (schema.dataTypes.zip schema.typeLength).drop (i + 1) := by
      rw [List.drop_eq_getElem_cons hz, List.getElem_zip]
    rw [hdrop, List.take_succ_cons, List.map_cons, List.sum_cons]
    unfold getRecordSizeLoop
    simp only [List.getElem?_eq_getElem hi, List.getElem?_eq_getElem hi2]
    have hrec : ∀ a : Int, getRecordSizeLoop k (i + 1) schema (toInt32 a) =
        some (toInt32 (a + ((((schema.dataTypes.zip schema.typeLength).drop (i + 1)).take k).map
          fun p => attrSize p.1 p.2).sum)) := fun a => ih (i + 1) a (by omega)
    generalize ((((schema.dataTypes.zip schema.typeLength).drop (i + 1)).take k).map
      fun p => attrSize p.1 p.2).sum = rest at hrec ⊢
    by_cases h1 : schema.dataTypes[i] = DT_INT
    · rw [if_pos h1, toInt32_add_toInt32, hrec]
      simp only [attrSize, if_pos h1]
      congr 2
      omega
    · rw [if_neg h1]
      by_cases h2 : schema.dataTypes[i] = DT_FLOAT
      · rw [if_pos h2, toInt32_add_toInt32, hrec]
        simp only [attrSize, if_neg h1, if_pos h2]
        congr 2
        omega
      · rw [if_neg h2]
        by_cases h3 : schema.dataTypes[i] = DT_STRING
        · rw [if_pos h3, toInt32_add_toInt32, hrec]
          simp only [attrSize, if_neg h1, if_neg h2, if_pos h3]
          congr 2
          omega
        · rw [if_neg h3]
          by_cases h4 : schema.dataTypes[i] = DT_BOOL
          · rw [if_pos h4, toInt32_add_toInt32, hrec]
            simp only [attrSize, if_neg h1, if_neg h2, if_neg h3, if_pos h4]
            congr 2
            omega
          · rw [if_neg h4, hrec]
            simp only [attrSize, if_neg h1, if_neg h2, if_neg h3, if_neg h4]
            congr 2
            omega

/-- On a schema whose arrays have `numAttr` entries `getRecordSize` returns the
low 32 bits, read as an `int`, of the sum of the attribute sizes. -/
theorem getRecordSize_wrapped (schema : Schema)
    (hn : schema.numAttr = (schema.dataTypes.length : Int))
    (htl : schema.typeLength.length = schema.dataTypes.length) :
    getRecordSize schema = some (toInt32 (recordSizeSpec schema)) := by
  unfold getRecordSize recordSizeSpec
  have h := getRecordSizeLoop_spec schema schema.dataTypes.length 0 0 (by omega) htl
  have hl : (schema.dataTypes.zip schema.typeLength).length = schema.dataTypes.length := by
    simp only [List.length_zip]
    omega
  rw [List.drop_zero, ← hl, List.take_length, Int.zero_add, hl] at h
  rw [hn, Int.toNat_ofNat]
  exact h

/-- C22 (counterexample): for the schema `{a: STRING(2147483647), b: INT}` the
sum of the attribute sizes is 2147483651, and `getRecordSize`, which adds them
up in an `int`, returns -2147483645. -/
theorem getRecordSize_wraps_around :
    recordSizeSpec schemaLongString = 2147483651 ∧
    getRecordSize schemaLongString = some (-2147483645) := by
  decide

/-- C22: for every schema whose `dataTypes` and `typeLength` arrays have
`numAttr` entries, `getRecordSize` returns the sum over the attributes of
`sizeof(int)` for INT, `sizeof(float)` for FLOAT, `typeLength[i]` for STRING and
`sizeof(bool) = 2` for BOOL, an attribute of any other type adding 0, whenever
that sum is in the range of `int`; in general it returns the low 32 bits of
the sum, read as an `int`. -/
theorem getRecordSize_eq_spec (schema : Schema)
    (hn : schema.numAttr = (schema.dataTypes.length : Int))
    (htl : schema.typeLength.length = schema.dataTypes.length) :
    (isInt32 (recordSizeSpec schema) → getRecordSize schema = some (recordSizeSpec schema)) ∧
    getRecordSize schema = some (toInt32 (recordSizeSpec schema)) ∧ SIZEOF_BOOL = 2 := by
  refine ⟨fun h => ?_, getRecordSize_wrapped schema hn htl, rfl⟩
  rw [getRecordSize_wrapped schema hn htl, toInt32_of_isInt32 _ h]

theorem getRecordSize_eq_spec_witness :
    isInt32 (recordSizeSpec schemaAllTypes) ∧ getRecordSize schemaAllTypes = some 14 :=
  have h : isInt32 (recordSizeSpec schemaAllTypes) := by
    unfold isInt32
    decide
  ⟨h, ((getRecordSize_eq_spec schemaAllTypes rfl rfl).1 h).trans (by decide)⟩

/-- The loop of `ensureCapacity` on an open handle appends `k` zero blocks. -/
theorem ensureCapacityLoop_spec (k : Nat) (fHandle : SM_FileHandle) (file : PageFile)
    (hopen : fHandle.mgmtInfo = true) :
    (ensureCapacityLoop k fHandle file).1 = RC_OK ∧
    (ensureCapacityLoop k fHandle file).2.1.totalNumPages = fHandle.totalNumPages + k ∧
    (ensureCapacityLoop k fHandle file).2.1.mgmtInfo = true ∧
    (ensureCapacityLoop k fHandle file).2.2 = file ++ List.replicate k zeroPage := by
  induction k generalizing fHandle file with
  | zero => simp [ensureCapacityLoop, hopen]
  | succ k ih =>
    have happ : appendEmptyBlock fHandle file =
        (RC_OK,
         { fHandle with totalNumPages := fHandle.totalNumPages + 1,
                        curPagePos := fHandle.totalNumPages + 1 - 1 },
         file ++ [zeroPage]) := by
      unfold appendEmptyBlock
      rw [if_neg (by simp [hopen])]
    unfold ensureCapacityLoop
    rw [happ]
    dsimp only
    rw [if_neg (by simp)]
    obtain ⟨h1, h2, h3, h4⟩ := ih
      { fHandle with totalNumPages := fHandle.totalNumPages + 1,
                     curPagePos := fHandle.totalNumPages + 1 - 1 }
      (file ++ [zeroPage]) hopen
    refine ⟨h1, ?_, h3, ?_⟩
    · rw [h2]
      push_cast
      omega
    · rw [h4, List.append_assoc, List.replicate_succ]
      rfl

/-- C26: for a file handle that counts the `t` pages of its file and every `n`:
if `ensureCapacity(n)` returns `RC_OK`, the file afterwards is the old file
followed by `n - t` blocks of `PAGE_SIZE` zero bytes (none when `n ≤ t`), so it
has exactly `max(t, n)` pages, its first `t` pages are unchanged, and the
handle counts `max(t, n)` pages. -/
theorem ensureCapacity_spec (n : Int) (fHandle : SM_FileHandle) (file : PageFile)
    (hsync : fHandle.totalNumPages = (file.length : Int))
    (hok : (ensureCapacity n fHandle file).1 = RC_OK) :
    (ensureCapacity n fHandle file).2.2 =
      file ++ List.replicate (n - (file.length : Int)).toNat (List.replicate PAGE_SIZE 0) ∧
    ((ensureCapacity n fHandle file).2.2.length : Int) = max (file.length : Int) n ∧
    (ensureCapacity n fHandle file).2.2.take file.length = file ∧
    (∀ p ∈ (ensureCapacity n fHandle file).2.2.drop file.length, p = List.replicate PAGE_SIZE 0) ∧
    (ensureCapacity n fHandle file).2.1.totalNumPages = max (file.length : Int) n := by
  have hopen : fHandle.mgmtInfo = true := by
    cases hm : fHandle.mgmtInfo with
    | true => rfl
    | false =>
      unfold ensureCapacity at hok
      rw [if_pos hm] at hok
      simp [RC_FILE_HANDLE_NOT_INIT, RC_OK] at hok
  have hfile : (ensureCapacity n fHandle file).2.2 =
      file ++ List.replicate (n - (file.length : Int)).toNat zeroPage ∧
      (ensureCapacity n fHandle file).2.1.totalNumPages =
        (file.length : Int) + ((n - (file.length : Int)).toNat : Int) := by
    unfold ensureCapacity
    rw [if_neg (by simp [hopen])]
    split
    · obtain ⟨_, h2, _, h4⟩ :=
        ensureCapacityLoop_spec (n - fHandle.totalNumPages).toNat fHandle file hopen
      rw [h4, h2, hsync]
      exact ⟨rfl, rfl⟩
    · rename_i hge
      have h0 : (n - (file.length : Int)).toNat = 0 := by
        rw [hsync] at hge
        omega
      rw [h0]
      simp [hsync]
  obtain ⟨hf, ht⟩ := hfile
  rw [hf, ht]
  refine ⟨rfl, ?_, ?_, ?_, ?_⟩
  · rw [List.length_append, List.length_replicate]
    push_cast
    omega
  · simp
  · intro p hp
    rw [List.drop_left] at hp
    exact List.eq_of_mem_replicate hp
  · omega

theorem ensureCapacity_spec_witness :
    (ensureCapacity 4 (openPageFile [zeroPage, zeroPage]) [zeroPage, zeroPage]).2.2.length = 4 :=
  Int.ofNat_inj.mp
    ((ensureCapacity_spec 4 (openPageFile [zeroPage, zeroPage]) [zeroPage, zeroPage] rfl
      (by decide)).2.1.trans (by decide))

theorem cnames_length_sum (names : List (List Nat)) :
    ((cnames names).length : Int) = (names.map fun nm => (nm.length : Int) + 1).sum := by
  induction names with
  | nil => simp [cnames]
  | cons nm names ih =>
    rw [cnames_cons, List.map_cons, List.sum_cons, ← ih]
    simp only [List.length_append, List.length_cons, List.length_nil]
    push_cast
    omega

theorem schemaEncodedLength_eq (S : Schema) (hwf : S.WellFormed) :
    schemaEncodedLength S = ((schemaBytes S).length : Int) := by
  unfold schemaEncodedLength
  rw [schemaBytes_length, ← cnames_length_sum, hwf.numAttr_eq, hwf.keySize_eq, hwf.dataTypes_len,
    hwf.typeLength_len]
  simp only [SIZEOF_INT]
  push_cast
  omega

set_option maxRecDepth 1000000 in
theorem initialDirectoryPage_length :
    initialDirectoryPage.map List.length = some PAGE_SIZE := by
  decide

/-- C23: for every well-formed schema (so `numAttr ≥ 0` and `keySize ≥ 0`) and a
name no file has yet, `createTable` runs without writing outside its page
buffer and returns `RC_PAGE_FULL` exactly when the encoded length
`sizeof(int) + Σ (strlen(name_i) + 1) + numAttr * sizeof(int) +
numAttr * sizeof(int) + sizeof(int) + keySize * sizeof(int)` exceeds
`PAGE_SIZE`; otherwise it returns `RC_OK` and leaves two blocks of `PAGE_SIZE`
bytes, the first starting with the encoded schema. -/
theorem createTable_page_full_iff (S : Schema) (hwf : S.WellFormed) :
    ∃ (rc : RC) (file : PageFile), createTable S = some (rc, file) ∧
      (rc = RC_PAGE_FULL ↔ schemaEncodedLength S > (PAGE_SIZE : Int)) ∧
      (¬ schemaEncodedLength S > (PAGE_SIZE : Int) →
        rc = RC_OK ∧ file.length = 2 ∧ (∀ p ∈ file, p.length = PAGE_SIZE) ∧
        ∃ rest, file[0]? = some (schemaBytes S ++ rest)) := by
  obtain ⟨hok, hfull⟩ := createTable_spec S hwf
  have hlen := schemaEncodedLength_eq S hwf
  by_cases hle : (schemaBytes S).length ≤ PAGE_SIZE
  · obtain ⟨dirPage, hd, hc⟩ := hok hle
    have hnot : ¬ schemaEncodedLength S > (PAGE_SIZE : Int) := by
      rw [hlen]
      omega
    refine ⟨_, _, hc, ⟨fun h => ?_, fun h => absurd h hnot⟩, fun _ => ⟨rfl, rfl, ?_, _, rfl⟩⟩
    · simp [RC_OK, RC_PAGE_FULL] at h
    · intro p hp
      simp only [List.mem_cons, List.mem_singleton, List.not_mem_nil, or_false] at hp
      rcases hp with rfl | rfl
      · rw [List.length_append, List.length_replicate]
        omega
      · have := initialDirectoryPage_length
        rw [hd] at this
        simpa using this
  · have hgt : schemaEncodedLength S > (PAGE_SIZE : Int) := by
      rw [hlen]
      omega
    exact ⟨_, _, hfull hle, ⟨fun _ => hgt, fun _ => rfl⟩, fun h => absurd hgt h⟩

set_option maxRecDepth 100000 in
theorem createTable_page_full_iff_witness :
    schemaIntStr4.WellFormed ∧ ¬ schemaEncodedLength schemaIntStr4 > (PAGE_SIZE : Int) ∧
    ∃ (rc : RC) (file : PageFile), createTable schemaIntStr4 = some (rc, file) ∧ rc = RC_OK :=
  match createTable_page_full_iff schemaIntStr4 schemaIntStr4_wellFormed with
  | ⟨rc, file, h1, _, h3⟩ =>
    ⟨schemaIntStr4_wellFormed, by decide, rc, file, h1, (h3 (by decide)).1⟩

/-! ## Flushing with pinned frames, page arithmetic of scans, free-space accounting -/

set_option maxRecDepth 1000000 in
/-- C32 (counterexample): on an initialised pool whose frame 0 is pinned and
whose frame 1 holds page 1 dirty and unpinned, `forceFlushPool` returns
`RC_BP_FLUSHPOOL_FAILED` at frame 0 and never reaches frame 1: page 1 stays
dirty, nothing is written and `writtenToDisk` stays 0. -/
theorem forceFlushPool_stops_at_pinned_frame :
    pinnedThenDirtyPool.isInitialized_bp = true ∧
    (pinnedThenDirtyPool.frames.map fun f => (f.pageNumber, f.dirty, f.fix_cnt)) =
      [(0, false, 1), (1, true, 0), (NO_PAGE, false, 0)] ∧
    (forceFlushPool pinnedThenDirtyPool).1 = RC_BP_FLUSHPOOL_FAILED ∧
    ((forceFlushPool pinnedThenDirtyPool).2.frames.map fun f => (f.pageNumber, f.dirty, f.fix_cnt)) =
      [(0, false, 1), (1, true, 0), (NO_PAGE, false, 0)] ∧
    (forceFlushPool pinnedThenDirtyPool).2.file = pinnedThenDirtyPool.file ∧
    ( getNumWriteIO pinnedThenDirtyPool) = 0 ∧
    ( getNumWriteIO (forceFlushPool pinnedThenDirtyPool).2) = 0 := by
  decide

set_option maxHeartbeats 4000000 in
set_option maxRecDepth 10000000 in
/-- C33: on the table of `schemaEmpty` after 113 inserts (`numPages = 8`,
`numPageDP = 1`), a scan that visits the data page indices 0..7 pins physical
page `ceiling(8, 7) + 1 + 7 = 10` for index 7, while `getRecord` pins physical
page `7 + numPageDP + 1 = 9` for `rid.page = 7`. -/
theorem scan_and_getRecord_pin_different_pages :
    scanVersusGet = some ((8, 1), RC_RM_NO_MORE_TUPLES, 8, 10, RC_OK, 9) ∧
    ceiling (7 + 1) maxEntriesInPD + 1 + 7 = 10 ∧ (7 : Int) + 1 + 1 = 9 := by
  decide

set_option maxRecDepth 1000000 in
/-- C34: on a fresh table with records of size 8, an insert takes
`freeSpace` of data page 0 from 128 to 112 (`recordSize + sizeof(SlotDirectoryEntry) = 16`),
and `deleteRecord` of the returned id adds the slot's `offset - slot * 8 = 120`,
not 16: `freeSpace` ends at 232, not back at 128. -/
theorem delete_adds_offset_not_size :
    freeSpaceTrace = some ([RC_OK, RC_OK], some 128, some 112, some 232, 8, 120) ∧
    (120 : Int) - 0 * SIZEOF_SLOT ≠ 8 + SIZEOF_SLOT := by
  decide

set_option maxRecDepth 1000000 in
/-- C35: on a fresh table with one record of size 8, `updateRecord` with a new
payload takes the in-place path (`RC_OK`, id unchanged) and changes `freeSpace`
of the page from 112 to 224, although the record has not grown. -/
theorem update_in_place_changes_free_space :
    updateInPlaceTrace =
      some ([RC_OK, RC_OK], { page := 0, slot := 0 }, { page := 0, slot := 0 },
        some { pageID := 0, hasFreeSlot := 1, freeSpace := 112, recordCount := 1 },
        some { pageID := 0, hasFreeSlot := 1, freeSpace := 224, recordCount := 1 }) := by
  decide

set_option maxRecDepth 1000000 in
/-- C36: after inserting `{1, "a"}` and `{2, "b"}` and deleting the first,
`getRecord` of the second (id `{0, 1}`) returns its payload; after one more
insert, of `{3, "c"}` (id `{0, 0}`), `getRecord` of `{0, 1}` returns `RC_OK`
with the payload of `{3, "c"}`. -/
theorem insert_overwrites_live_record :
    getAroundInsert =
      some ([RC_OK, RC_OK, RC_OK, RC_OK], [{ page := 0, slot := 1 }, { page := 0, slot := 0 }],
        [(RC_OK, (mkRecord 2 [98] 4).data), (RC_OK, (mkRecord 3 [99] 4).data)]) ∧
    (mkRecord 2 [98] 4).data ≠ (mkRecord 3 [99] 4).data := by
  decide

set_option maxRecDepth 1000000 in
/-- C37: for the schema `{a: INT, b: STRING(4)}` (record size 8, so
`recordSize + sizeof(SlotDirectoryEntry) ≤ PAGE_SIZE`), after one insert and
the delete of that record the directory entry of data page 0 has
`freeSpace = 232 > PAGE_SIZE`. -/
theorem free_space_exceeds_page_size :
    getRecordSize schemaIntStr4 = some 8 ∧
    freeSpaceOfPage0 tableAfterInsert = some 112 ∧
    freeSpaceOfPage0 tableAfterDelete = some 232 ∧ ¬ ((232 : Int) ≤ PAGE_SIZE) := by
  decide

set_option maxRecDepth 1000000 in
/-- C39: on the handle `openPageFile` returns for a one-page file, `writeBlock`
at `pageNum = totalNumPages = 1` returns `RC_OK` and the file then has two
pages, while the handle still has `totalNumPages = 1`. -/
theorem writeBlock_leaves_totalNumPages :
    (openPageFile [zeroPage]).totalNumPages = 1 ∧
    (writeBlock 1 (openPageFile [zeroPage]) [zeroPage] zeroPage).1 = RC_OK ∧
    (writeBlock 1 (openPageFile [zeroPage]) [zeroPage] zeroPage).2.2.length = 2 ∧
    (writeBlock 1 (openPageFile [zeroPage]) [zeroPage] zeroPage).2.1.totalNumPages = 1 := by
  decide

/-! ## Write-back on eviction -/

theorem storePage_eq (file : PageFile) (q : Int) (buf : Page) :
    storePage file q buf =
      if q < 0 ∨ q > (file.length : Int) then file else fwriteBlock file q buf := by
  unfold storePage writeBlock openPageFile
  simp only [Bool.true_eq_false, if_false]
  split <;> rfl

theorem storePage_length_ge (file : PageFile) (q : Int) (buf : Page) :
    file.length ≤ (storePage file q buf).length := by
  rw [storePage_eq]
  split
  · exact le_refl _
  · unfold fwriteBlock
    split
    · exact le_refl _
    · split
      · simp
      · simp only [List.length_append, List.length_replicate, List.length_singleton]
        omega

/-- After the write-back of `buf` as page `q` (inside the file or at its end)
the file has `buf` as page `q`. -/
theorem storePage_get_self (file : PageFile) (q : Int) (buf : Page) (h0 : 0 ≤ q)
    (h1 : q ≤ (file.length : Int)) : (storePage file q buf)[q.toNat]? = some buf := by
  rw [storePage_eq, if_neg (by omega)]
  unfold fwriteBlock
  rw [if_neg (by omega)]
  split
  · rename_i hlt
    simp [hlt]
  · rename_i hge
    have e : q.toNat - file.length = 0 := by omega
    have e2 : q.toNat = file.length := by omega
    rw [e, e2]
    simp

/-- A write-back of another page leaves page `q` of the file as it was. -/
theorem storePage_get_other (file : PageFile) (q q1 : Int) (buf b : Page) (h0 : 0 ≤ q)
    (hne : q1 ≠ q) (hq : file[q.toNat]? = some b) : (storePage file q1 buf)[q.toNat]? = some b := by
  have hlt : q.toNat < file.length := by
    rcases Nat.lt_or_ge q.toNat file.length with h' | h'
    · exact h'
    · rw [List.getElem?_eq_none h'] at hq; cases hq
  rw [storePage_eq]
  split
  · exact hq
  · unfold fwriteBlock
    split
    · exact hq
    · split
      · rw [List.getElem?_set_ne (by omega)]
        exact hq
      · rw [List.append_assoc, List.getElem?_append_left hlt]
        exact hq

theorem loadPage_file (file : PageFile) (p : Int) (m : Page) :
    (loadPage file p m).1 = file ++ List.replicate (p - (file.length : Int)).toNat zeroPage := by
  unfold loadPage ensureCapacity
  simp only [openPageFile, Bool.true_eq_false, if_false]
  split
  · exact (ensureCapacityLoop_spec _ _ file rfl).2.2.2
  · rename_i hge
    have h0 : (p - (file.length : Int)).toNat = 0 := by omega
    rw [h0]
    simp

theorem loadPage_length (file : PageFile) (p : Int) (m : Page) :
    file.length ≤ (loadPage file p m).1.length ∧ p ≤ ((loadPage file p m).1.length : Int) := by
  rw [loadPage_file, List.length_append, List.length_replicate]
  constructor
  · omega
  · push_cast
    omega

theorem forcePageLoop_file_length (p : Int) (file : PageFile) (w c : Int) (fs : List Frames) :
    file.length ≤ (forcePageLoop p file w c fs).2.1.length := by
  induction fs generalizing file w c with
  | nil => simp [forcePageLoop]
  | cons f fs ih =>
    unfold forcePageLoop
    split
    · exact le_trans (storePage_length_ge file _ _) (ih _ _ _)
    · exact ih _ _ _

theorem forceFlushLoop_file_length (file : PageFile) (w c : Int) (fs : List Frames) :
    file.length ≤ (forceFlushLoop file w c fs).2.2.1.length := by
  induction fs generalizing file w c with
  | nil => simp [forceFlushLoop]
  | cons f fs ih =>
    unfold forceFlushLoop
    split
    · exact le_trans (storePage_length_ge file _ _) (ih _ _ _)
    · split
      · exact le_refl _
      · exact ih _ _ _

/-- What `pinPage` does to the file, the read counter and the frame array. -/
theorem pinPage_file_facts (bm : BufferPool) (page : BM_PageHandle) (pageNum : Int) :
    bm.file.length ≤ (pinPage bm page pageNum).2.1.file.length ∧
    bm.readFromDisk ≤ (pinPage bm page pageNum).2.1.readFromDisk ∧
    (pinPage bm page pageNum).2.1.frames.length = bm.frames.length ∧
    ∀ p ∈ (pinPage bm page pageNum).2.1.frames.map Frames.pageNumber,
      p ∈ bm.frames.map Frames.pageNumber ∨
      (0 ≤ p ∧ p ≤ ((pinPage bm page pageNum).2.1.file.length : Int)) := by
  have hsame : bm.file.length ≤ bm.file.length ∧ bm.readFromDisk ≤ bm.readFromDisk ∧
      bm.frames.length = bm.frames.length ∧
      ∀ p ∈ bm.frames.map Frames.pageNumber,
        p ∈ bm.frames.map Frames.pageNumber ∨ (0 ≤ p ∧ p ≤ (bm.file.length : Int)) :=
    ⟨le_refl _, le_refl _, rfl, fun p hp => Or.inl hp⟩
  unfold pinPage
  split
  · exact hsame
  split
  · exact hsame
  rename_i hneg
  have hp0 : 0 ≤ pageNum := by omega
  cases hfind : findPage pageNum bm.frames with
  | some i =>
    obtain ⟨f, hf, hfp, _⟩ := findPage_some _ _ _ hfind
    have hget : bm.frames.getD i default = f := by simp [List.getD, hf]
    refine ⟨le_refl _, le_refl _, by simp, ?_⟩
    intro p hp
    dsimp only at hp
    rw [hget, map_set_same Frames.pageNumber _ _ f _ hf (by rfl)] at hp
    exact Or.inl hp
  | none =>
    dsimp only
    cases hfree : findPage NO_PAGE bm.frames with
    | some i =>
      have hl := loadPage_length bm.file pageNum (bm.frames.getD i default).memPage
      refine ⟨hl.1, ?_, ?_, ?_⟩
      · dsimp only
        omega
      · simp
      · intro p hp
        dsimp only at hp ⊢
        rw [List.map_set] at hp
        rcases List.mem_or_eq_of_mem_set hp with hp | hp
        · exact Or.inl hp
        · rw [hp]
          exact Or.inr ⟨hp0, hl.2⟩
    | none =>
      dsimp only
      have hrep : ∀ v : Nat,
          bm.file.length ≤ (replaceFrame bm v pageNum).1.file.length ∧
          bm.readFromDisk ≤ (replaceFrame bm v pageNum).1.readFromDisk ∧
          (replaceFrame bm v pageNum).1.frames.length = bm.frames.length ∧
          ∀ p ∈ (replaceFrame bm v pageNum).1.frames.map Frames.pageNumber,
            p ∈ bm.frames.map Frames.pageNumber ∨
            (0 ≤ p ∧ p ≤ ((replaceFrame bm v pageNum).1.file.length : Int)) := by
        intro v
        unfold replaceFrame
        dsimp only
        refine ⟨?_, by omega, by simp, ?_⟩
        · refine le_trans ?_ (loadPage_length _ pageNum _).1
          split
          · exact storePage_length_ge _ _ _
          · exact le_refl _
        · intro p hp
          rw [List.map_set] at hp
          rcases List.mem_or_eq_of_mem_set hp with hp | hp
          · exact Or.inl hp
          · rw [hp]
            exact Or.inr ⟨hp0, (loadPage_length _ pageNum _).2⟩
      cases hs : bm.strategy with
      | RS_FIFO =>
        dsimp only
        unfold FIFO
        dsimp only
        cases hscan : (fifoScan bm.frames bm.numPages
            (Int.tmod bm.readFromDisk (bm.numPages : Int)) 0).1 with
        | none => split <;> exact hsame
        | some idx => split <;> exact hrep idx.toNat
      | RS_LRU => exact hrep _
      | RS_LRU_K => exact hrep _
      | RS_OTHER => exact hsame

/-- In a reachable pool the read counter is not negative, there is at least
one frame, and every frame is empty or holds a page that lies inside the file
or right at its end. -/
theorem Reachable_file_inv (bm : BufferPool) (h : Reachable bm) :
    0 ≤ bm.readFromDisk ∧ 0 < bm.frames.length ∧
    ∀ p ∈ bm.frames.map Frames.pageNumber, NO_PAGE ≤ p ∧ p ≤ (bm.file.length : Int) := by
  induction h with
  | init bm0 file numPages strategy stratData mem h0 hn hk =>
    unfold initBufferPool
    rw [if_neg (by simp [h0])]
    refine ⟨le_refl _, by simp [initFrames, hn], ?_⟩
    intro p hp
    simp only [initFrames, List.map_map, List.mem_map, List.mem_range, Function.comp] at hp
    obtain ⟨i, _, rfl⟩ := hp
    simp only [NO_PAGE]
    omega
  | pin bm page pageNum _ ih =>
    obtain ⟨h1, h2, h3⟩ := ih
    obtain ⟨f1, f2, f3, f4⟩ := pinPage_file_facts bm page pageNum
    refine ⟨by omega, by omega, ?_⟩
    intro p hp
    rcases f4 p hp with hp | hp
    · have := h3 p hp
      omega
    · simp only [NO_PAGE]
      omega
  | unpin bm page _ ih =>
    obtain ⟨h1, h2, h3⟩ := ih
    unfold unpinPage
    dsimp only
    refine ⟨h1, ?_, ?_⟩
    · have := congrArg List.length (unpinLoop_pageNumber page.pageNum bm.frames)
      simp only [List.length_map] at this
      omega
    · rw [unpinLoop_pageNumber]
      exact h3
  | dirty bm page _ ih =>
    obtain ⟨h1, h2, h3⟩ := ih
    have hfile : (markDirty bm page).2.file = bm.file ∧
        (markDirty bm page).2.readFromDisk = bm.readFromDisk := by
      unfold markDirty
      dsimp only
      split <;> exact ⟨rfl, rfl⟩
    have hl := congrArg List.length (markDirty_fields bm page).1
    simp only [List.length_map] at hl
    rw [hfile.1, hfile.2, (markDirty_fields bm page).1]
    exact ⟨h1, by omega, h3⟩
  | force bm page _ ih =>
    obtain ⟨h1, h2, h3⟩ := ih
    have hfr : (forcePage bm page).2.frames =
        (forcePageLoop page.pageNum bm.file bm.writtenToDisk 0 bm.frames).1 ∧
        (forcePage bm page).2.file =
          (forcePageLoop page.pageNum bm.file bm.writtenToDisk 0 bm.frames).2.1 ∧
        (forcePage bm page).2.readFromDisk = bm.readFromDisk := by
      unfold forcePage
      dsimp only
      split <;> exact ⟨rfl, rfl, rfl⟩
    have hf := (forcePageLoop_fields page.pageNum bm.file bm.writtenToDisk 0 bm.frames).1
    have hl := congrArg List.length hf
    simp only [List.length_map] at hl
    have hlen := forcePageLoop_file_length page.pageNum bm.file bm.writtenToDisk 0 bm.frames
    rw [hfr.1, hfr.2.1, hfr.2.2, hf]
    refine ⟨h1, by omega, ?_⟩
    intro p hp
    have := h3 p hp
    omega
  | flush bm _ ih =>
    obtain ⟨h1, h2, h3⟩ := ih
    have hfr : ((forceFlushPool bm).2.frames = bm.frames ∧ (forceFlushPool bm).2.file = bm.file ∨
        (forceFlushPool bm).2.frames = (forceFlushLoop bm.file bm.writtenToDisk 0 bm.frames).2.1 ∧
        (forceFlushPool bm).2.file =
          (forceFlushLoop bm.file bm.writtenToDisk 0 bm.frames).2.2.1) ∧
        (forceFlushPool bm).2.readFromDisk = bm.readFromDisk := by
      unfold forceFlushPool
      split
      · exact ⟨Or.inl ⟨rfl, rfl⟩, rfl⟩
      · dsimp only
        split
        · exact ⟨Or.inr ⟨rfl, rfl⟩, rfl⟩
        · split <;> exact ⟨Or.inr ⟨rfl, rfl⟩, rfl⟩
    rw [hfr.2]
    rcases hfr.1 with ⟨e1, e2⟩ | ⟨e1, e2⟩
    · rw [e1, e2]
      exact ⟨h1, h2, h3⟩
    · have hf := (forceFlushLoop_fields bm.file bm.writtenToDisk 0 bm.frames).1
      have hl := congrArg List.length hf
      simp only [List.length_map] at hl
      have hlen := forceFlushLoop_file_length bm.file bm.writtenToDisk 0 bm.frames
      rw [e1, e2, hf]
      refine ⟨h1, by omega, ?_⟩
      intro p hp
      have := h3 p hp
      omega

theorem fifoScan_range (frames : List Frames) (fuel : Nat) (s ce idx : Int)
    (h0 : 0 ≤ s) (h1 : s < (frames.length : Int))
    (h : (fifoScan frames fuel s ce).1 = some idx) : 0 ≤ idx ∧ idx < (frames.length : Int) := by
  induction fuel generalizing s ce with
  | zero => simp [fifoScan] at h
  | succ k ih =>
    unfold fifoScan at h
    split at h
    · simp only [Option.some.injEq] at h
      omega
    · have hs : s + 1 = ((s.toNat + 1 : Nat) : Int) := by omega
      have hm : Int.tmod (s + 1) (frames.length : Int) =
          (((s.toNat + 1) % frames.length : Nat) : Int) := by
        rw [hs, tmod_natCast]
      have hlt : (s.toNat + 1) % frames.length < frames.length := Nat.mod_lt _ (by omega)
      exact ih _ _ (by rw [hm]; omega) (by rw [hm]; omega) h

theorem lruKScan_range (target : Int) (fs : List Frames) (i : Nat) :
    lruKScan target fs i = 0 ∨ (i ≤ lruKScan target fs i ∧ lruKScan target fs i < i + fs.length) := by
  induction fs generalizing i with
  | nil => exact Or.inl rfl
  | cons f fs ih =>
    unfold lruKScan
    split
    · exact Or.inr ⟨le_refl _, by simp⟩
    · rcases ih (i + 1) with h | h
      · exact Or.inl h
      · refine Or.inr ⟨by omega, ?_⟩
        simp only [List.length_cons]
        omega

theorem lruKVictim_lt (frames : List Frames) (k : Int) (hn : 0 < frames.length) :
    lruKVictim frames k < frames.length := by
  unfold lruKVictim
  dsimp only
  rcases lruKScan_range (getI (quickSort (frames.map Frames.lruOrder) 0
      ((frames.length : Int) - 1)) ((frames.length : Int) - k)) frames 0 with h | h
  · rw [h]
    exact hn
  · omega

/-- A miss on a full pool that returns `RC_OK` has replaced a frame of the pool. -/
theorem pinPage_full_miss (bm : BufferPool) (page : BM_PageHandle) (pageNum : Int)
    (hr : 0 ≤ bm.readFromDisk) (hn : 0 < bm.frames.length)
    (hinit : bm.isInitialized_bp = true) (hp : 0 ≤ pageNum)
    (hmiss : pageNum ∉ bm.frames.map Frames.pageNumber)
    (hfull : NO_PAGE ∉ bm.frames.map Frames.pageNumber)
    (hok : (pinPage bm page pageNum).1 = RC_OK) :
    ∃ v : Nat, v < bm.frames.length ∧
      pinPage bm page pageNum = (RC_OK, replaceFrame bm v pageNum) := by
  unfold pinPage at hok ⊢
  rw [if_neg (by simp [hinit]), if_neg (by omega)] at hok ⊢
  simp only [(findPage_none _ _).mpr hmiss, (findPage_none _ _).mpr hfull] at hok ⊢
  cases hs : bm.strategy with
  | RS_FIFO =>
    simp only [hs] at hok ⊢
    obtain ⟨idx, hscan, h2⟩ := FIFO_ok bm page pageNum hok
    have hstart : Int.tmod bm.readFromDisk (bm.numPages : Int) =
        ((bm.readFromDisk.toNat % bm.frames.length : Nat) : Int) := by
      rw [← tmod_natCast, Int.toNat_of_nonneg hr]
      rfl
    have hlt : bm.readFromDisk.toNat % bm.frames.length < bm.frames.length := Nat.mod_lt _ hn
    have hrange := fifoScan_range bm.frames bm.numPages _ 0 idx
      (by rw [hstart]; omega) (by rw [hstart]; omega) hscan
    refine ⟨idx.toNat, by omega, ?_⟩
    rw [← h2, ← hok]
  | RS_LRU => exact ⟨_, (lruVictim_spec bm.frames hn).1, rfl⟩
  | RS_LRU_K => exact ⟨_, lruKVictim_lt bm.frames _ hn, rfl⟩
  | RS_OTHER =>
    simp only [hs] at hok
    simp [RC_BP_PIN_ERROR, RC_OK] at hok

/-- The buffer the handle points to after `replaceFrame` of a frame of the pool. -/
theorem replaceFrame_handleData (bm : BufferPool) (v : Nat) (pageNum : Int)
    (hv : v < bm.frames.length) :
    handleData (replaceFrame bm v pageNum).1 (replaceFrame bm v pageNum).2 =
      some (loadPage
        (if (bm.frames.getD v default).dirty then
          storePage bm.file (bm.frames.getD v default).pageNumber (bm.frames.getD v default).memPage
        else bm.file) pageNum (bm.frames.getD v default).memPage).2 := by
  simp [replaceFrame, handleData, hv]

/-- A miss on a full pool that returns `RC_OK` loads the file's page when the
file has it. -/
theorem pinPage_full_miss_loads (bm : BufferPool) (page : BM_PageHandle) (q : Int) (buf : Page)
    (hr : 0 ≤ bm.readFromDisk) (hn : 0 < bm.frames.length)
    (hinit : bm.isInitialized_bp = true) (hq : 0 ≤ q)
    (hmiss : q ∉ bm.frames.map Frames.pageNumber)
    (hfull : NO_PAGE ∉ bm.frames.map Frames.pageNumber)
    (hfile : bm.file[q.toNat]? = some buf)
    (hok : (pinPage bm page q).1 = RC_OK) :
    handleData (pinPage bm page q).2.1 (pinPage bm page q).2.2 = some buf := by
  obtain ⟨v, hv, hpin⟩ := pinPage_full_miss bm page q hr hn hinit hq hmiss hfull hok
  rw [hpin]
  dsimp only
  rw [replaceFrame_handleData bm v q hv]
  have hne : (bm.frames.getD v default).pageNumber ≠ q := by
    intro e
    exact hmiss (List.mem_map.mpr ⟨_, getD_mem_frames _ _ hv, e⟩)
  have hfile1 : (if (bm.frames.getD v default).dirty then
      storePage bm.file (bm.frames.getD v default).pageNumber (bm.frames.getD v default).memPage
      else bm.file)[q.toNat]? = some buf := by
    split
    · exact storePage_get_other _ _ _ _ _ hq hne hfile
    · exact hfile
  rw [loadPage_of_present _ q _ buf hq hfile1]

/-- C31: in every reachable pool that is full, whatever the strategy, when a
`pinPage` miss returns `RC_OK` it has evicted a frame `v` holding a page `q`:
if that frame was dirty its buffer was stored as page `q` of the file before
the new page was loaded from that file, and the write counter grew by one (by
zero for a clean victim); the frame ends with `pageNumber = pageNum`,
`fix_cnt = 1`, `dirty = false`, no other frame changed; and a later `pinPage`
of `q` that returns `RC_OK` yields the bytes the evicted buffer held. -/
theorem eviction_writes_back (bm : BufferPool) (h : Reachable bm) (page : BM_PageHandle)
    (pageNum : Int) (hp : 0 ≤ pageNum)
    (hmiss : pageNum ∉ bm.frames.map Frames.pageNumber)
    (hfull : NO_PAGE ∉ bm.frames.map Frames.pageNumber)
    (hok : (pinPage bm page pageNum).1 = RC_OK) :
    ∃ (v : Nat) (f : Frames), bm.frames[v]? = some f ∧ 0 ≤ f.pageNumber ∧
      (pinPage bm page pageNum).2.2 = { pageNum := pageNum, data := v } ∧
      (∃ g : Frames, g.pageNumber = pageNum ∧ g.fix_cnt = 1 ∧ g.dirty = false ∧
        g.memPage = (loadPage
          (if f.dirty then storePage bm.file f.pageNumber f.memPage else bm.file)
          pageNum f.memPage).2 ∧
        (pinPage bm page pageNum).2.1.frames = bm.frames.set v g) ∧
      ( getNumWriteIO (pinPage bm page pageNum).2.1) =
        ( getNumWriteIO bm) + (if f.dirty then 1 else 0) ∧
      (f.dirty = true →
        (storePage bm.file f.pageNumber f.memPage)[f.pageNumber.toNat]? = some f.memPage ∧
        (pinPage bm page pageNum).2.1.file[f.pageNumber.toNat]? = some f.memPage ∧
        ∀ page2 : BM_PageHandle,
          (pinPage (pinPage bm page pageNum).2.1 page2 f.pageNumber).1 = RC_OK →
          handleData (pinPage (pinPage bm page pageNum).2.1 page2 f.pageNumber).2.1
            (pinPage (pinPage bm page pageNum).2.1 page2 f.pageNumber).2.2 = some f.memPage) := by
  obtain ⟨hinv, hinit⟩ := Reachable_inv bm h
  obtain ⟨hr, hn, hpages⟩ := Reachable_file_inv bm h
  have hreach1 : Reachable (pinPage bm page pageNum).2.1 := Reachable.pin bm page pageNum h
  obtain ⟨hr1, hn1, _⟩ := Reachable_file_inv _ hreach1
  have hinit1 := (Reachable_inv _ hreach1).2
  obtain ⟨v, hv, hpin⟩ := pinPage_full_miss bm page pageNum hr hn hinit hp hmiss hfull hok
  have hf : bm.frames[v]? = some (bm.frames.getD v default) := by
    rw [List.getD_eq_getElem _ _ hv, List.getElem?_eq_getElem]
  have hmem : (bm.frames.getD v default).pageNumber ∈ bm.frames.map Frames.pageNumber :=
    List.mem_map_of_mem _ (getD_mem_frames _ _ hv)
  have hq0 : 0 ≤ (bm.frames.getD v default).pageNumber := by
    have h1 := (hpages _ hmem).1
    have h2 : (bm.frames.getD v default).pageNumber ≠ NO_PAGE := fun e => hfull (e ▸ hmem)
    simp only [NO_PAGE] at h1 h2
    omega
  have hqlen := (hpages _ hmem).2
  generalize hfdef : bm.frames.getD v default = f at hf hmem hq0 hqlen
  have hframes : (pinPage bm page pageNum).2.1.frames = bm.frames.set v
      { memPage := (loadPage
          (if f.dirty then storePage bm.file f.pageNumber f.memPage else bm.file)
          pageNum f.memPage).2,
        pageNumber := pageNum, dirty := false, fix_cnt := 1, lruOrder := bm.lruCounter + 1 } := by
    rw [hpin]
    simp only [replaceFrame, hfdef]
  have hfileeq : (pinPage bm page pageNum).2.1.file = (loadPage
      (if f.dirty then storePage bm.file f.pageNumber f.memPage else bm.file)
      pageNum f.memPage).1 := by
    rw [hpin]
    simp only [replaceFrame, hfdef]
  refine ⟨v, f, hf, hq0, by rw [hpin]; rfl, ⟨_, rfl, rfl, rfl, rfl, hframes⟩, ?_, ?_⟩
  · rw [hpin]
    simp only [ getNumWriteIO, replaceFrame, hfdef]
    split <;> simp
  · intro hd
    have hstore := storePage_get_self bm.file f.pageNumber f.memPage hq0 hqlen
    have hfile1 : (pinPage bm page pageNum).2.1.file[f.pageNumber.toNat]? = some f.memPage := by
      rw [hfileeq, if_pos hd, loadPage_file]
      have hlt : f.pageNumber.toNat < (storePage bm.file f.pageNumber f.memPage).length := by
        rcases Nat.lt_or_ge f.pageNumber.toNat
          (storePage bm.file f.pageNumber f.memPage).length with h' | h'
        · exact h'
        · rw [List.getElem?_eq_none h'] at hstore; cases hstore
      rw [List.getElem?_append_left hlt]
      exact hstore
    refine ⟨hstore, hfile1, ?_⟩
    intro page2 hok2
    have hne : f.pageNumber ≠ pageNum := fun e => hmiss (e ▸ hmem)
    have hmiss1 : f.pageNumber ∉ (pinPage bm page pageNum).2.1.frames.map Frames.pageNumber := by
      rw [hframes]
      intro hm
      obtain ⟨x, hx, hxp⟩ := List.mem_map.mp hm
      obtain ⟨j, hj⟩ := frames_index_of_mem _ x hx
      by_cases hvj : v = j
      · subst hvj
        rw [List.getElem?_set_self hv] at hj
        simp only [Option.some.injEq] at hj
        rw [← hj] at hxp
        exact hne hxp.symm
      · rw [List.getElem?_set_ne hvj] at hj
        have := index_unique_of_count _ f.pageNumber (hinv.1 _ hq0) j v
          (by simp [hj, hxp]) (by simp [hf])
        exact hvj this.symm
    have hfull1 : NO_PAGE ∉ (pinPage bm page pageNum).2.1.frames.map Frames.pageNumber := by
      rw [hframes, List.map_set]
      intro hm
      rcases List.mem_or_eq_of_mem_set hm with hm | hm
      · exact hfull hm
      · simp only [NO_PAGE] at hm
        omega
    exact pinPage_full_miss_loads _ page2 f.pageNumber f.memPage hr1 hn1 hinit1 hq0 hmiss1 hfull1
      hfile1 hok2

set_option maxRecDepth 1000000 in
theorem eviction_writes_back_witness :
    Reachable dirtyPool ∧ (pinPage dirtyPool ⟨0, 0⟩ 1).1 = RC_OK ∧
    ∃ (v : Nat) (f : Frames), dirtyPool.frames[v]? = some f ∧
      ( getNumWriteIO (pinPage dirtyPool ⟨0, 0⟩ 1).2.1) =
        ( getNumWriteIO dirtyPool) + (if f.dirty then 1 else 0) :=
  have hr : Reachable dirtyPool :=
    Reachable.unpin _ _ (Reachable.dirty _ _ (Reachable.pin _ _ _
      (Reachable.init freshPool [zeroPage, zeroPage] 1 .RS_FIFO none (fun _ => zeroPage) rfl
        (by decide) (by intro h; cases h))))
  match eviction_writes_back dirtyPool hr ⟨0, 0⟩ 1 (by decide) (by decide) (by decide)
      (by decide) with
  | ⟨v, f, h1, _, _, _, h5, _⟩ => ⟨hr, by decide, v, f, h1, h5⟩

/-! ## `quickSort` sorts, and the victim of `LRU_K` is well defined -/

theorem length_setI (arr : List Int) (k v : Int) : (setI arr k v).length = arr.length := by
  unfold setI
  split <;> simp

theorem getI_setI (arr : List Int) (k v j : Int) (h0 : 0 ≤ k) (h1 : k < (arr.length : Int)) :
    getI (setI arr k v) j = if j = k then v else getI arr j := by
  unfold getI setI
  rw [if_neg (show ¬ k < 0 by omega)]
  by_cases hj : j < 0
  · rw [if_pos hj, if_pos hj, if_neg (show ¬ j = k by omega)]
  · rw [if_neg hj, if_neg hj]
    simp only [List.getD_eq_getElem?_getD, List.getElem?_set]
    by_cases hjk : j = k
    · subst hjk
      have hlt : j.toNat < arr.length := by omega
      simp [hlt]
    · rw [if_neg hjk, if_neg (show ¬ k.toNat = j.toNat by omega)]

theorem length_swap (arr : List Int) (a b : Int) : (swap arr a b).length = arr.length := by
  unfold swap
  simp only [length_setI]

theorem getI_swap (arr : List Int) (a b j : Int) (ha0 : 0 ≤ a) (ha1 : a < (arr.length : Int))
    (hb0 : 0 ≤ b) (hb1 : b < (arr.length : Int)) :
    getI (swap arr a b) j =
      if j = b then getI arr a else if j = a then getI arr b else getI arr j := by
  unfold swap
  dsimp only
  rw [getI_setI _ b _ j hb0 (by rw [length_setI]; exact hb1), getI_setI _ a _ j ha0 ha1]

theorem getI_eq_getElem (arr : List Int) (k : Int) (h0 : 0 ≤ k) (h1 : k.toNat < arr.length) :
    getI arr k = arr[k.toNat] := by
  unfold getI
  rw [if_neg (by omega), List.getD_eq_getElem _ _ h1]

theorem count_set_getElem (l : List Int) (i : Nat) (h : i < l.length) (a c : Int) :
    (l.set i a).count c + (if l[i] = c then 1 else 0) = l.count c + (if a = c then 1 else 0) := by
  rw [List.count_set a c l i h]
  simp only [beq_iff_eq]
  by_cases e : l[i] = c
  · have hpos : 0 < l.count c := by
      rw [List.count_pos_iff]
      rw [← e]
      exact List.getElem_mem h
    rw [if_pos e]
    omega
  · rw [if_neg e]
    omega

theorem swap_perm (arr : List Int) (a b : Int) (ha0 : 0 ≤ a) (ha1 : a < (arr.length : Int))
    (hb0 : 0 ≤ b) (hb1 : b < (arr.length : Int)) : (swap arr a b).Perm arr := by
  have han : a.toNat < arr.length := by omega
  have hbn : b.toNat < arr.length := by omega
  rw [List.perm_iff_count]
  intro c
  unfold swap
  dsimp only
  rw [getI_eq_getElem arr a ha0 han, getI_eq_getElem arr b hb0 hbn]
  unfold setI
  rw [if_neg (show ¬ a < 0 by omega), if_neg (show ¬ b < 0 by omega)]
  have h1 := count_set_getElem arr a.toNat han arr[b.toNat] c
  have hbn' : b.toNat < (arr.set a.toNat arr[b.toNat]).length := by simpa using hbn
  have h2 := count_set_getElem (arr.set a.toNat arr[b.toNat]) b.toNat hbn' arr[a.toNat] c
  have hval : (arr.set a.toNat arr[b.toNat])[b.toNat] = arr[b.toNat] := by
    rw [List.getElem_set]
    split
    · rfl
    · rfl
  rw [hval] at h2
  omega

theorem SegRel.refl (arr : List Int) (lo hi : Int) : SegRel arr arr lo hi :=
  ⟨rfl, List.Perm.refl _, fun _ _ => rfl, fun _ h => h⟩

theorem SegRel.trans {a b c : List Int} {lo hi : Int} (h1 : SegRel a b lo hi)
    (h2 : SegRel b c lo hi) : SegRel a c lo hi :=
  ⟨h2.1.trans h1.1, h2.2.1.trans h1.2.1,
   fun k hk => (h2.2.2.1 k hk).trans (h1.2.2.1 k hk),
   fun Q hQ => h2.2.2.2 Q (h1.2.2.2 Q hQ)⟩

theorem SegRel.mono {a b : List Int} {lo hi lo1 hi1 : Int} (h : SegRel a b lo1 hi1)
    (hlo : lo ≤ lo1) (hhi : hi1 ≤ hi) : SegRel a b lo hi := by
  refine ⟨h.1, h.2.1, fun k hk => h.2.2.1 k (by omega), ?_⟩
  intro Q hQ k hk0 hk1
  by_cases hin : lo1 ≤ k ∧ k ≤ hi1
  · exact h.2.2.2 Q (fun j hj0 hj1 => hQ j (by omega) (by omega)) k hin.1 hin.2
  · rw [h.2.2.1 k (by omega)]
    exact hQ k hk0 hk1

theorem SegRel_swap (arr : List Int) (lo hi a b : Int) (hlo : 0 ≤ lo)
    (hhi : hi < (arr.length : Int)) (ha0 : lo ≤ a) (ha1 : a ≤ hi) (hb0 : lo ≤ b) (hb1 : b ≤ hi) :
    SegRel arr (swap arr a b) lo hi := by
  have hg := fun j => getI_swap arr a b j (by omega) (by omega) (by omega) (by omega)
  refine ⟨length_swap _ _ _, swap_perm arr a b (by omega) (by omega) (by omega) (by omega), ?_, ?_⟩
  · intro k hk
    rw [hg, if_neg (by omega), if_neg (by omega)]
  · intro Q hQ k hk0 hk1
    rw [hg]
    split
    · exact hQ a ha0 ha1
    · split
      · exact hQ b hb0 hb1
      · exact hQ k hk0 hk1

/-- The loop of `partition`: after it the cells `lo..i` hold values `≤ pivot`
and the cells `i+1..hi-1` values `> pivot`; only cells of `lo..hi-1` moved. -/
theorem partitionLoop_spec (pivot lo hi : Int) (fuel : Nat) (j i : Int) (arr : List Int)
    (hlo : 0 ≤ lo) (hhi : hi < (arr.length : Int)) (hj : lo ≤ j) (hfuel : j + fuel = hi)
    (hi0 : lo - 1 ≤ i) (hij : i < j)
    (hle : ∀ k : Int, lo ≤ k → k ≤ i → getI arr k ≤ pivot)
    (hgt : ∀ k : Int, i < k → k < j → pivot < getI arr k) :
    SegRel arr (partitionLoop pivot fuel j i arr).1 lo (hi - 1) ∧
    lo - 1 ≤ (partitionLoop pivot fuel j i arr).2 ∧ (partitionLoop pivot fuel j i arr).2 < hi ∧
    (∀ k : Int, lo ≤ k → k ≤ (partitionLoop pivot fuel j i arr).2 →
      getI (partitionLoop pivot fuel j i arr).1 k ≤ pivot) ∧
    (∀ k : Int, (partitionLoop pivot fuel j i arr).2 < k → k < hi →
      pivot < getI (partitionLoop pivot fuel j i arr).1 k) := by
  induction fuel generalizing j i arr with
  | zero =>
    simp only [partitionLoop]
    have : j = hi := by omega
    subst this
    exact ⟨SegRel.refl _ _ _, hi0, hij, hle, hgt⟩
  | succ n ih =>
    have hjhi : j < hi := by omega
    unfold partitionLoop
    split
    · rename_i hjle
      have hsw := SegRel_swap arr lo (hi - 1) (i + 1) j hlo (by omega) (by omega) (by omega)
        hj (by omega)
      have hg := fun k => getI_swap arr (i + 1) j k (by omega) (by omega) (by omega) (by omega)
      have hrec := ih (j + 1) (i + 1) (swap arr (i + 1) j)
        (by rw [length_swap]; exact hhi) (by omega) (by omega) (by omega) (by omega)
        (by
          intro k hk0 hk1
          rw [hg]
          split
          · rename_i e
            by_cases e2 : i + 1 = j
            · rw [e2]; exact hjle
            · exfalso; omega
          · split
            · exact hjle
            · exact hle k hk0 (by omega))
        (by
          intro k hk0 hk1
          rw [hg]
          split
          · exact hgt (i + 1) (by omega) (by omega)
          · rw [if_neg (by omega)]
            exact hgt k (by omega) (by omega))
      exact ⟨hsw.trans hrec.1, by omega, hrec.2.2.1, hrec.2.2.2.1, hrec.2.2.2.2⟩
    · rename_i hjgt
      have hrec := ih (j + 1) i arr hhi (by omega) (by omega) hi0 (by omega) hle
        (by
          intro k hk0 hk1
          by_cases e : k = j
          · rw [e]; omega
          · exact hgt k hk0 (by omega))
      exact hrec

/-- The function `partition` puts the pivot at the returned index, values not
above it before and values not below it after; only cells of `lo..hi` moved. -/
theorem partition_spec (arr : List Int) (lo hi : Int) (hlo : 0 ≤ lo) (hlh : lo ≤ hi)
    (hhi : hi < (arr.length : Int)) :
    SegRel arr (partition arr lo hi).1 lo hi ∧
    lo ≤ (partition arr lo hi).2 ∧ (partition arr lo hi).2 ≤ hi ∧
    (∀ k : Int, lo ≤ k → k < (partition arr lo hi).2 →
      getI (partition arr lo hi).1 k ≤ getI (partition arr lo hi).1 (partition arr lo hi).2) ∧
    (∀ k : Int, (partition arr lo hi).2 < k → k ≤ hi →
      getI (partition arr lo hi).1 (partition arr lo hi).2 ≤ getI (partition arr lo hi).1 k) := by
  obtain ⟨h1, h2, h3, h4, h5⟩ := partitionLoop_spec (getI arr hi) lo hi (hi - lo).toNat lo (lo - 1)
    arr hlo hhi (le_refl _) (by omega) (le_refl _) (by omega)
    (fun k hk0 hk1 => by omega) (fun k hk0 hk1 => by omega)
  unfold partition
  dsimp only
  generalize partitionLoop (getI arr hi) (hi - lo).toNat lo (lo - 1) arr = r at h1 h2 h3 h4 h5
  have hlen : r.1.length = arr.length := h1.1
  have hpiv : getI r.1 hi = getI arr hi := h1.2.2.1 hi (by omega)
  have hsw := SegRel_swap r.1 lo hi (r.2 + 1) hi hlo (by omega) (by omega) (by omega) hlh
    (le_refl _)
  have hg := fun k => getI_swap r.1 (r.2 + 1) hi k (by omega) (by omega) (by omega) (by omega)
  have hp : getI (swap r.1 (r.2 + 1) hi) (r.2 + 1) = getI arr hi := by
    rw [hg]
    split
    · rename_i e
      rw [e]
      exact hpiv
    · rw [if_pos rfl]
      exact hpiv
  refine ⟨(h1.mono (le_refl _) (by omega)).trans hsw, by omega, by omega, ?_, ?_⟩
  · intro k hk0 hk1
    rw [hp, hg, if_neg (by omega), if_neg (by omega)]
    exact h4 k hk0 (by omega)
  · intro k hk0 hk1
    rw [hp, hg]
    split
    · exact le_of_lt (h5 (r.2 + 1) (by omega) (by omega))
    · rw [if_neg (by omega)]
      exact le_of_lt (h5 k (by omega) (by omega))

/-- The function `quickSort` with enough fuel sorts the cells `lo..hi` and
moves no other cell. -/
theorem quickSortAux_spec (fuel : Nat) (arr : List Int) (lo hi : Int) (hlo : 0 ≤ lo)
    (hhi : hi < (arr.length : Int)) (hfuel : hi + 1 - lo ≤ (fuel : Int)) :
    SegRel arr (quickSortAux fuel arr lo hi) lo hi ∧
    SortedSeg (quickSortAux fuel arr lo hi) lo hi := by
  induction fuel generalizing arr lo hi with
  | zero =>
    simp only [quickSortAux]
    refine ⟨SegRel.refl _ _ _, ?_⟩
    intro a b h1 h2 h3
    exfalso
    omega
  | succ n ih =>
    unfold quickSortAux
    split
    · rename_i hlt
      obtain ⟨p1, p2, p3, p4, p5⟩ := partition_spec arr lo hi hlo (by omega) hhi
      dsimp only
      generalize partition arr lo hi = r at p1 p2 p3 p4 p5
      have hlen1 : r.1.length = arr.length := p1.1
      obtain ⟨q1, q2⟩ := ih r.1 lo (r.2 - 1) hlo (by omega) (by omega)
      generalize quickSortAux n r.1 lo (r.2 - 1) = R1 at q1 q2
      have hlen2 : R1.length = r.1.length := q1.1
      obtain ⟨s1, s2⟩ := ih R1 (r.2 + 1) hi (by omega) (by omega) (by omega)
      generalize quickSortAux n R1 (r.2 + 1) hi = R2 at s1 s2
      have hpv : getI R2 r.2 = getI r.1 r.2 := by
        rw [s1.2.2.1 r.2 (by omega), q1.2.2.1 r.2 (by omega)]
      have hleft : ∀ k : Int, lo ≤ k → k ≤ r.2 - 1 → getI R2 k ≤ getI r.1 r.2 := by
        intro k hk0 hk1
        rw [s1.2.2.1 k (by omega)]
        exact q1.2.2.2 (fun x => x ≤ getI r.1 r.2) (fun j hj0 hj1 => p4 j hj0 (by omega)) k hk0 hk1
      have hright : ∀ k : Int, r.2 + 1 ≤ k → k ≤ hi → getI r.1 r.2 ≤ getI R2 k := by
        intro k hk0 hk1
        refine s1.2.2.2 (fun x => getI r.1 r.2 ≤ x) ?_ k hk0 hk1
        intro j hj0 hj1
        rw [q1.2.2.1 j (by omega)]
        exact p5 j (by omega) hj1
      refine ⟨p1.trans ((q1.mono (le_refl _) (by omega)).trans (s1.mono (by omega) (le_refl _))),
        ?_⟩
      intro a b ha hab hb
      by_cases hb1 : b ≤ r.2 - 1
      · rw [s1.2.2.1 a (by omega), s1.2.2.1 b (by omega)]
        exact q2 a b ha hab hb1
      · by_cases ha1 : r.2 + 1 ≤ a
        · exact s2 a b ha1 hab hb
        · by_cases hae : a = r.2
          · by_cases hbe : b = r.2
            · rw [hae, hbe]
            · rw [hae, hpv]
              exact hright b (by omega) hb
          · have h1 := hleft a ha (by omega)
            by_cases hbe : b = r.2
            · rw [hbe, hpv]
              exact h1
            · exact le_trans h1 (hright b (by omega) hb)
    · rename_i hge
      refine ⟨SegRel.refl _ _ _, ?_⟩
      intro a b h1 h2 h3
      have : a = b := by omega
      rw [this]

/-- The function `quickSort` on a whole array returns an ascending permutation of it. -/
theorem quickSort_sorted_perm (arr : List Int) :
    (quickSort arr 0 ((arr.length : Int) - 1)).Perm arr ∧
    List.Sorted (fun a b => a ≤ b) (quickSort arr 0 ((arr.length : Int) - 1)) ∧
    (quickSort arr 0 ((arr.length : Int) - 1)).length = arr.length := by
  unfold quickSort
  obtain ⟨h1, h2⟩ := quickSortAux_spec ((arr.length : Int) - 1 + 1 - 0).toNat arr 0
    ((arr.length : Int) - 1) (le_refl _) (by omega) (by omega)
  generalize quickSortAux ((arr.length : Int) - 1 + 1 - 0).toNat arr 0
    ((arr.length : Int) - 1) = R at h1 h2
  refine ⟨h1.2.1, ?_, h1.1⟩
  unfold List.Sorted
  rw [List.pairwise_iff_getElem]
  intro i j hi hj hij
  have hlen : R.length = arr.length := h1.1
  have := h2 (i : Int) (j : Int) (by omega) (by omega) (by omega)
  rw [getI_eq_getElem R i (by omega) (by simpa using hi),
    getI_eq_getElem R j (by omega) (by simpa using hj)] at this
  simpa using this

/-- The search loop of `LRU_K` finds a frame when one has the target order number. -/
theorem lruKScan_found (target : Int) (fs : List Frames) (i : Nat)
    (h : target ∈ fs.map Frames.lruOrder) :
    ∃ j : Nat, j < fs.length ∧ lruKScan target fs i = i + j ∧
      (fs.getD j default).lruOrder = target := by
  induction fs generalizing i with
  | nil => simp at h
  | cons f fs ih =>
    unfold lruKScan
    split
    · rename_i e
      exact ⟨0, by simp, rfl, by simp [e]⟩
    · rename_i e
      simp only [List.map_cons, List.mem_cons] at h
      rcases h with h | h
      · exact absurd h e
      · obtain ⟨j, hj, hs, hv⟩ := ih (i + 1) h
        refine ⟨j + 1, by simp [hj], by rw [hs]; omega, ?_⟩
        simpa using hv

/-- C40: for a pool of `n` frames under LRU-K with parameter `k`: the index
`numPages - k` at which `LRU_K` reads the sorted array lies in `[0, n)` exactly
when `1 ≤ k ≤ n`; `quickSort` on the `n` order numbers returns (its recursion
never runs out of its bound) an ascending permutation of them; and for
`1 ≤ k ≤ n` the value read is the `lruOrder` of some frame, the search finds
such a frame, and the victim index is smaller than `n`. -/
theorem lru_k_victim_well_defined (frames : List Frames) (k : Int) :
    ((0 ≤ (frames.length : Int) - k ∧ (frames.length : Int) - k < (frames.length : Int)) ↔
      (1 ≤ k ∧ k ≤ (frames.length : Int))) ∧
    (quickSort (frames.map Frames.lruOrder) 0 ((frames.length : Int) - 1)).Perm
      (frames.map Frames.lruOrder) ∧
    List.Sorted (fun a b => a ≤ b)
      (quickSort (frames.map Frames.lruOrder) 0 ((frames.length : Int) - 1)) ∧
    (1 ≤ k → k ≤ (frames.length : Int) →
      getI (quickSort (frames.map Frames.lruOrder) 0 ((frames.length : Int) - 1))
        ((frames.length : Int) - k) ∈ frames.map Frames.lruOrder ∧
      lruKVictim frames k < frames.length ∧
      (frames.getD (lruKVictim frames k) default).lruOrder =
        getI (quickSort (frames.map Frames.lruOrder) 0 ((frames.length : Int) - 1))
          ((frames.length : Int) - k)) := by
  have hq := quickSort_sorted_perm (frames.map Frames.lruOrder)
  rw [List.length_map] at hq
  obtain ⟨hperm, hsorted, hlen⟩ := hq
  refine ⟨by constructor <;> intro h <;> omega, hperm, hsorted, ?_⟩
  intro hk1 hk2
  have hmem : getI (quickSort (frames.map Frames.lruOrder) 0 ((frames.length : Int) - 1))
      ((frames.length : Int) - k) ∈ frames.map Frames.lruOrder := by
    rw [← hperm.mem_iff, getI_eq_getElem _ _ (by omega) (by omega)]
    exact List.getElem_mem _
  obtain ⟨j, hj, hs, hv⟩ := lruKScan_found _ frames 0 hmem
  refine ⟨hmem, ?_, ?_⟩
  · unfold lruKVictim
    dsimp only
    rw [hs]
    omega
  · unfold lruKVictim
    dsimp only
    rw [hs, Nat.zero_add]
    exact hv

set_option maxRecDepth 1000000 in
theorem lru_k_victim_well_defined_witness :
    lruKVictim lruKPool.frames 1 < lruKPool.frames.length ∧
    (lruKPool.frames.getD (lruKVictim lruKPool.frames 1) default).lruOrder =
      getI (quickSort (lruKPool.frames.map Frames.lruOrder) 0
        ((lruKPool.frames.length : Int) - 1)) ((lruKPool.frames.length : Int) - 1) :=
  ((lru_k_victim_well_defined lruKPool.frames 1).2.2.2 (by decide) (by decide)).2

/-! ## `setAttr` and `getAttr` -/

theorem attrSize_nonneg (dt len : Int) (h : 0 ≤ len) : 0 ≤ attrSize dt len := by
  unfold attrSize
  split
  · simp [SIZEOF_INT]
  · split
    · simp [SIZEOF_FLOAT]
    · split
      · exact h
      · split
        · simp [SIZEOF_BOOL]
        · exact le_refl _

theorem attrOffsetSpec_succ (schema : Schema) (k : Nat) (hk : k < schema.dataTypes.length)
    (hk2 : k < schema.typeLength.length) :
    attrOffsetSpec schema (k + 1) =
      attrOffsetSpec schema k + attrSize schema.dataTypes[k] schema.typeLength[k] := by
  unfold attrOffsetSpec
  have hl : k < ((schema.dataTypes.zip schema.typeLength).map fun p => attrSize p.1 p.2).length := by
    simp only [List.length_map, List.length_zip]
    omega
  rw [List.sum_take_succ _ k hl]
  simp

theorem attrOffsetSpec_ge_length (schema : Schema) (k : Nat)
    (htl : schema.typeLength.length = schema.dataTypes.length)
    (hk : schema.dataTypes.length ≤ k) : attrOffsetSpec schema k = recordSizeSpec schema := by
  unfold attrOffsetSpec recordSizeSpec
  rw [List.take_of_length_le]
  simp only [List.length_map, List.length_zip]
  omega

theorem attrOffsetSpec_step_le (schema : Schema) (ht : schema.Typed) (k : Nat) :
    attrOffsetSpec schema k ≤ attrOffsetSpec schema (k + 1) := by
  obtain ⟨_, htl, _, hlen⟩ := ht
  by_cases hk : k < schema.dataTypes.length
  · rw [attrOffsetSpec_succ schema k hk (by omega)]
    have := attrSize_nonneg schema.dataTypes[k] schema.typeLength[k]
      (hlen _ (List.getElem_mem _))
    omega
  · rw [attrOffsetSpec_ge_length schema k htl (by omega),
      attrOffsetSpec_ge_length schema (k + 1) htl (by omega)]

theorem attrOffsetSpec_mono (schema : Schema) (ht : schema.Typed) (a b : Nat) (hab : a ≤ b) :
    attrOffsetSpec schema a ≤ attrOffsetSpec schema b := by
  induction b with
  | zero =>
    have : a = 0 := by omega
    rw [this]
  | succ n ih =>
    by_cases e : a = n + 1
    · rw [e]
    · exact le_trans (ih (by omega)) (attrOffsetSpec_step_le schema ht n)

theorem attrOffsetSpec_zero (schema : Schema) : attrOffsetSpec schema 0 = 0 := by
  simp [attrOffsetSpec]

theorem attrOffsetSpec_range (schema : Schema) (ht : schema.Typed)
    (hfit : recordSizeSpec schema < 2147483648) (k : Nat) :
    0 ≤ attrOffsetSpec schema k ∧ attrOffsetSpec schema k < 2147483648 := by
  have h0 := attrOffsetSpec_mono schema ht 0 k (by omega)
  rw [attrOffsetSpec_zero] at h0
  have h1 := attrOffsetSpec_mono schema ht k (k + schema.dataTypes.length) (by omega)
  rw [attrOffsetSpec_ge_length schema (k + schema.dataTypes.length) ht.2.1 (by omega)] at h1
  omega

/-- The offset loop of `setAttr` and `getAttr` on a typed schema whose record
size is in the range of `int` adds the sizes of the attributes it visits. -/
theorem attrOffsetLoop_spec (schema : Schema) (ht : schema.Typed)
    (hfit : recordSizeSpec schema < 2147483648) (fuel i : Nat)
    (h : i + fuel ≤ schema.dataTypes.length) :
    attrOffsetLoop schema fuel i (attrOffsetSpec schema i) =
      some (.inr (attrOffsetSpec schema (i + fuel))) := by
  induction fuel generalizing i with
  | zero => simp [attrOffsetLoop]
  | succ k ih =>
    have htl := ht.2.1
    have hi : i < schema.dataTypes.length := by omega
    have hi2 : i < schema.typeLength.length := by omega
    have hrec := ih (i + 1) (by omega)
    have hr := attrOffsetSpec_range schema ht hfit (i + 1)
    have hw := toInt32_small _ hr.1 hr.2
    rw [← hw, attrOffsetSpec_succ schema i hi hi2] at hrec
    have e : i + 1 + k = i + (k + 1) := by omega
    rw [e] at hrec
    unfold attrOffsetLoop
    simp only [List.getElem?_eq_getElem hi, List.getElem?_eq_getElem hi2]
    rcases ht.2.2.1 _ (List.getElem_mem hi) with h1 | h1 | h1 | h1
    · rw [h1] at hrec ⊢
      simpa [attrSize, DT_INT, DT_FLOAT, DT_STRING, DT_BOOL] using hrec
    · rw [h1] at hrec ⊢
      simpa [attrSize, DT_INT, DT_FLOAT, DT_STRING, DT_BOOL] using hrec
    · rw [h1] at hrec ⊢
      simpa [attrSize, DT_INT, DT_FLOAT, DT_STRING, DT_BOOL] using hrec
    · rw [h1] at hrec ⊢
      simpa [attrSize, DT_INT, DT_FLOAT, DT_STRING, DT_BOOL] using hrec

theorem attrOffsetLoop_from_zero (schema : Schema) (ht : schema.Typed)
    (hfit : recordSizeSpec schema < 2147483648) (i : Nat)
    (h : i ≤ schema.dataTypes.length) :
    attrOffsetLoop schema i 0 0 = some (.inr (attrOffsetSpec schema i)) := by
  have := attrOffsetLoop_spec schema ht hfit i 0 (by omega)
  rw [attrOffsetSpec_zero, Nat.zero_add] at this
  exact this

theorem writeBytes_eq (buf : Page) (off : Int) (bs : List Nat) (h0 : 0 ≤ off)
    (h : off.toNat + bs.length ≤ buf.length) :
    writeBytes buf off bs =
      some (buf.take off.toNat ++ bs ++ buf.drop (off.toNat + bs.length)) := by
  unfold writeBytes
  rw [if_pos ⟨h0, h⟩]

theorem splice_length (buf bs : List Nat) (o : Nat) (h : o + bs.length ≤ buf.length) :
    (buf.take o ++ bs ++ buf.drop (o + bs.length)).length = buf.length := by
  simp only [List.length_append, List.length_take, List.length_drop]
  omega

theorem splice_getElem_outside (buf bs : List Nat) (o t : Nat)
    (h : o + bs.length ≤ buf.length) (ht : t < o ∨ o + bs.length ≤ t) :
    (buf.take o ++ bs ++ buf.drop (o + bs.length))[t]? = buf[t]? := by
  have hl : (buf.take o).length = o := by
    rw [List.length_take]
    omega
  rcases ht with ht | ht
  · rw [List.append_assoc, List.getElem?_append_left (by omega)]
    exact List.getElem?_take_of_lt ht
  · rw [List.getElem?_append_right (by simp only [List.length_append]; omega)]
    rw [List.getElem?_drop]
    congr 1
    simp only [List.length_append]
    omega

theorem readBytes_congr (b1 b2 : List Nat) (o : Int) (n : Nat) (hlen : b1.length = b2.length)
    (h : ∀ t : Nat, o ≤ (t : Int) → (t : Int) < o + n → b1[t]? = b2[t]?) :
    readBytes b1 o n = readBytes b2 o n := by
  unfold readBytes
  rw [hlen]
  split
  · rename_i hc
    congr 1
    apply List.ext_getElem?
    intro t
    by_cases htn : t < n
    · rw [List.getElem?_take_of_lt htn, List.getElem?_take_of_lt htn, List.getElem?_drop,
        List.getElem?_drop]
      apply h <;> omega
    · rw [List.getElem?_eq_none (by simp only [List.length_take]; omega),
        List.getElem?_eq_none (by simp only [List.length_take]; omega)]
  · rfl

theorem readBytes_splice (buf bs : List Nat) (off : Int) (h0 : 0 ≤ off)
    (h : off.toNat + bs.length ≤ buf.length) :
    readBytes (buf.take off.toNat ++ bs ++ buf.drop (off.toNat + bs.length)) off bs.length =
      some bs := by
  apply readBytes_mid
  · rw [List.length_take]
    omega
  · rfl

theorem decodeShort_encodeShort (v : Int) (h : -32768 ≤ v ∧ v < 32768) :
    decodeShort (encodeShort v) = v := by
  unfold decodeShort encodeShort
  simp only [List.getD_cons_zero, List.getD_cons_succ]
  generalize hu : (v % 65536).toNat = u
  have hu2 : (u : Int) = v % 65536 := by
    rw [← hu]; exact Int.toNat_of_nonneg (Int.emod_nonneg _ (by decide))
  have hlt : v % 65536 < 65536 := Int.emod_lt_of_pos _ (by decide)
  have hsum : u % 256 + 256 * (u / 256 % 256) = u := by omega
  rw [hsum]
  split <;> omega

theorem takeWhile_padded (l : List Nat) (k : Nat) (h : ∀ b ∈ l, b ≠ 0) :
    (l ++ List.replicate k 0).takeWhile (fun b => b != 0) = l := by
  induction l with
  | nil => cases k <;> simp [List.replicate_succ]
  | cons b bs ih =>
    have hb : b ≠ 0 := h b (by simp)
    have := ih (fun c hc => h c (by simp [hc]))
    simp [List.takeWhile_cons, hb, this]

theorem strncpyBytes_length (s : List Nat) (n : Nat) : (strncpyBytes s n).length = n := by
  unfold strncpyBytes
  simp only [List.length_append, List.length_take, List.length_replicate]
  omega

theorem strncpyBytes_takeWhile (s : List Nat) (n : Nat) (h : ∀ b ∈ s, b ≠ 0) :
    (strncpyBytes s n).takeWhile (fun b => b != 0) = s.take n := by
  unfold strncpyBytes
  exact takeWhile_padded _ _ (fun b hb => h b (List.mem_of_mem_take hb))

theorem valueBytes_length (value : Value) (len : Int) (hv : value.WellFormed) :
    (valueBytes value len).length = (attrSize value.dt len).toNat := by
  cases value with
  | intV v => simp [valueBytes, Value.dt, attrSize, encodeInt, SIZEOF_INT]
  | stringV s =>
    simp [valueBytes, Value.dt, attrSize, strncpyBytes_length, DT_INT, DT_FLOAT, DT_STRING]
  | floatV bytes =>
    have : bytes.length = SIZEOF_FLOAT := hv
    simp [valueBytes, Value.dt, attrSize, this, DT_INT, DT_FLOAT, SIZEOF_FLOAT]
  | boolV v =>
    simp [valueBytes, Value.dt, attrSize, encodeShort, DT_INT, DT_FLOAT, DT_STRING, DT_BOOL,
      SIZEOF_BOOL]

theorem decodeValue_valueBytes (value : Value) (len : Int) (hv : value.WellFormed) :
    decodeValue value.dt (valueBytes value len) = storedValue value len := by
  cases value with
  | intV v =>
    have : isInt32 v := hv
    simp [valueBytes, Value.dt, decodeValue, storedValue, decodeInt_encodeInt v this]
  | stringV s =>
    have : ∀ b ∈ s, b ≠ 0 := hv
    simp only [valueBytes, Value.dt, decodeValue, storedValue]
    rw [if_neg (by decide), if_neg (by decide), if_pos trivial, strncpyBytes_takeWhile s _ this]
  | floatV bytes =>
    simp only [valueBytes, Value.dt, decodeValue, storedValue]
    rw [if_neg (by decide), if_pos trivial]
  | boolV v =>
    have : -32768 ≤ v ∧ v < 32768 := hv
    simp only [valueBytes, Value.dt, decodeValue, storedValue]
    rw [if_neg (by decide), if_neg (by decide), if_neg (by decide),
      decodeShort_encodeShort v this]

/-- On a typed schema `setAttr` of a well-formed value of the attribute's type
writes `valueBytes` at the attribute's offset. -/
theorem setAttr_eq_write (record : Record) (schema : Schema) (attrNum : Int) (value : Value)
    (len : Int) (data : List Nat) (ht : schema.Typed)
    (hfit : recordSizeSpec schema < 2147483648) (h0 : 0 ≤ attrNum)
    (h1 : attrNum < schema.numAttr)
    (hdt : schema.dataTypes[attrNum.toNat]? = some value.dt)
    (hlen : schema.typeLength[attrNum.toNat]? = some len) (hv : value.WellFormed)
    (hw : writeBytes record.data (attrOffsetSpec schema attrNum.toNat) (valueBytes value len) =
      some data) :
    setAttr record schema attrNum value = some (RC_OK, { record with data := data }) := by
  have hi : attrNum.toNat ≤ schema.dataTypes.length := by
    have := ht.1
    omega
  have hl0 : 0 ≤ len := ht.2.2.2 len (List.mem_iff_getElem?.mpr ⟨_, hlen⟩)
  unfold setAttr
  rw [if_neg (by omega), hdt, attrOffsetLoop_from_zero schema ht hfit _ hi]
  cases value with
  | intV v =>
    simp only [valueBytes] at hw
    simp [hw]
  | stringV s =>
    have : ¬ len < 0 := by omega
    simp only [valueBytes] at hw
    simp [hlen, this, hw]
  | floatV bytes =>
    have : bytes.length = SIZEOF_FLOAT := hv
    simp only [valueBytes] at hw
    simp [this, hw]
  | boolV v =>
    simp only [valueBytes] at hw
    simp [hw]

/-- On a typed schema `getAttr` reads the attribute's bytes at its offset and
decodes them by the attribute's type. -/
theorem getAttr_eq_read (record : Record) (schema : Schema) (j : Int) (dt len : Int)
    (ht : schema.Typed) (hfit : recordSizeSpec schema < 2147483648) (h0 : 0 ≤ j)
    (h1 : j < schema.numAttr)
    (hdt : schema.dataTypes[j.toNat]? = some dt)
    (hlen : schema.typeLength[j.toNat]? = some len) :
    getAttr record schema j =
      (readBytes record.data (attrOffsetSpec schema j.toNat) (attrSize dt len).toNat).bind
        fun bytes => some (RC_OK, some (decodeValue dt bytes)) := by
  have hi : j.toNat ≤ schema.dataTypes.length := by
    have := ht.1
    omega
  have hl0 : 0 ≤ len := ht.2.2.2 len (List.mem_iff_getElem?.mpr ⟨_, hlen⟩)
  have hty := ht.2.2.1 dt (List.mem_iff_getElem?.mpr ⟨_, hdt⟩)
  unfold getAttr
  rw [attrOffsetLoop_from_zero schema ht hfit _ hi]
  have hj : ¬ j < 0 := by omega
  have hl : ¬ len < 0 := by omega
  rcases hty with e | e | e | e
  · subst e
    simp [hdt, hj, attrSize, decodeValue, SIZEOF_INT]
  · subst e
    simp [hdt, hj, attrSize, decodeValue, DT_INT, DT_FLOAT, SIZEOF_FLOAT]
  · subst e
    simp [hdt, hj, hl, hlen, attrSize, decodeValue, DT_INT, DT_FLOAT, DT_STRING]
  · subst e
    simp [hdt, hj, attrSize, decodeValue, DT_INT, DT_FLOAT, DT_STRING, DT_BOOL, SIZEOF_BOOL]

theorem getRecordSize_typed (schema : Schema) (ht : schema.Typed)
    (hfit : recordSizeSpec schema < 2147483648) :
    getRecordSize schema = some (recordSizeSpec schema) := by
  have hr := attrOffsetSpec_range schema ht hfit schema.dataTypes.length
  rw [attrOffsetSpec_ge_length schema _ ht.2.1 (le_refl _)] at hr
  rw [getRecordSize_wrapped schema ht.1 ht.2.1, toInt32_small _ hr.1 hr.2]

/-- C38 (counterexample): three schemas.  With an attribute
of a type outside `DataType` before the one written (`{a: 7, b: INT}`, record
size 4), `setAttr` of attribute 1 returns `RC_RM_DATA_TYPE_ERROR`.  With a
negative type length (`{a: INT, b: STRING(-4), c: INT}`, record size 4) and
with attribute sizes whose sum leaves the range of `int`
(`{a: INT, b: STRING(2147483643), c: INT, d: STRING(2147483645), e: INT}`,
record size 4) the last attribute has offset 0 like attribute 0: `setAttr` of
the last attribute returns `RC_OK` and changes what `getAttr` returns for
attribute 0. -/
theorem setAttr_ill_typed_schema :
    (getRecordSize schemaUnknownType = some 4 ∧
      schemaUnknownType.dataTypes[1]? = some (Value.intV 5).dt ∧
      (setAttr (blankRecord 4) schemaUnknownType 1 (.intV 5)).map Prod.fst =
        some RC_RM_DATA_TYPE_ERROR) ∧
    (getRecordSize schemaNegativeLength = some 4 ∧
      schemaNegativeLength.dataTypes[2]? = some (Value.intV 5).dt ∧
      setAttr (blankRecord 4) schemaNegativeLength 2 (.intV 5) =
        some (RC_OK, { blankRecord 4 with data := encodeInt 5 }) ∧
      getAttr (blankRecord 4) schemaNegativeLength 0 = some (RC_OK, some (.intV 0)) ∧
      getAttr { blankRecord 4 with data := encodeInt 5 } schemaNegativeLength 0 =
        some (RC_OK, some (.intV 5))) ∧
    (getRecordSize schemaWrappedSize = some 4 ∧
      schemaWrappedSize.dataTypes[4]? = some (Value.intV 5).dt ∧
      setAttr (blankRecord 4) schemaWrappedSize 4 (.intV 5) =
        some (RC_OK, { blankRecord 4 with data := encodeInt 5 }) ∧
      getAttr (blankRecord 4) schemaWrappedSize 0 = some (RC_OK, some (.intV 0)) ∧
      getAttr { blankRecord 4 with data := encodeInt 5 } schemaWrappedSize 0 =
        some (RC_OK, some (.intV 5))) := by
  decide

/-- C38: for every schema whose arrays have `numAttr` entries, whose data types
are among the four of `DataType`, whose type lengths are not negative and whose
attribute sizes sum to at most `INT_MAX`, every record buffer of
`getRecordSize(schema)` bytes, every attribute index `0 ≤ attrNum < numAttr`
and every value of the attribute's data type: `setAttr`
returns `RC_OK`, the buffer keeps its length and every byte outside
`[offset, offset + size)`, where `offset` is the sum of the sizes of the
attributes before and `offset + size` does not exceed the record size;
afterwards `getAttr` of the attribute returns the value (a string cut to its
first `typeLength[attrNum]` bytes), and `getAttr` of every other attribute
returns what it returned before. -/
theorem setAttr_getAttr_round_trip (record : Record) (schema : Schema) (attrNum : Int)
    (value : Value) (ht : schema.Typed) (hint : recordSizeSpec schema < 2147483648)
    (hsize : getRecordSize schema = some (record.data.length : Int))
    (h0 : 0 ≤ attrNum) (h1 : attrNum < schema.numAttr)
    (hdt : schema.dataTypes[attrNum.toNat]? = some value.dt) (hv : value.WellFormed) :
    ∃ (data : List Nat) (len : Int),
      schema.typeLength[attrNum.toNat]? = some len ∧
      setAttr record schema attrNum value = some (RC_OK, { record with data := data }) ∧
      data.length = record.data.length ∧
      (∀ t : Nat, ((t : Int) < attrOffsetSpec schema attrNum.toNat ∨
          attrOffsetSpec schema attrNum.toNat + attrSize value.dt len ≤ (t : Int)) →
        data[t]? = record.data[t]?) ∧
      0 ≤ attrOffsetSpec schema attrNum.toNat ∧
      attrOffsetSpec schema attrNum.toNat + attrSize value.dt len ≤ (record.data.length : Int) ∧
      getAttr { record with data := data } schema attrNum =
        some (RC_OK, some (storedValue value len)) ∧
      ∀ j : Int, 0 ≤ j → j < schema.numAttr → j ≠ attrNum →
        getAttr { record with data := data } schema j = getAttr record schema j := by
  have hn := ht.1
  have htl := ht.2.1
  have hi : attrNum.toNat < schema.dataTypes.length := by omega
  have hi2 : attrNum.toNat < schema.typeLength.length := by omega
  have hlen : schema.typeLength[attrNum.toNat]? = some schema.typeLength[attrNum.toNat] :=
    List.getElem?_eq_getElem hi2
  have hdt2 : schema.dataTypes[attrNum.toNat] = value.dt := by
    rw [List.getElem?_eq_getElem hi] at hdt
    exact Option.some.inj hdt
  have hl0 : 0 ≤ schema.typeLength[attrNum.toNat] := ht.2.2.2 _ (List.getElem_mem hi2)
  have hrs : recordSizeSpec schema = (record.data.length : Int) := by
    rw [getRecordSize_typed schema ht hint] at hsize
    exact Option.some.inj hsize
  have hoff0 : 0 ≤ attrOffsetSpec schema attrNum.toNat := by
    have := attrOffsetSpec_mono schema ht 0 attrNum.toNat (by omega)
    rw [attrOffsetSpec_zero] at this
    exact this
  have hsucc := attrOffsetSpec_succ schema attrNum.toNat hi hi2
  rw [hdt2] at hsucc
  have htot : attrOffsetSpec schema (attrNum.toNat + 1) ≤ recordSizeSpec schema := by
    rw [← attrOffsetSpec_ge_length schema schema.dataTypes.length htl (le_refl _)]
    exact attrOffsetSpec_mono schema ht _ _ (by omega)
  have hsz0 := attrSize_nonneg value.dt schema.typeLength[attrNum.toNat] hl0
  have hbl := valueBytes_length value schema.typeLength[attrNum.toNat] hv
  have hfit : (attrOffsetSpec schema attrNum.toNat).toNat +
      (valueBytes value schema.typeLength[attrNum.toNat]).length ≤ record.data.length := by
    omega
  have hw := writeBytes_eq record.data _ _ hoff0 hfit
  refine ⟨_, schema.typeLength[attrNum.toNat], hlen,
    setAttr_eq_write record schema attrNum value _ _ ht hint h0 h1 hdt hlen hv hw,
    splice_length _ _ _ hfit,
    fun t htt => splice_getElem_outside _ _ _ t hfit (by omega), hoff0, by omega, ?_, ?_⟩
  · rw [getAttr_eq_read _ schema attrNum value.dt _ ht hint h0 h1 hdt hlen, ← hbl]
    show (readBytes _ _ _).bind _ = _
    rw [readBytes_splice _ _ _ hoff0 hfit]
    show some (RC_OK, some (decodeValue _ _)) = _
    rw [decodeValue_valueBytes value _ hv]
  · intro j hj0 hj1 hne
    have hj : j.toNat < schema.dataTypes.length := by omega
    have hj2 : j.toNat < schema.typeLength.length := by omega
    have hjl0 : 0 ≤ schema.typeLength[j.toNat] := ht.2.2.2 _ (List.getElem_mem hj2)
    have hjs := attrOffsetSpec_succ schema j.toNat hj hj2
    have hjz := attrSize_nonneg schema.dataTypes[j.toNat] schema.typeLength[j.toNat] hjl0
    rw [getAttr_eq_read _ schema j _ _ ht hint hj0 hj1 (List.getElem?_eq_getElem hj)
        (List.getElem?_eq_getElem hj2),
      getAttr_eq_read record schema j _ _ ht hint hj0 hj1 (List.getElem?_eq_getElem hj)
        (List.getElem?_eq_getElem hj2)]
    congr 1
    apply readBytes_congr _ _ _ _ (splice_length _ _ _ hfit)
    intro t ht1 ht2
    apply splice_getElem_outside _ _ _ t hfit
    rcases Nat.lt_or_gt_of_ne (fun e : j.toNat = attrNum.toNat => hne (by omega)) with hlt | hgt
    · have := attrOffsetSpec_mono schema ht (j.toNat + 1) attrNum.toNat (by omega)
      left
      omega
    · have := attrOffsetSpec_mono schema ht (attrNum.toNat + 1) j.toNat (by omega)
      right
      omega

theorem setAttr_getAttr_round_trip_witness :
    schemaAllTypes.Typed ∧ recordSizeSpec schemaAllTypes < 2147483648 ∧
    getRecordSize schemaAllTypes = some (((blankRecord 14).data.length : Nat) : Int) ∧
    (Value.stringV [120, 121]).WellFormed ∧
    ∃ (data : List Nat) (len : Int),
      schemaAllTypes.typeLength[(1 : Int).toNat]? = some len ∧
      setAttr (blankRecord 14) schemaAllTypes 1 (.stringV [120, 121]) =
        some (RC_OK, { blankRecord 14 with data := data }) ∧
      data.length = (blankRecord 14).data.length ∧
      (∀ t : Nat, ((t : Int) < attrOffsetSpec schemaAllTypes (1 : Int).toNat ∨
          attrOffsetSpec schemaAllTypes (1 : Int).toNat +
            attrSize (Value.stringV [120, 121]).dt len ≤ (t : Int)) →
        data[t]? = (blankRecord 14).data[t]?) ∧
      0 ≤ attrOffsetSpec schemaAllTypes (1 : Int).toNat ∧
      attrOffsetSpec schemaAllTypes (1 : Int).toNat +
        attrSize (Value.stringV [120, 121]).dt len ≤ ((blankRecord 14).data.length : Int) ∧
      getAttr { blankRecord 14 with data := data } schemaAllTypes 1 =
        some (RC_OK, some (storedValue (.stringV [120, 121]) len)) ∧
      ∀ j : Int, 0 ≤ j → j < schemaAllTypes.numAttr → j ≠ 1 →
        getAttr { blankRecord 14 with data := data } schemaAllTypes j =
          getAttr (blankRecord 14) schemaAllTypes j :=
  have ht : schemaAllTypes.Typed := by
    unfold Schema.Typed
    decide
  have hv : (Value.stringV [120, 121]).WellFormed := by
    unfold Value.WellFormed
    decide
  ⟨ht, by decide, by decide, hv,
    setAttr_getAttr_round_trip (blankRecord 14) schemaAllTypes 1 (.stringV [120, 121]) ht
      (by decide) (by decide) (by decide) (by decide) (by decide) hv⟩

/-! ## `forceFlushPool` up to the first pinned frame -/

theorem clear_dirty_of_clean (f : Frames) (h : f.dirty = false) :
    { f with dirty := false } = f := by
  cases f
  simp_all

/-- The loop of `forceFlushPool` handles the frames before the first one with
`fix_cnt ≠ 0` and leaves the frames from there on as they are. -/
theorem forceFlushLoop_prefix (file : PageFile) (w c : Int) (fs : List Frames) :
    (forceFlushLoop file w c fs).2.1 =
      (fs.takeWhile fun f => decide (f.fix_cnt = 0)).map (fun f => { f with dirty := false }) ++
        fs.dropWhile (fun f => decide (f.fix_cnt = 0)) ∧
    (forceFlushLoop file w c fs).2.2.1 =
      (fs.takeWhile fun f => decide (f.fix_cnt = 0)).foldl
        (fun fl f => if f.dirty = true then storePage fl f.pageNumber f.memPage else fl) file ∧
    (forceFlushLoop file w c fs).2.2.2.1 =
      w + ((fs.takeWhile fun f => decide (f.fix_cnt = 0)).countP fun f => f.dirty) ∧
    (fs.dropWhile (fun f => decide (f.fix_cnt = 0)) ≠ [] →
      (forceFlushLoop file w c fs).1 = some RC_BP_FLUSHPOOL_FAILED) := by
  induction fs generalizing file w c with
  | nil => simp [forceFlushLoop]
  | cons f fs ih =>
    unfold forceFlushLoop
    by_cases hd : f.dirty = true ∧ f.fix_cnt = 0
    · rw [if_pos hd]
      obtain ⟨h1, h2, h3, h4⟩ := ih (storePage file f.pageNumber f.memPage) (w + 1) c
      have htw : (f :: fs).takeWhile (fun f => decide (f.fix_cnt = 0)) =
          f :: fs.takeWhile (fun f => decide (f.fix_cnt = 0)) := by
        simp [List.takeWhile_cons, hd.2]
      have hdw : (f :: fs).dropWhile (fun f => decide (f.fix_cnt = 0)) =
          fs.dropWhile (fun f => decide (f.fix_cnt = 0)) := by
        simp [List.dropWhile_cons, hd.2]
      rw [htw, hdw]
      refine ⟨?_, ?_, ?_, ?_⟩
      · simp only [List.map_cons, List.cons_append]
        rw [h1]
      · simp only [List.foldl_cons, if_pos hd.1]
        exact h2
      · simp only [h3, List.countP_cons, hd.1, if_true]
        push_cast
        omega
      · exact h4
    · rw [if_neg hd]
      by_cases hfix : f.fix_cnt ≠ 0
      · rw [if_pos hfix]
        have htw : (f :: fs).takeWhile (fun f => decide (f.fix_cnt = 0)) = [] := by
          simp [List.takeWhile_cons, hfix]
        have hdw : (f :: fs).dropWhile (fun f => decide (f.fix_cnt = 0)) = f :: fs := by
          simp [List.dropWhile_cons, hfix]
        rw [htw, hdw]
        simp
      · rw [if_neg hfix]
        have hz : f.fix_cnt = 0 := by simpa using hfix
        have hclean : f.dirty = false := by
          cases hdd : f.dirty with
          | false => rfl
          | true => exact absurd ⟨hdd, hz⟩ hd
        obtain ⟨h1, h2, h3, h4⟩ := ih file w (c + 1)
        have htw : (f :: fs).takeWhile (fun f => decide (f.fix_cnt = 0)) =
            f :: fs.takeWhile (fun f => decide (f.fix_cnt = 0)) := by
          simp [List.takeWhile_cons, hz]
        have hdw : (f :: fs).dropWhile (fun f => decide (f.fix_cnt = 0)) =
            fs.dropWhile (fun f => decide (f.fix_cnt = 0)) := by
          simp [List.dropWhile_cons, hz]
        rw [htw, hdw]
        refine ⟨?_, ?_, ?_, ?_⟩
        · simp only [List.map_cons, List.cons_append]
          rw [h1, clear_dirty_of_clean f hclean]
        · simp only [List.foldl_cons, hclean, Bool.false_eq_true, if_false]
          exact h2
        · simp only [h3, List.countP_cons, hclean, Bool.false_eq_true, if_false]
          simp
        · exact h4

/-- Write-backs of frames that do not hold page `q` leave page `q` of the file
as it was. -/
theorem foldl_storePage_other (fs : List Frames) (file : PageFile) (q : Int) (b : Page)
    (h0 : 0 ≤ q) (hne : ∀ f ∈ fs, f.pageNumber ≠ q) (hq : file[q.toNat]? = some b) :
    (fs.foldl (fun fl f => if f.dirty = true then storePage fl f.pageNumber f.memPage else fl)
      file)[q.toNat]? = some b := by
  induction fs generalizing file with
  | nil => exact hq
  | cons g gs ih =>
    simp only [List.foldl_cons]
    apply ih _ (fun f hf => hne f (List.mem_cons_of_mem _ hf))
    split
    · exact storePage_get_other _ _ _ _ _ h0 (hne g (List.mem_cons_self _ _)) hq
    · exact hq

/-- After the write-backs of a list of frames with distinct pages inside the
file or at its end, the file holds the buffer of every dirty frame at the
frame's page. -/
theorem foldl_storePage_self (fs : List Frames) (file : PageFile)
    (huniq : ∀ p : Int, 0 ≤ p → (fs.map Frames.pageNumber).count p ≤ 1)
    (hrange : ∀ f ∈ fs, f.pageNumber ≤ (file.length : Int)) (f : Frames) (hf : f ∈ fs)
    (hd : f.dirty = true) (h0 : 0 ≤ f.pageNumber) :
    (fs.foldl (fun fl f => if f.dirty = true then storePage fl f.pageNumber f.memPage else fl)
      file)[f.pageNumber.toNat]? = some f.memPage := by
  induction fs generalizing file with
  | nil => cases hf
  | cons g gs ih =>
    simp only [List.foldl_cons]
    have huniq2 : ∀ p : Int, 0 ≤ p → (gs.map Frames.pageNumber).count p ≤ 1 := by
      intro p hp
      have := huniq p hp
      simp only [List.map_cons, List.count_cons] at this
      omega
    have hlen : file.length ≤
        (if g.dirty = true then storePage file g.pageNumber g.memPage else file).length := by
      split
      · exact storePage_length_ge _ _ _
      · exact le_refl _
    have hrange2 : ∀ f ∈ gs, f.pageNumber ≤
        ((if g.dirty = true then storePage file g.pageNumber g.memPage else file).length : Int) := by
      intro f1 hf1
      have := hrange f1 (List.mem_cons_of_mem _ hf1)
      omega
    rcases List.mem_cons.mp hf with e | hf2
    · subst e
      apply foldl_storePage_other gs _ _ _ h0
      · intro f1 hf1 e1
        have := huniq f.pageNumber h0
        simp only [List.map_cons, List.count_cons, beq_self_eq_true, if_true] at this
        have hpos : 0 < (gs.map Frames.pageNumber).count f.pageNumber :=
          List.count_pos_iff.mpr (List.mem_map.mpr ⟨f1, hf1, e1⟩)
        omega
      · rw [if_pos hd]
        exact storePage_get_self _ _ _ h0 (hrange f (List.mem_cons_self _ _))
    · exact ih _ huniq2 hrange2 hf2

/-- C32: for every reachable (initialised) pool state, `forceFlushPool` handles
the frames in index order up to the first frame with `fix_cnt ≠ 0`, all frames
when none is pinned: every frame before that point has its dirty bit cleared,
the write counter grows by exactly one per dirty frame among them, and the file
afterwards holds the buffer of each such dirty frame at the frame's page (for a
frame that holds a page).  The frames from the first pinned frame on, dirty or
not, are left as they are, and when there is a pinned frame the function
returns `RC_BP_FLUSHPOOL_FAILED`. -/
theorem forceFlushPool_until_pinned (bm : BufferPool) (h : Reachable bm) :
    (forceFlushPool bm).2.frames =
      (bm.frames.takeWhile fun f => decide (f.fix_cnt = 0)).map
          (fun f => { f with dirty := false }) ++
        bm.frames.dropWhile (fun f => decide (f.fix_cnt = 0)) ∧
    ( getNumWriteIO (forceFlushPool bm).2) = ( getNumWriteIO bm) +
      ((bm.frames.takeWhile fun f => decide (f.fix_cnt = 0)).countP fun f => f.dirty) ∧
    (∀ f ∈ bm.frames.takeWhile (fun f => decide (f.fix_cnt = 0)), f.dirty = true →
      0 ≤ f.pageNumber → (forceFlushPool bm).2.file[f.pageNumber.toNat]? = some f.memPage) ∧
    (bm.frames.dropWhile (fun f => decide (f.fix_cnt = 0)) ≠ [] →
      (forceFlushPool bm).1 = RC_BP_FLUSHPOOL_FAILED) := by
  obtain ⟨hinv, hinit⟩ := Reachable_inv bm h
  obtain ⟨_, _, hpages⟩ := Reachable_file_inv bm h
  obtain ⟨h1, h2, h3, h4⟩ := forceFlushLoop_prefix bm.file bm.writtenToDisk 0 bm.frames
  have hsub : (bm.frames.takeWhile fun f => decide (f.fix_cnt = 0)).Sublist bm.frames :=
    List.takeWhile_sublist _
  have hfr : (forceFlushPool bm).2.frames = (forceFlushLoop bm.file bm.writtenToDisk 0 bm.frames).2.1 := by
    unfold forceFlushPool
    rw [if_neg (by simp [hinit])]
    dsimp only
    split
    · rfl
    · split <;> rfl
  have hfl : (forceFlushPool bm).2.file =
      (forceFlushLoop bm.file bm.writtenToDisk 0 bm.frames).2.2.1 := by
    unfold forceFlushPool
    rw [if_neg (by simp [hinit])]
    dsimp only
    split
    · rfl
    · split <;> rfl
  have hwr : (forceFlushPool bm).2.writtenToDisk =
      (forceFlushLoop bm.file bm.writtenToDisk 0 bm.frames).2.2.2.1 := by
    unfold forceFlushPool
    rw [if_neg (by simp [hinit])]
    dsimp only
    split
    · rfl
    · split <;> rfl
  refine ⟨hfr.trans h1, ?_, ?_, ?_⟩
  · unfold getNumWriteIO
    rw [hwr, h3]
  · intro f hf hd h0
    rw [hfl, h2]
    apply foldl_storePage_self _ _ _ _ f hf hd h0
    · intro p hp
      exact le_trans ((hsub.map Frames.pageNumber).count_le p) (hinv.1 p hp)
    · intro g hg
      exact (hpages _ (List.mem_map_of_mem _ (hsub.subset hg))).2
  · intro hne
    have hrc := h4 hne
    unfold forceFlushPool
    rw [if_neg (by simp [hinit])]
    dsimp only
    rw [hrc]

set_option maxRecDepth 1000000 in
theorem forceFlushPool_until_pinned_witness :
    Reachable dirtyPool ∧
    dirtyPool.frames.map (fun f => (f.pageNumber, f.dirty, f.fix_cnt)) = [(0, true, 0)] ∧
    (forceFlushPool dirtyPool).2.frames =
      (dirtyPool.frames.takeWhile fun f => decide (f.fix_cnt = 0)).map
          (fun f => { f with dirty := false }) ++
        dirtyPool.frames.dropWhile (fun f => decide (f.fix_cnt = 0)) ∧
    ( getNumWriteIO (forceFlushPool dirtyPool).2) = ( getNumWriteIO dirtyPool) +
      ((dirtyPool.frames.takeWhile fun f => decide (f.fix_cnt = 0)).countP fun f => f.dirty) :=
  have hr : Reachable dirtyPool :=
    Reachable.unpin _ _ (Reachable.dirty _ _ (Reachable.pin _ _ _
      (Reachable.init freshPool [zeroPage, zeroPage] 1 .RS_FIFO none (fun _ => zeroPage) rfl
        (by decide) (by intro h; cases h))))
  ⟨hr, by decide, (forceFlushPool_until_pinned dirtyPool hr).1,
    (forceFlushPool_until_pinned dirtyPool hr).2.1⟩

end RecordManager
